import Mathlib

set_option maxRecDepth 1000000

/-!
# Verification of the intercom-help-sync markup codec

This file gives a shallow embedding, over `List Char`, of the bidirectional
HTML/Markdown codec of the repository (`src/utils/markdown.ts` and
`src/utils/markdown-to-html.ts` / `html-to-markdown.ts`), and proves or refutes
the frozen claims about it.

Modelling conventions:
* JavaScript strings are `List Char` (wrapped into `String` at the API surface).
* Each `String.prototype.replace(regex, f)` call with a `g` flag is embedded as
  a left-to-right scanner (`replaceScan`, or `replaceScanB` when the regex uses
  the `m` flag with `^` anchors); the concrete regular expressions of the source
  are deterministic (their backtracking never changes the overall match), and
  each one is embedded as an explicit matcher function returning the
  replacement text and the number of consumed characters.
* The WHATWG `new URL` / `URLSearchParams` platform API is modelled by
  `parseURL` / `parseForm` / `serializeForm` below, faithful on the URL shapes
  the codec meets (https scheme, host, optional decimal port, path, query with
  `application/x-www-form-urlencoded` parameters; percent-decoding is modelled
  at code-point level for code points below 256, code points above 255 are
  carried through literally).  `new URL` throwing is modelled by `Option`.
-/

/-! ## Basic helpers -/

/-- The characters of a string. -/
def lc (s : String) : List Char := s.data

/-- Back from characters to a string. -/
def sOf (l : List Char) : String := ⟨l⟩

/-- Single quote character (avoids an apostrophe literal). -/
def squote : Char := Char.ofNat 39

/-- Backtick character. -/
def btick : Char := Char.ofNat 96

/-- Drop a literal from the front of a list; `none` when it is not there. -/
def dropLit : List Char → List Char → Option (List Char)
  | [], s => some s
  | _, [] => none
  | p :: ps, c :: cs => if c = p then dropLit ps cs else none

/-- Case-insensitive variant of `dropLit` (models the regex `i` flag). -/
def dropLitCI : List Char → List Char → Option (List Char)
  | [], s => some s
  | _, [] => none
  | p :: ps, c :: cs => if c.toLower = p.toLower then dropLitCI ps cs else none

/-- Does the list start with the literal? -/
def startsL (p s : List Char) : Bool := (dropLit p s).isSome

/-- Split at the first occurrence of a literal: returns the part before it and
the part after it (the literal itself is dropped). -/
def findLit (pat : List Char) : List Char → Option (List Char × List Char)
  | [] => match dropLit pat [] with
    | some r => some ([], r)
    | none => none
  | c :: cs => match dropLit pat (c :: cs) with
    | some r => some ([], r)
    | none => match findLit pat cs with
      | some (a, b) => some (c :: a, b)
      | none => none

/-- Case-insensitive variant of `findLit`. -/
def findLitCI (pat : List Char) : List Char → Option (List Char × List Char)
  | [] => match dropLitCI pat [] with
    | some r => some ([], r)
    | none => none
  | c :: cs => match dropLitCI pat (c :: cs) with
    | some r => some ([], r)
    | none => match findLitCI pat cs with
      | some (a, b) => some (c :: a, b)
      | none => none

/-- Split a list on a separator character (n separators give n+1 pieces),
modelling `String.prototype.split` with a single-character separator. -/
def splitOnC (sep : Char) : List Char → List (List Char)
  | [] => [[]]
  | c :: cs =>
    if c = sep then [] :: splitOnC sep cs
    else match splitOnC sep cs with
      | [] => [[c]]
      | p :: ps => (c :: p) :: ps

/-- Join pieces with a separator character (inverse of `splitOnC`). -/
def joinC (sep : Char) : List (List Char) → List Char
  | [] => []
  | [p] => p
  | p :: ps => p ++ sep :: joinC sep ps

/-- Concatenate pieces (models `Array.prototype.join('')`). -/
def joinL (ls : List (List Char)) : List Char := ls.foldr (· ++ ·) []

/-- The JavaScript `\s` / whitespace set (the code points the codec meets). -/
def jsWs (c : Char) : Bool :=
  c = ' ' || c = '\t' || c = '\n' || c = '\r' || c = '\x0b' || c = '\x0c' ||
  c = ' '

/-- JavaScript `String.prototype.trim`. -/
def jsTrim (s : List Char) : List Char :=
  ((s.dropWhile jsWs).reverse.dropWhile jsWs).reverse

/-- JavaScript `String.prototype.trimEnd`. -/
def jsTrimEnd (s : List Char) : List Char :=
  (s.reverse.dropWhile jsWs).reverse

/-- The regex `\w` class. -/
def isWordC (c : Char) : Bool :=
  (c ≥ 'a' && c ≤ 'z') || (c ≥ 'A' && c ≤ 'Z') || (c ≥ '0' && c ≤ '9') || c = '_'

/-- ASCII decimal digit. -/
def isDigitC (c : Char) : Bool := c ≥ '0' && c ≤ '9'

/-! ## Generic replacement scanners

`replaceScan m s` models `s.replace(re, f)` for a global regex: it walks the
input left to right; at each position the matcher `m` receives the remaining
suffix and either declines or returns the replacement text together with the
number of consumed characters (every regex embedded here consumes at least one
character when it matches; `max k 1` makes the scanner total regardless). -/

def replaceScanF (m : List Char → Option (List Char × Nat)) :
    Nat → List Char → List Char
  | _, [] => []
  | 0, s => s
  | fuel + 1, c :: rest =>
    match m (c :: rest) with
    | some (rep, k) => rep ++ replaceScanF m fuel ((c :: rest).drop (max k 1))
    | none => c :: replaceScanF m fuel rest

/-- The scanner; `s.length` fuel always suffices since every step consumes at
least one character. -/
def replaceScan (m : List Char → Option (List Char × Nat)) (s : List Char) :
    List Char :=
  replaceScanF m s.length s

/-- Variant of `replaceScan` for regexes with the `m` flag and a `^` anchor:
the matcher additionally receives whether the current position is at the
beginning of a line of the original string. -/
def replaceScanBF (m : Bool → List Char → Option (List Char × Nat)) :
    Nat → Bool → List Char → List Char
  | _, _, [] => []
  | 0, _, s => s
  | fuel + 1, b, c :: rest =>
    match m b (c :: rest) with
    | some (rep, k) =>
      rep ++ replaceScanBF m fuel ((((c :: rest).take (max k 1)).getLast? == some '\n'))
        ((c :: rest).drop (max k 1))
    | none => c :: replaceScanBF m fuel (c == '\n') rest

def replaceScanB (m : Bool → List Char → Option (List Char × Nat)) (b : Bool)
    (s : List Char) : List Char :=
  replaceScanBF m s.length b s

/-- Collecting scanner, modelling a `while ((m = re.exec(s)) !== null)` loop:
walks the string and collects the values produced at each match. -/
def collectScanF {α : Type} (m : List Char → Option (α × Nat)) :
    Nat → List Char → List α
  | _, [] => []
  | 0, _ => []
  | fuel + 1, c :: rest =>
    match m (c :: rest) with
    | some (a, k) => a :: collectScanF m fuel ((c :: rest).drop (max k 1))
    | none => collectScanF m fuel rest

def collectScan {α : Type} (m : List Char → Option (α × Nat)) (s : List Char) :
    List α :=
  collectScanF m s.length s

/-! ## The CDN URL pattern of `markdown.ts`

The regexes of `stripImageSignatures` / `restoreImageSignatures` share the
hostname alternation `downloads\.intercomcdn\.com|[a-z0-9-]+\.intercom-attachments[a-z0-9.-]*`
and the character classes `[^"'\s?]` (base part) and `[^"'\s]` (query part). -/

def httpsLit : List Char := lc "https://"

def icdnLit : List Char := lc "downloads.intercomcdn.com"

def attLit : List Char := lc ".intercom-attachments"

/-- The class `[a-z0-9-]`. -/
def isHostA (c : Char) : Bool := (c ≥ 'a' && c ≤ 'z') || (c ≥ '0' && c ≤ '9') || c = '-'

/-- The class `[a-z0-9.-]`. -/
def isHostB (c : Char) : Bool := isHostA c || c = '.'

/-- A character ending the base part: the complement of `[^"'\s?]`. -/
def stopQ (c : Char) : Bool := c = '"' || c = squote || jsWs c || c = '?'

/-- A character ending the query part: the complement of `[^"'\s]`. -/
def stopNQ (c : Char) : Bool := c = '"' || c = squote || jsWs c

/-- Match the hostname alternation at the front of `s`; returns the matched
host text and the rest.  The two alternatives are mutually exclusive, and
backtracking inside the second one can never succeed, so this deterministic
function is faithful to the regex. -/
def hostSplit (s : List Char) : Option (List Char × List Char) :=
  match dropLit icdnLit s with
  | some r => some (icdnLit, r)
  | none =>
    let r1 := s.takeWhile isHostA
    let s1 := s.dropWhile isHostA
    if r1.isEmpty then none
    else match dropLit attLit s1 with
      | some s2 => some (r1 ++ attLit ++ s2.takeWhile isHostB, s2.dropWhile isHostB)
      | none => none

/-- Match the full signed-URL pattern
`(https://host[^"'\s?]*)\?[^"'\s]*` at the front of `s`: returns
`(base, query, rest)` with the input being `base ++ '?' :: query ++ rest`. -/
def sigMatch (s : List Char) : Option (List Char × List Char × List Char) :=
  match dropLit httpsLit s with
  | none => none
  | some s1 =>
    match hostSplit s1 with
    | none => none
    | some (h, s2) =>
      let run := s2.takeWhile (fun c => !stopQ c)
      match s2.dropWhile (fun c => !stopQ c) with
      | c :: s3 =>
        if c = '?' then
          some (httpsLit ++ h ++ run, s3.takeWhile (fun c => !stopNQ c),
            s3.dropWhile (fun c => !stopNQ c))
        else none
      | [] => none

/-! ## Model of `new URL` and `URLSearchParams` -/

/-- Hexadecimal digit value. -/
def hexVal (c : Char) : Option Nat :=
  if c ≥ '0' && c ≤ '9' then some (c.toNat - 48)
  else if c ≥ 'A' && c ≤ 'F' then some (c.toNat - 55)
  else if c ≥ 'a' && c ≤ 'f' then some (c.toNat - 87)
  else none

/-- Percent-decoding of a form-urlencoded component (`+` is a space). -/
def formDecodeF : Nat → List Char → List Char
  | _, [] => []
  | 0, s => s
  | f + 1, c :: r =>
    if c = '+' then ' ' :: formDecodeF f r
    else if c = '%' then
      match r with
      | a :: b :: r2 =>
        (match hexVal a, hexVal b with
         | some x, some y => Char.ofNat (16 * x + y) :: formDecodeF f r2
         | _, _ => '%' :: formDecodeF f r)
      | _ => '%' :: formDecodeF f r
    else c :: formDecodeF f r

def formDecode (s : List Char) : List Char := formDecodeF s.length s

/-- Characters serialized verbatim by the form-urlencoded serializer. -/
def formSafe (c : Char) : Bool :=
  (c ≥ 'a' && c ≤ 'z') || (c ≥ 'A' && c ≤ 'Z') || (c ≥ '0' && c ≤ '9') ||
  c = '*' || c = '-' || c = '.' || c = '_'

/-- Uppercase hexadecimal digit. -/
def hexDigit (n : Nat) : Char :=
  if n < 10 then Char.ofNat (48 + n) else Char.ofNat (55 + n)

/-- Percent-encoding of one character. -/
def formEncodeC (c : Char) : List Char :=
  if formSafe c then [c]
  else if c = ' ' then ['+']
  else if c.toNat ≤ 255 then ['%', hexDigit (c.toNat / 16), hexDigit (c.toNat % 16)]
  else [c]

/-- Percent-encoding of a component. -/
def formEncode (s : List Char) : List Char := joinL (s.map formEncodeC)

/-- Parse a query string into (decoded) name/value pairs, modelling the
`URLSearchParams` constructor: split on `&`, skip empty segments, split each
segment at its first `=`. -/
def parseForm (q : List Char) : List (List Char × List Char) :=
  (splitOnC '&' q).foldr
    (fun seg acc =>
      if seg.isEmpty then acc
      else (formDecode (seg.takeWhile (· ≠ '=')),
            formDecode ((seg.dropWhile (· ≠ '=')).drop 1)) :: acc) []

/-- Serialize name/value pairs, modelling `URLSearchParams.prototype.toString`. -/
def serializeForm (ps : List (List Char × List Char)) : List Char :=
  joinC '&' (ps.map (fun p => formEncode p.1 ++ '=' :: formEncode p.2))

/-- The signature parameter names `['expires', 'signature', 'req']`. -/
def sigNames : List (List Char) := [lc "expires", lc "signature", lc "req"]

/-- Model of deleting the signature parameters (`searchParams.delete` removes
every entry with the given name, preserving the order of the others). -/
def deleteSigParams (ps : List (List Char × List Char)) :
    List (List Char × List Char) :=
  ps.filter (fun p => !(sigNames.contains p.1))

/-- The parts of a parsed URL the codec consults. -/
structure UrlT where
  origin : List Char
  path : List Char
  params : List (List Char × List Char)
deriving Repr, DecidableEq

/-- A code point that makes URL host parsing fail. -/
def badHostC (c : Char) : Bool :=
  c = '#' || c = '?' || c = '@' || c = '[' || c = ']' || c = '|' || c = '^' ||
  c = '\\' || c = '<' || c = '>' || c = '"' || c = squote || c = '%' || c = '/'

/-- Digits of a natural number. -/
def natDigits (n : Nat) : List Char := (toString n).data

/-- Validate an (already split off) port string: empty means the default port;
otherwise it must be all decimal digits with value at most 65535.  Returns the
effective port, `none` standing for the scheme default. -/
def checkPort (hasColon : Bool) (portS : List Char) : Option (Option Nat) :=
  if !hasColon then some none
  else if portS.isEmpty then some none
  else if portS.all isDigitC then
    let v := portS.foldl (fun a c => a * 10 + (c.toNat - 48)) 0
    if v ≤ 65535 then (if v = 443 then some none else some (some v)) else none
  else none

/-- The query string `new URL` extracts from the part following the
authority: the text strictly between the first `?` and the fragment. -/
def queryOf (rest : List Char) : List Char :=
  let after := rest.dropWhile (fun c => !(c = '?' || c = '#'))
  match after with
  | '?' :: t => t.takeWhile (· ≠ '#')
  | _ => []

/-- Model of `new URL(s)` for the inputs the codec meets (always an absolute
`https://` URL, as every matched occurrence starts with the literal).  Returns
`none` where the platform parser throws. -/
def parseURL (s : List Char) : Option UrlT :=
  match dropLit httpsLit s with
  | none => none
  | some r =>
    let auth := r.takeWhile (fun c => !(c = '/' || c = '?' || c = '#'))
    let rest := r.dropWhile (fun c => !(c = '/' || c = '?' || c = '#'))
    let hp := ((auth.reverse.takeWhile (· ≠ '@'))).reverse
    let host := hp.takeWhile (· ≠ ':')
    let portS := (hp.dropWhile (· ≠ ':')).drop 1
    if host.isEmpty then none
    else if host.any badHostC then none
    else
      match checkPort (hp.any (· = ':')) portS with
      | none => none
      | some portOpt =>
        let path := rest.takeWhile (fun c => !(c = '?' || c = '#'))
        some { origin := httpsLit ++ host.map Char.toLower ++
                 (match portOpt with | none => [] | some p => ':' :: natDigits p),
               path := (if path.isEmpty then ['/'] else path),
               params := parseForm (queryOf rest) }

/-! ## `stripImageSignatures` and `restoreImageSignatures` -/

/-- The replacement computed by the callback of `stripImageSignatures`:
parse the matched URL, delete the signature parameters, keep the raw base;
on a parse failure the callback returns the base alone (dropping the query). -/
def stripRepl (base q : List Char) : List Char :=
  match parseURL (base ++ '?' :: q) with
  | none => base
  | some u =>
    let rq := serializeForm (deleteSigParams u.params)
    if rq.isEmpty then base else base ++ '?' :: rq

/-- Matcher of the `stripImageSignatures` regex. -/
def stripMatcher (s : List Char) : Option (List Char × Nat) :=
  match sigMatch s with
  | none => none
  | some (base, q, _) => some (stripRepl base q, base.length + 1 + q.length)

/-- `stripImageSignatures` on characters. -/
def stripL (s : List Char) : List Char := replaceScan stripMatcher s

/-- `stripImageSignatures` (markdown.ts). -/
def stripImageSignatures (s : String) : String := sOf (stripL (lc s))

/-- The canonical key of a parsed URL: origin + pathname + the remaining
non-signature parameters, as built by both `restoreImageSignatures` loops. -/
def canonKey (u : UrlT) : List Char :=
  let rq := serializeForm (deleteSigParams u.params)
  if rq.isEmpty then u.origin ++ u.path else u.origin ++ u.path ++ '?' :: rq

/-- `Map.prototype.set`: update in place when the key exists, append otherwise. -/
def mapPut (m : List (List Char × List Char)) (k v : List Char) :
    List (List Char × List Char) :=
  if m.any (fun e => e.1 = k) then m.map (fun e => if e.1 = k then (k, v) else e)
  else m ++ [(k, v)]

/-- `Map.prototype.get` (as an `Option`). -/
def mapGet (m : List (List Char × List Char)) (k : List Char) : Option (List Char) :=
  (m.find? (fun e => e.1 = k)).map (·.2)

/-- The index-building loop of `restoreImageSignatures`: scan the original HTML
with the signed-URL regex and record, per canonical key, the last seen full
URL; occurrences whose URL fails to parse are skipped. -/
def buildMapGoF : Nat → List Char → List (List Char × List Char) →
    List (List Char × List Char)
  | _, [], acc => acc
  | 0, _, acc => acc
  | fuel + 1, c :: rest, acc =>
    match sigMatch (c :: rest) with
    | some (base, q, _) =>
      let full := base ++ '?' :: q
      buildMapGoF fuel ((c :: rest).drop (max (base.length + 1 + q.length) 1))
        (match parseURL full with
         | none => acc
         | some u => mapPut acc (canonKey u) full)
    | none => buildMapGoF fuel rest acc

/-- The signature index built from an original HTML string. -/
def buildMap (orig : List Char) : List (List Char × List Char) :=
  buildMapGoF orig.length orig []

/-- Matcher of the replacement regex of `restoreImageSignatures`
(`(base)(?:\?[^"'\s]*)?`): matches a base URL with an optional query; on parse
success the canonical key is looked up, otherwise the occurrence is kept. -/
def restMatcher (m : List (List Char × List Char)) (s : List Char) :
    Option (List Char × Nat) :=
  match dropLit httpsLit s with
  | none => none
  | some s1 =>
    match hostSplit s1 with
    | none => none
    | some (h, s2) =>
      let run := s2.takeWhile (fun c => !stopQ c)
      let base := httpsLit ++ h ++ run
      let mt := match s2.dropWhile (fun c => !stopQ c) with
        | '?' :: s4 => base ++ '?' :: s4.takeWhile (fun c => !stopNQ c)
        | _ => base
      match parseURL mt with
      | none => some (mt, mt.length)
      | some u => some ((mapGet m (canonKey u)).getD mt, mt.length)

/-- `restoreImageSignatures` on characters. -/
def restoreL (s orig : List Char) : List Char :=
  replaceScan (restMatcher (buildMap orig)) s

/-- `restoreImageSignatures` (markdown.ts). -/
def restoreImageSignatures (s orig : String) : String :=
  sOf (restoreL (lc s) (lc orig))

/-! ## Encoder: `markdownToHtml` (markdown-to-html.ts) -/

/-- `CALLOUT_STYLES`: color name → (background, border). -/
def calloutStyles : List (List Char × (List Char × List Char)) :=
  [(lc "gray", (lc "#e8e8e880", lc "#73737633")),
   (lc "blue", (lc "#e3e7fa80", lc "#334bfa33")),
   (lc "green", (lc "#d7efdc80", lc "#1bb15733")),
   (lc "red", (lc "#fed9db80", lc "#fd3a5733")),
   (lc "yellow", (lc "#feedaf80", lc "#fbc91633"))]

/-- Association-list lookup. -/
def alGet {α : Type} (m : List (List Char × α)) (k : List Char) : Option α :=
  (m.find? (fun e => e.1 = k)).map (·.2)

/-- The fence literal (three backticks). -/
def fenceL : List Char := [btick, btick, btick]

def ast1 : List Char := ['*']
def ast2 : List Char := ['*', '*']
def ast3 : List Char := ['*', '*', '*']

/-- Lazy `(.+?)` followed by a literal: the shortest non-empty newline-free
prefix after which the literal occurs; returns (content, rest-after-literal). -/
def lazyDotLit (pat : List Char) : List Char → Option (List Char × List Char)
  | [] => none
  | c :: rest =>
    if c = '\n' then none
    else match dropLit pat rest with
      | some r => some ([c], r)
      | none => match lazyDotLit pat rest with
        | some (a, b) => some (c :: a, b)
        | none => none

/-- Matcher of `/\*\*\*(.+?)\*\*\*/g`. -/
def biMatcher (s : List Char) : Option (List Char × Nat) :=
  match dropLit ast3 s with
  | none => none
  | some s1 =>
    match lazyDotLit ast3 s1 with
    | none => none
    | some (content, _) =>
      some (lc "<b><i>" ++ content ++ lc "</i></b>", 3 + content.length + 3)

/-- Matcher of `/\*\*(.+?)\*\*/g`. -/
def boldMatcherE (s : List Char) : Option (List Char × Nat) :=
  match dropLit ast2 s with
  | none => none
  | some s1 =>
    match lazyDotLit ast2 s1 with
    | none => none
    | some (content, _) =>
      some (lc "<b>" ++ content ++ lc "</b>", 2 + content.length + 2)

/-- Matcher of `/\*(.+?)\*/g`. -/
def italMatcherE (s : List Char) : Option (List Char × Nat) :=
  match dropLit ast1 s with
  | none => none
  | some s1 =>
    match lazyDotLit ast1 s1 with
    | none => none
    | some (content, _) =>
      some (lc "<i>" ++ content ++ lc "</i>", 1 + content.length + 1)

/-- Matcher of the inline-code regex (backtick, `[^`]+`, backtick). -/
def codeMatcherE (s : List Char) : Option (List Char × Nat) :=
  match s with
  | c :: s1 =>
    if c = btick then
      let content := s1.takeWhile (· ≠ btick)
      if content.isEmpty then none
      else match s1.drop content.length with
        | d :: _ =>
          if d = btick then
            some (lc "<code>" ++ content ++ lc "</code>", 1 + content.length + 1)
          else none
        | [] => none
    else none
  | [] => none

/-- `convertInlineFormattingToHtml`. -/
def convertInlineFormattingToHtmlL (s : List Char) : List Char :=
  replaceScan codeMatcherE
    (replaceScan italMatcherE (replaceScan boldMatcherE (replaceScan biMatcher s)))

/-- `encodeHtmlEntities` (four successive global replaces). -/
def charRepl (c : Char) (rep : List Char) : List Char → List Char :=
  replaceScan (fun s => match s with
    | d :: _ => if d = c then some (rep, 1) else none
    | [] => none)

def encodeHtmlEntitiesL (s : List Char) : List Char :=
  charRepl '"' (lc "&quot;")
    (charRepl '>' (lc "&gt;")
      (charRepl '<' (lc "&lt;") (charRepl '&' (lc "&amp;") s)))

/-- The `(gray|blue|green|red|yellow)` alternation. -/
def colorAlt (s : List Char) : Option (List Char × List Char) :=
  match dropLit (lc "gray") s with
  | some r => some (lc "gray", r)
  | none => match dropLit (lc "blue") s with
    | some r => some (lc "blue", r)
    | none => match dropLit (lc "green") s with
      | some r => some (lc "green", r)
      | none => match dropLit (lc "red") s with
        | some r => some (lc "red", r)
        | none => match dropLit (lc "yellow") s with
          | some r => some (lc "yellow", r)
          | none => none

/-- Matcher of the callout fenced-block regex of `convertCalloutBlocks`. -/
def calloutBlockM (s : List Char) : Option (List Char × Nat) :=
  match dropLit (fenceL ++ lc "callout-") s with
  | none => none
  | some s1 =>
    match colorAlt s1 with
    | none => none
    | some (col, s2) =>
      match s2 with
      | '\n' :: s3 =>
        match findLit fenceL s3 with
        | none => none
        | some (content, rest) =>
          let style := (alGet calloutStyles col).getD (lc "#e8e8e880", lc "#73737633")
          let inner := lc "<p class=\"no-margin\">" ++
            convertInlineFormattingToHtmlL (jsTrim content) ++ lc "</p>"
          some (lc "<div class=\"intercom-interblocks-callout\" style=\"background-color: " ++
            style.1 ++ lc "; border-color: " ++ style.2 ++ lc ";\">" ++ inner ++ lc "</div>",
            s.length - rest.length)
      | _ => none

def convertCalloutBlocksL (s : List Char) : List Char := replaceScan calloutBlockM s

/-- Matcher of the generic fenced code block regex of `convertCodeBlocksToHtml`
(with the `(?!callout-)` lookahead). -/
def codeBlockME (s : List Char) : Option (List Char × Nat) :=
  match dropLit fenceL s with
  | none => none
  | some s1 =>
    if startsL (lc "callout-") s1 then none
    else
      let lang := s1.takeWhile isWordC
      match s1.drop lang.length with
      | '\n' :: s2 =>
        match findLit fenceL s2 with
        | none => none
        | some (content, rest) =>
          some (lc "<pre><code>" ++ encodeHtmlEntitiesL (jsTrim content) ++
            lc "</code></pre>", s.length - rest.length)
      | _ => none

def convertCodeBlocksToHtmlL (s : List Char) : List Char := replaceScan codeBlockME s

/-- The `(center|right|justify)` alternation. -/
def alignAlt (s : List Char) : Option (List Char × List Char) :=
  match dropLit (lc "center") s with
  | some r => some (lc "center", r)
  | none => match dropLit (lc "right") s with
    | some r => some (lc "right", r)
    | none => match dropLit (lc "justify") s with
      | some r => some (lc "justify", r)
      | none => none

/-- Matcher of the aligned-heading regex of `convertHeadingsToHtml`. -/
def alignedHeadingM (s : List Char) : Option (List Char × Nat) :=
  match dropLit (lc "<!-- align:") s with
  | none => none
  | some s1 =>
    match alignAlt s1 with
    | none => none
    | some (al, s2) =>
      match dropLit (lc " -->") s2 with
      | none => none
      | some s3 =>
        let hashes := s3.takeWhile (· = '#')
        if hashes.isEmpty || hashes.length > 4 then none
        else match s3.drop hashes.length with
          | ' ' :: s5 =>
            let content := s5.takeWhile (· ≠ '\n')
            if content.isEmpty then none
            else
              some (lc "<h" ++ natDigits hashes.length ++ lc " class=\"intercom-align-" ++
                al ++ lc "\">" ++ jsTrim content ++ lc "</h" ++ natDigits hashes.length ++
                lc ">", s.length - (s5.length - content.length))
          | _ => none

/-- Matcher of a regular-heading regex `^#{n} (.+)$` for one level. -/
def regHeadingM (lvl : Nat) (bol : Bool) (s : List Char) : Option (List Char × Nat) :=
  if !bol then none
  else match dropLit (List.replicate lvl '#') s with
    | none => none
    | some s1 =>
      match s1 with
      | ' ' :: s2 =>
        if s2.takeWhile (· ≠ '\n') = [] then none
        else
          let content := s2.takeWhile (· ≠ '\n')
          some (lc "<h" ++ natDigits lvl ++ lc ">" ++ jsTrim content ++ lc "</h" ++
            natDigits lvl ++ lc ">", lvl + 1 + content.length)
      | _ => none

/-- The heading-regex at level n must not fire when more hashes follow
(`^## (.+)` does not match `### x` only because the char after `##` is `#`,
which is handled by the ' ' pattern above). -/
def convertHeadingsToHtmlL (s : List Char) : List Char :=
  let s1 := replaceScan alignedHeadingM s
  let s2 := replaceScanB (regHeadingM 4) true s1
  let s3 := replaceScanB (regHeadingM 3) true s2
  let s4 := replaceScanB (regHeadingM 2) true s3
  replaceScanB (regHeadingM 1) true s4

/-- Image attribute fragment. -/
def altAttrL (alt : List Char) : List Char :=
  if alt.isEmpty then [] else lc " alt=\"" ++ alt ++ lc "\""

/-- Matcher of the aligned-image regex of `convertImagesToHtml`. -/
def alignedImageME (s : List Char) : Option (List Char × Nat) :=
  match dropLit (lc "<!-- align:center -->![") s with
  | none => none
  | some s1 =>
    let alt := s1.takeWhile (· ≠ ']')
    match dropLit (lc "](") (s1.drop alt.length) with
    | none => none
    | some s2 =>
      let src := s2.takeWhile (· ≠ ')')
      if src.isEmpty then none
      else match s2.drop src.length with
        | ')' :: rest =>
          some (lc "<div class=\"intercom-container intercom-align-center\"><img src=\"" ++
            src ++ lc "\"" ++ altAttrL alt ++ lc "></div>", s.length - rest.length)
        | _ => none

/-- Matcher of the plain-image regex of `convertImagesToHtml`. -/
def regImageME (s : List Char) : Option (List Char × Nat) :=
  match dropLit (lc "![") s with
  | none => none
  | some s1 =>
    let alt := s1.takeWhile (· ≠ ']')
    match dropLit (lc "](") (s1.drop alt.length) with
    | none => none
    | some s2 =>
      let src := s2.takeWhile (· ≠ ')')
      if src.isEmpty then none
      else match s2.drop src.length with
        | ')' :: rest =>
          some (lc "<div class=\"intercom-container\"><img src=\"" ++ src ++ lc "\"" ++
            altAttrL alt ++ lc "></div>", s.length - rest.length)
        | _ => none

def convertImagesToHtmlL (s : List Char) : List Char :=
  replaceScan regImageME (replaceScan alignedImageME s)

/-! ### Markdown tables → HTML -/

def isSpTab (c : Char) : Bool := c = ' ' || c = '\t'

/-- Match one pipe-delimited table line `\|(.+)\|[ \t]*(?:\n|$)` at the front:
returns (inner capture, consumed chars, whether the newline was consumed). -/
def tableLineM (s : List Char) : Option (List Char × Nat × Bool) :=
  match s with
  | '|' :: s1 =>
    let line := s1.takeWhile (· ≠ '\n')
    let rest := s1.dropWhile (· ≠ '\n')
    match (line.reverse.dropWhile isSpTab) with
    | '|' :: rinner =>
      if rinner.isEmpty then none
      else match rest with
        | '\n' :: _ => some (rinner.reverse, 1 + line.length + 1, true)
        | _ => some (rinner.reverse, 1 + line.length, false)
    | _ => none
  | _ => none

def sepClassC (c : Char) : Bool := jsWs c || c = '-' || c = ':' || c = '|'

/-- One backtracking attempt of the separator-row pattern
`[\s\-:|]+\|[ \t]*(?:\n|$)` over `s1`, with `i` characters consumed by the
plus: returns the consumed count (from `s1`). -/
def sepTryAt (s1 : List Char) (i : Nat) : Option Nat :=
  match s1.drop i with
  | '|' :: t =>
    let k := (t.takeWhile isSpTab).length
    match t.drop k with
    | '\n' :: _ => some (i + 1 + k + 1)
    | [] => some (i + 1 + k)
    | _ => none
  | _ => none

/-- Backtracking search, greedy attempt first. -/
def sepSearch (s1 : List Char) : Nat → Option Nat
  | 0 => none
  | i + 1 =>
    match sepTryAt s1 (i + 1) with
    | some n => some n
    | none => sepSearch s1 i

/-- Matcher of the separator row `\|[\s\-:|]+\|[ \t]*(?:\n|$)`. -/
def sepM (s : List Char) : Option Nat :=
  match s with
  | '|' :: s1 =>
    match sepSearch s1 (s1.takeWhile sepClassC).length with
    | some n => some (1 + n)
    | none => none
  | _ => none

/-- The `(?:\|.+\|[ \t]*(?:\n|$))*` star: raw matched text and consumed count. -/
def bodyLoopF : Nat → List Char → List Char × Nat
  | _, [] => ([], 0)
  | 0, _ => ([], 0)
  | fuel + 1, c :: rest =>
    match tableLineM (c :: rest) with
    | none => ([], 0)
    | some (_, k, _) =>
      let k1 := max k 1
      let p := bodyLoopF fuel ((c :: rest).drop k1)
      (((c :: rest).take k1) ++ p.1, k1 + p.2)

def bodyLoop (s : List Char) : List Char × Nat := bodyLoopF s.length s

/-- Cell list of a pipe row: split on `|`, trim, drop empties (the
`.filter(cell => cell)` of the source). -/
def mdCells (line : List Char) : List (List Char) :=
  ((splitOnC '|' line).map jsTrim).filter (fun c => !c.isEmpty)

def tdCell (c : List Char) : List Char :=
  lc "<td><p class=\"no-margin\">" ++ c ++ lc "</p></td>"

/-- The replacement callback of `convertTablesToHtml`. -/
def buildTableHtml (hdr bodyRaw : List Char) : List Char :=
  let headerCells := mdCells hdr
  let rows := if (jsTrim bodyRaw).isEmpty then []
    else ((splitOnC '\n' (jsTrim bodyRaw)).map mdCells).filter (fun r => !r.isEmpty)
  lc "<div class=\"intercom-interblocks-table-container\"><table role=\"presentation\"><tbody>" ++
  (lc "<tr>" ++ joinL (headerCells.map tdCell) ++ lc "</tr>") ++
  joinL (rows.map (fun row =>
    lc "<tr>" ++
    joinL ((List.range headerCells.length).map (fun i => tdCell ((row.get? i).getD []))) ++
    lc "</tr>")) ++
  lc "</tbody></table></div>"

/-- Matcher of the full markdown-table regex (anchored at a line start, header
line must end in a real newline). -/
def tableME (bol : Bool) (s : List Char) : Option (List Char × Nat) :=
  if !bol then none
  else match tableLineM s with
    | none => none
    | some (hdr, k1, hadNl) =>
      if !hadNl then none
      else match sepM (s.drop k1) with
        | none => none
        | some k2 =>
          let p := bodyLoop (s.drop (k1 + k2))
          some (buildTableHtml hdr p.1, k1 + k2 + p.2)

def convertTablesToHtmlL (s : List Char) : List Char := replaceScanB tableME true s

/-- Matcher of `/^---$/gm`. -/
def hrME (bol : Bool) (s : List Char) : Option (List Char × Nat) :=
  if !bol then none
  else match dropLit (lc "---") s with
    | none => none
    | some s1 =>
      match s1 with
      | [] => some (lc "<hr>", 3)
      | '\n' :: _ => some (lc "<hr>", 3)
      | _ => none

/-! ### Lists, paragraphs, links -/

/-- One `- x` line (with its optional newline): consumed count. -/
def ulLineM (s : List Char) : Option Nat :=
  match dropLit (lc "- ") s with
  | none => none
  | some s1 =>
    let content := s1.takeWhile (· ≠ '\n')
    if content.isEmpty then none
    else match s1.drop content.length with
      | '\n' :: _ => some (2 + content.length + 1)
      | _ => some (2 + content.length)

def ulLoopF : Nat → List Char → Nat
  | _, [] => 0
  | 0, _ => 0
  | fuel + 1, c :: rest =>
    match ulLineM (c :: rest) with
    | none => 0
    | some k =>
      let k1 := max k 1
      k1 + ulLoopF fuel ((c :: rest).drop k1)

def ulLoop (s : List Char) : Nat := ulLoopF s.length s

/-- One `\d+\. x` line (with its optional newline): consumed count. -/
def olLineM (s : List Char) : Option Nat :=
  let ds := s.takeWhile isDigitC
  if ds.isEmpty then none
  else match s.drop ds.length with
    | '.' :: ' ' :: s2 =>
      let content := s2.takeWhile (· ≠ '\n')
      if content.isEmpty then none
      else match s2.drop content.length with
        | '\n' :: _ => some (ds.length + 2 + content.length + 1)
        | _ => some (ds.length + 2 + content.length)
    | _ => none

def olLoopF : Nat → List Char → Nat
  | _, [] => 0
  | 0, _ => 0
  | fuel + 1, c :: rest =>
    match olLineM (c :: rest) with
    | none => 0
    | some k =>
      let k1 := max k 1
      k1 + olLoopF fuel ((c :: rest).drop k1)

def olLoop (s : List Char) : Nat := olLoopF s.length s

/-- `line.replace(/^- /, '')`. -/
def dropLeadDash (line : List Char) : List Char :=
  if startsL (lc "- ") line then line.drop 2 else line

/-- `line.replace(/^\d+\. /, '')`. -/
def dropLeadNum (line : List Char) : List Char :=
  let ds := line.takeWhile isDigitC
  if ds.isEmpty then line
  else match line.drop ds.length with
    | '.' :: ' ' :: r => r
    | _ => line

def liWrap (x : List Char) : List Char :=
  lc "<li><p class=\"no-margin\">" ++ x ++ lc "</p></li>"

/-- Matcher of the unordered-list run regex `/(?:^- .+$\n?)+/gm`. -/
def ulRunM (bol : Bool) (s : List Char) : Option (List Char × Nat) :=
  if !bol then none
  else
    let k := ulLoop s
    if k = 0 then none
    else
      let raw := s.take k
      let items := (splitOnC '\n' (jsTrim raw)).map
        (fun line => liWrap (jsTrim (dropLeadDash line)))
      some (lc "<ul>" ++ joinL items ++ lc "</ul>", k)

/-- Matcher of the ordered-list run regex `/(?:^\d+\. .+$\n?)+/gm`. -/
def olRunM (bol : Bool) (s : List Char) : Option (List Char × Nat) :=
  if !bol then none
  else
    let k := olLoop s
    if k = 0 then none
    else
      let raw := s.take k
      let items := (splitOnC '\n' (jsTrim raw)).map
        (fun line => liWrap (jsTrim (dropLeadNum line)))
      some (lc "<ol>" ++ joinL items ++ lc "</ol>", k)

def convertListsToHtmlL (s : List Char) : List Char :=
  replaceScanB olRunM true (replaceScanB ulRunM true s)

/-- The `trimmed.match(/^<!-- align:(center|right|justify) -->(.+)$/s)` test. -/
def alignedLineP (t : List Char) : Option (List Char × List Char) :=
  match dropLit (lc "<!-- align:") t with
  | none => none
  | some s1 =>
    match alignAlt s1 with
    | none => none
    | some (al, s2) =>
      match dropLit (lc " -->") s2 with
      | none => none
      | some s3 => if s3.isEmpty then none else some (al, s3)

/-- The per-line paragraph conversion of `convertParagraphsToHtml`. -/
def pLineE (line : List Char) : Option (List Char) :=
  let t := jsTrim line
  if t.isEmpty then none
  else if startsL (lc "<") t && !startsL (lc "<!--") t then some t
  else match alignedLineP t with
    | some (al, content) =>
      some (lc "<p class=\"intercom-align-" ++ al ++ lc " no-margin\">" ++
        jsTrim content ++ lc "</p>")
    | none => some (lc "<p class=\"no-margin\">" ++ t ++ lc "</p>")

def convertParagraphsToHtmlL (s : List Char) : List Char :=
  joinL ((splitOnC '\n' s).filterMap pLineE)

/-- Matcher of the link regex `/\[([^\]]+)\]\(([^)]+)\)/g`. -/
def linkME (s : List Char) : Option (List Char × Nat) :=
  match s with
  | '[' :: s1 =>
    let text := s1.takeWhile (· ≠ ']')
    if text.isEmpty then none
    else match dropLit (lc "](") (s1.drop text.length) with
      | none => none
      | some s2 =>
        let href := s2.takeWhile (· ≠ ')')
        if href.isEmpty then none
        else match s2.drop href.length with
          | ')' :: _ =>
            some (lc "<a href=\"" ++ href ++
              lc "\" target=\"_blank\" class=\"intercom-content-link\">" ++ text ++
              lc "</a>", 1 + text.length + 2 + href.length + 1)
          | _ => none
  | _ => none

def convertLinksToHtmlL (s : List Char) : List Char := replaceScan linkME s

/-- Matcher of `/  \n/g` (soft break → break tag). -/
def brME (s : List Char) : Option (List Char × Nat) :=
  match s with
  | ' ' :: ' ' :: '\n' :: _ => some (lc "<br>", 3)
  | _ => none

/-- Matcher of `/>\s+</g`. -/
def tagGapM (s : List Char) : Option (List Char × Nat) :=
  match s with
  | '>' :: rest =>
    let ws := rest.takeWhile jsWs
    if ws.isEmpty then none
    else match rest.drop ws.length with
      | '<' :: _ => some (lc "><", 1 + ws.length + 1)
      | _ => none
  | _ => none

/-- Matcher of the empty-paragraph regex `/<p[^>]*>\s*<\/p>/g`. -/
def emptyPM (s : List Char) : Option (List Char × Nat) :=
  match dropLit (lc "<p") s with
  | none => none
  | some s1 =>
    let attrs := s1.takeWhile (· ≠ '>')
    match s1.drop attrs.length with
    | '>' :: s3 =>
      let ws := s3.takeWhile jsWs
      match dropLit (lc "</p>") (s3.drop ws.length) with
      | some _ => some ([], 2 + attrs.length + 1 + ws.length + 4)
      | none => none
    | _ => none

/-- `cleanupHtml`. -/
def cleanupHtmlL (s : List Char) : List Char :=
  jsTrim (replaceScan emptyPM (replaceScan tagGapM s))

/-- `markdownToHtml` on characters; `orig` is the optional original HTML
(`if (originalHtml)` treats the empty string like an absent argument). -/
def markdownToHtmlL (md : List Char) (orig : Option (List Char)) : List Char :=
  let r1 := convertCalloutBlocksL md
  let r2 := convertCodeBlocksToHtmlL r1
  let r3 := convertHeadingsToHtmlL r2
  let r4 := convertImagesToHtmlL r3
  let r5 := convertTablesToHtmlL r4
  let r6 := replaceScanB hrME true r5
  let r7 := convertListsToHtmlL r6
  let r8 := convertParagraphsToHtmlL r7
  let r9 := convertLinksToHtmlL r8
  let r10 := convertInlineFormattingToHtmlL r9
  let r11 := replaceScan brME r10
  let r12 := cleanupHtmlL r11
  match orig with
  | some o => if o.isEmpty then r12 else restoreL r12 o
  | none => r12

/-- `markdownToHtml` (markdown-to-html.ts). -/
def markdownToHtml (md : String) (orig : Option String) : String :=
  sOf (markdownToHtmlL (lc md) (orig.map lc))

/-! ## Decoder: `htmlToMarkdown` (html-to-markdown.ts) -/

/-- `CALLOUT_COLORS`: background color → color name. -/
def calloutColors : List (List Char × List Char) :=
  [(lc "#e8e8e880", lc "gray"),
   (lc "#e8e8e8", lc "gray"),
   (lc "#e3e7fa80", lc "blue"),
   (lc "#d7efdc80", lc "green"),
   (lc "#fed9db80", lc "red"),
   (lc "#feedaf80", lc "yellow")]

/-- Matcher of `/<(b|strong)>([\s\S]*?)<\/\1>/gi` (and its `i|em` twin):
first tag alternative that matches wins; the same tag must close it. -/
def pairTagM (t1 t2 : List Char) (marker : List Char) (s : List Char) :
    Option (List Char × Nat) :=
  match dropLitCI (lc "<" ++ t1 ++ lc ">") s with
  | some s1 =>
    match findLitCI (lc "</" ++ t1 ++ lc ">") s1 with
    | some (content, rest) => some (marker ++ content ++ marker, s.length - rest.length)
    | none => none
  | none =>
    match dropLitCI (lc "<" ++ t2 ++ lc ">") s with
    | some s1 =>
      match findLitCI (lc "</" ++ t2 ++ lc ">") s1 with
      | some (content, rest) => some (marker ++ content ++ marker, s.length - rest.length)
      | none => none
    | none => none

/-- Matcher of `/<code>([\s\S]*?)<\/code>/gi`. -/
def codeTagM (s : List Char) : Option (List Char × Nat) :=
  match dropLitCI (lc "<code>") s with
  | none => none
  | some s1 =>
    match findLitCI (lc "</code>") s1 with
    | some (content, rest) =>
      some (btick :: content ++ [btick], s.length - rest.length)
    | none => none

/-- `convertInlineFormatting` (decode direction). -/
def convertInlineFormattingL (s : List Char) : List Char :=
  replaceScan codeTagM
    (replaceScan (pairTagM (lc "i") (lc "em") ast1)
      (replaceScan (pairTagM (lc "b") (lc "strong") ast2) s))

/-- Matcher of `/<[^>]*>/g` (strip tags). -/
def stripTagM (s : List Char) : Option (List Char × Nat) :=
  match s with
  | '<' :: s1 =>
    let inner := s1.takeWhile (· ≠ '>')
    match s1.drop inner.length with
    | '>' :: _ => some ([], 1 + inner.length + 1)
    | _ => none
  | _ => none

/-- `stripHtmlTags`. -/
def stripHtmlTagsL (s : List Char) : List Char := replaceScan stripTagM s

/-- The entity table of `decodeHtmlEntities`. -/
def entityTable : List (List Char × List Char) :=
  [(lc "&amp;", lc "&"), (lc "&lt;", lc "<"), (lc "&gt;", lc ">"),
   (lc "&quot;", lc "\""), (lc "&#39;", [squote]), (lc "&nbsp;", lc " ")]

/-- Matcher of `/&[^;]+;/g` with the entity lookup (`entities[entity] || entity`). -/
def entityM (s : List Char) : Option (List Char × Nat) :=
  match s with
  | '&' :: s1 =>
    let body := s1.takeWhile (· ≠ ';')
    if body.isEmpty then none
    else match s1.drop body.length with
      | ';' :: _ =>
        let ent := '&' :: body ++ [';']
        some ((alGet entityTable ent).getD ent, 1 + body.length + 1)
      | _ => none
  | _ => none

/-- `decodeHtmlEntities`. -/
def decodeHtmlEntitiesL (s : List Char) : List Char := replaceScan entityM s

/-- Matcher of the paragraph-unwrap replace
`/<p[^>]*>([\s\S]*?)<\/p>/gi` with replacement `$1` or `$1\n`. -/
def pUnwrapM (nl : Bool) (s : List Char) : Option (List Char × Nat) :=
  match dropLitCI (lc "<p") s with
  | none => none
  | some s1 =>
    let attrs := s1.takeWhile (· ≠ '>')
    match s1.drop attrs.length with
    | '>' :: s2 =>
      match findLitCI (lc "</p>") s2 with
      | some (content, rest) =>
        some (content ++ (if nl then ['\n'] else []), s.length - rest.length)
      | none => none
    | _ => none

/-! ### HTML tables → Markdown -/

/-- Matcher of `/<td[^>]*>([\s\S]*?)<\/td>/gi` producing the processed cell. -/
def cellM (s : List Char) : Option (List Char × Nat) :=
  match dropLitCI (lc "<td") s with
  | none => none
  | some s1 =>
    let attrs := s1.takeWhile (· ≠ '>')
    match s1.drop attrs.length with
    | '>' :: s2 =>
      match findLitCI (lc "</td>") s2 with
      | some (content, rest) =>
        some (convertInlineFormattingL
          (jsTrim (replaceScan (pUnwrapM false) content)), s.length - rest.length)
      | none => none
    | _ => none

/-- Matcher of `/<tr[^>]*>([\s\S]*?)<\/tr>/gi` producing the row's cells. -/
def rowM (s : List Char) : Option (List (List Char) × Nat) :=
  match dropLitCI (lc "<tr") s with
  | none => none
  | some s1 =>
    let attrs := s1.takeWhile (· ≠ '>')
    match s1.drop attrs.length with
    | '>' :: s2 =>
      match findLitCI (lc "</tr>") s2 with
      | some (content, rest) => some (collectScan cellM content, s.length - rest.length)
      | none => none
    | _ => none

/-- `[^>]*>` after a case-insensitive literal: returns the rest after `>`. -/
def tagTail (s : List Char) : Option (List Char) :=
  let attrs := s.takeWhile (· ≠ '>')
  match s.drop attrs.length with
  | '>' :: r => some r
  | _ => none

/-- `\s*` then a case-insensitive literal. -/
def wsLitCI (pat s : List Char) : Option (List Char) :=
  dropLitCI pat (s.dropWhile jsWs)

/-- Lazy `([\s\S]*?)` up to `</tbody>\s*</table>\s*</div>`: content and rest. -/
def tbodyEnd : List Char → Option (List Char × List Char)
  | [] => none
  | c :: cs =>
    match dropLitCI (lc "</tbody>") (c :: cs) with
    | some r1 =>
      match wsLitCI (lc "</table>") r1 with
      | some r2 =>
        match wsLitCI (lc "</div>") r2 with
        | some r3 => some ([], r3)
        | none =>
          match tbodyEnd cs with
          | some (a, b) => some (c :: a, b)
          | none => none
      | none =>
        match tbodyEnd cs with
        | some (a, b) => some (c :: a, b)
        | none => none
    | none =>
      match tbodyEnd cs with
      | some (a, b) => some (c :: a, b)
      | none => none

/-- `'| ' + cells.join(' | ') + ' |'`. -/
def mdRowLine (cells : List (List Char)) : List Char :=
  lc "| " ++ joinL (cells.foldr
    (fun c acc => match acc with
      | [] => [c]
      | _ => c :: lc " | " :: acc) []) ++ lc " |"

/-- Pad (with `|| ''`) to the column count. -/
def padTo (n : Nat) (r : List (List Char)) : List (List Char) :=
  (List.range n).map (fun i => (r.get? i).getD [])

/-- Matcher of the table-container regex of `convertTables`. -/
def tableMD (s : List Char) : Option (List Char × Nat) :=
  match dropLitCI (lc "<div") s with
  | none => none
  | some s1 =>
    match s1 with
    | c :: s2 =>
      if !jsWs c then none
      else
        match dropLitCI (lc "class=\"intercom-interblocks-table-container\"")
            (s2.dropWhile jsWs) with
        | none => none
        | some s3 =>
          match tagTail s3 with
          | none => none
          | some s4 =>
            match wsLitCI (lc "<table") s4 with
            | none => none
            | some s5 =>
              match tagTail s5 with
              | none => none
              | some s6 =>
                match wsLitCI (lc "<tbody>") s6 with
                | none => none
                | some s7 =>
                  match tbodyEnd s7 with
                  | none => none
                  | some (content, rest) =>
                    let rows := (collectScan rowM content).filter
                      (fun r => !r.isEmpty)
                    let k := s.length - rest.length
                    if rows.isEmpty then some (s.take k, k)
                    else
                      let colCount := (rows.map List.length).foldl max 0
                      let headerCells := padTo colCount (rows.headD [])
                      let dataLines := (rows.drop 1).map
                        (fun r => mdRowLine (padTo colCount r))
                      let sepLine := mdRowLine (List.replicate colCount (lc "---"))
                      some (lc "\n\n" ++
                        joinC '\n' (mdRowLine headerCells :: sepLine :: dataLines) ++
                        lc "\n\n", k)
    | [] => none

def convertTablesL (s : List Char) : List Char := replaceScan tableMD s

/-! ### Callouts, code blocks, images, headings (decode) -/

/-- Lazy `[^"]*` then a literal, inside a double-quoted region: find the first
occurrence of `pat` before the next `"`; returns (skipped, rest-after-pat). -/
def findLitBeforeQuote (pat : List Char) : List Char → Option (List Char × List Char)
  | [] => none
  | c :: cs =>
    match dropLitCI pat (c :: cs) with
    | some r => some ([], r)
    | none =>
      if c = '"' then none
      else match findLitBeforeQuote pat cs with
        | some (a, b) => some (c :: a, b)
        | none => none

/-- Matcher of the callout-container regex of `convertCallouts`. -/
def calloutMD (s : List Char) : Option (List Char × Nat) :=
  match dropLitCI (lc "<div") s with
  | none => none
  | some s1 =>
    match s1 with
    | c :: s2 =>
      if !jsWs c then none
      else
        match dropLitCI (lc "class=\"intercom-interblocks-callout\"")
            (s2.dropWhile jsWs) with
        | none => none
        | some s3 =>
          -- `[^>]*style="` : the attributes region up to the style attribute
          let attrs := s3.takeWhile (· ≠ '>')
          match findLitBeforeQuote (lc "style=\"")
              (attrs ++ s3.drop attrs.length) with
          | none => none
          | some (_, s4) =>
            -- `[^"]*background-color:\s*([^;]+);`
            match findLitBeforeQuote (lc "background-color:") s4 with
            | none => none
            | some (_, s5) =>
              let s6 := s5.dropWhile jsWs
              let col := s6.takeWhile (· ≠ ';')
              if col.isEmpty then none
              else match s6.drop col.length with
                | ';' :: s7 =>
                  -- `[^"]*"` then `[^>]*>`
                  let v := s7.takeWhile (· ≠ '"')
                  match s7.drop v.length with
                  | '"' :: s8 =>
                    match tagTail s8 with
                    | none => none
                    | some s9 =>
                      match findLitCI (lc "</div>") s9 with
                      | none => none
                      | some (content, rest) =>
                        let colorName :=
                          (alGet calloutColors (jsTrim col)).getD (lc "gray")
                        let inner := jsTrim (convertInlineFormattingL
                          (replaceScan (pUnwrapM true) content))
                        some (lc "\n\n" ++ fenceL ++ lc "callout-" ++ colorName ++
                          lc "\n" ++ inner ++ lc "\n" ++ fenceL ++ lc "\n\n",
                          s.length - rest.length)
                  | _ => none
                | _ => none
    | [] => none

def convertCalloutsL (s : List Char) : List Char := replaceScan calloutMD s

/-- Matcher of `/<pre><code>([\s\S]*?)<\/code><\/pre>/gi`. -/
def codeBlockMD (s : List Char) : Option (List Char × Nat) :=
  match dropLitCI (lc "<pre><code>") s with
  | none => none
  | some s1 =>
    match findLitCI (lc "</code></pre>") s1 with
    | some (content, rest) =>
      some (lc "\n\n" ++ fenceL ++ lc "\n" ++ decodeHtmlEntitiesL content ++
        lc "\n" ++ fenceL ++ lc "\n\n", s.length - rest.length)
    | none => none

def convertCodeBlocksL (s : List Char) : List Char := replaceScan codeBlockMD s

/-- `<img\s+[^>]*src="([^"]*)"` and the tail of the image tag: returns
(src, rest-after-closing `>`).  The optional alt group of the source regex can
never capture (the greedy `[^>]*` before it always reaches the closing `>`),
so the replacement's alt text is always empty. -/
def imgTagM (s : List Char) : Option (List Char × List Char) :=
  match dropLitCI (lc "<img") s with
  | none => none
  | some s1 =>
    match s1 with
    | c :: s2 =>
      if !jsWs c then none
      else
        let s3 := s2.dropWhile jsWs
        let attrs := s3.takeWhile (· ≠ '>')
        match findLitBeforeQuote (lc "src=\"") (attrs ++ s3.drop attrs.length) with
        | none => none
        | some (_, s4) =>
          let src := s4.takeWhile (· ≠ '"')
          match s4.drop src.length with
          | '"' :: s5 =>
            match tagTail s5 with
            | some rest => some (src, rest)
            | none => none
          | _ => none
    | [] => none

/-- Matcher of the aligned-image-container regex of `convertImages`. -/
def alignedImageMD (s : List Char) : Option (List Char × Nat) :=
  match dropLitCI (lc "<div") s with
  | none => none
  | some s1 =>
    match s1 with
    | c :: s2 =>
      if !jsWs c then none
      else
        match dropLitCI (lc "class=\"intercom-container")
            (s2.dropWhile jsWs) with
        | none => none
        | some s3 =>
          match s3 with
          | d :: s4 =>
            if !jsWs d then none
            else match dropLitCI (lc "intercom-align-center\"")
                (s4.dropWhile jsWs) with
              | none => none
              | some s5 =>
                match tagTail s5 with
                | none => none
                | some s6 =>
                  match imgTagM (s6.dropWhile jsWs) with
                  | none => none
                  | some (src, s7) =>
                    match wsLitCI (lc "</div>") s7 with
                    | none => none
                    | some rest =>
                      some (lc "\n\n<!-- align:center -->![](" ++ src ++ lc ")\n\n",
                        s.length - rest.length)
          | [] => none
    | [] => none

/-- Matcher of the plain-image-container regex of `convertImages`. -/
def plainImageMD (s : List Char) : Option (List Char × Nat) :=
  match dropLitCI (lc "<div") s with
  | none => none
  | some s1 =>
    match s1 with
    | c :: s2 =>
      if !jsWs c then none
      else
        match dropLitCI (lc "class=\"intercom-container\"")
            (s2.dropWhile jsWs) with
        | none => none
        | some s3 =>
          match tagTail s3 with
          | none => none
          | some s4 =>
            match imgTagM (s4.dropWhile jsWs) with
            | none => none
            | some (src, s5) =>
              match wsLitCI (lc "</div>") s5 with
              | none => none
              | some rest =>
                some (lc "\n\n![](" ++ src ++ lc ")\n\n", s.length - rest.length)
    | [] => none

/-- Matcher of the standalone-image regex of `convertImages`. -/
def bareImageMD (s : List Char) : Option (List Char × Nat) :=
  match imgTagM s with
  | none => none
  | some (src, rest) => some (lc "![](" ++ src ++ lc ")", s.length - rest.length)

def convertImagesL (s : List Char) : List Char :=
  replaceScan bareImageMD
    (replaceScan plainImageMD (replaceScan alignedImageMD s))

/-- Matcher of `/<hr\s*\/?>/gi`. -/
def hrMD (s : List Char) : Option (List Char × Nat) :=
  match dropLitCI (lc "<hr") s with
  | none => none
  | some s1 =>
    let ws := s1.takeWhile jsWs
    match s1.drop ws.length with
    | '/' :: '>' :: _ => some (lc "\n\n---\n\n", 3 + ws.length + 2)
    | '>' :: _ => some (lc "\n\n---\n\n", 3 + ws.length + 1)
    | _ => none

/-- Matcher of the aligned-heading regex of `convertHeadings` (one level). -/
def alignedHeadingMD (lvl : Nat) (s : List Char) : Option (List Char × Nat) :=
  match dropLitCI (lc "<h" ++ natDigits lvl) s with
  | none => none
  | some s1 =>
    let attrs := s1.takeWhile (· ≠ '>')
    match findLitBeforeQuote (lc "class=\"") (attrs ++ s1.drop attrs.length) with
    | none => none
    | some (_, s2) =>
      match findLitBeforeQuote (lc "intercom-align-") s2 with
      | none => none
      | some (_, s3) =>
        match alignAlt s3 with
        | none => none
        | some (al, s4) =>
          let v := s4.takeWhile (· ≠ '"')
          match s4.drop v.length with
          | '"' :: s5 =>
            match tagTail s5 with
            | none => none
            | some s6 =>
              match findLitCI (lc "</h" ++ natDigits lvl ++ lc ">") s6 with
              | none => none
              | some (content, rest) =>
                some (lc "\n\n<!-- align:" ++ al ++ lc " -->" ++
                  List.replicate lvl '#' ++ lc " " ++
                  jsTrim (stripHtmlTagsL content) ++ lc "\n\n",
                  s.length - rest.length)
          | _ => none

/-- Matcher of the plain-heading regex of `convertHeadings` (one level). -/
def plainHeadingMD (lvl : Nat) (s : List Char) : Option (List Char × Nat) :=
  match dropLitCI (lc "<h" ++ natDigits lvl) s with
  | none => none
  | some s1 =>
    match tagTail s1 with
    | none => none
    | some s2 =>
      match findLitCI (lc "</h" ++ natDigits lvl ++ lc ">") s2 with
      | none => none
      | some (content, rest) =>
        some (lc "\n\n" ++ List.replicate lvl '#' ++ lc " " ++
          jsTrim (stripHtmlTagsL content) ++ lc "\n\n", s.length - rest.length)

/-- `convertHeadings`: for each level 1..4, the aligned form then the plain form. -/
def convertHeadingsL (s : List Char) : List Char :=
  let f := fun (lvl : Nat) (t : List Char) =>
    replaceScan (plainHeadingMD lvl) (replaceScan (alignedHeadingMD lvl) t)
  f 4 (f 3 (f 2 (f 1 s)))

/-! ### Lists, links, paragraphs, line breaks, cleanup (decode) -/

/-- Matcher of `/<li[^>]*>([\s\S]*?)<\/li>/gi` with the item processing of
`extractListItems`. -/
def liMD (s : List Char) : Option (List Char × Nat) :=
  match dropLitCI (lc "<li") s with
  | none => none
  | some s1 =>
    match tagTail s1 with
    | none => none
    | some s2 =>
      match findLitCI (lc "</li>") s2 with
      | some (content, rest) =>
        some (jsTrim (convertInlineFormattingL
          (replaceScan (pUnwrapM false) content)), s.length - rest.length)
      | none => none

/-- `extractListItems`. -/
def extractListItemsL (s : List Char) : List (List Char) := collectScan liMD s

/-- Matcher of `/<ul[^>]*>([\s\S]*?)<\/ul>/gi`. -/
def ulMD (s : List Char) : Option (List Char × Nat) :=
  match dropLitCI (lc "<ul") s with
  | none => none
  | some s1 =>
    match tagTail s1 with
    | none => none
    | some s2 =>
      match findLitCI (lc "</ul>") s2 with
      | some (content, rest) =>
        let items := extractListItemsL content
        some (lc "\n\n" ++ joinC '\n' (items.map (fun it => lc "- " ++ it)) ++
          lc "\n\n", s.length - rest.length)
      | none => none

/-- Matcher of `/<ol[^>]*>([\s\S]*?)<\/ol>/gi`. -/
def olMD (s : List Char) : Option (List Char × Nat) :=
  match dropLitCI (lc "<ol") s with
  | none => none
  | some s1 =>
    match tagTail s1 with
    | none => none
    | some s2 =>
      match findLitCI (lc "</ol>") s2 with
      | some (content, rest) =>
        let items := extractListItemsL content
        some (lc "\n\n" ++ joinC '\n' (items.enum.map
          (fun p => natDigits (p.1 + 1) ++ lc ". " ++ p.2)) ++
          lc "\n\n", s.length - rest.length)
      | none => none

def convertListsL (s : List Char) : List Char :=
  replaceScan olMD (replaceScan ulMD s)

/-- Matcher of the anchor regex of `convertLinks`. -/
def linkMD (s : List Char) : Option (List Char × Nat) :=
  match dropLitCI (lc "<a") s with
  | none => none
  | some s1 =>
    match s1 with
    | c :: s2 =>
      if !jsWs c then none
      else
        let s3 := s2.dropWhile jsWs
        let attrs := s3.takeWhile (· ≠ '>')
        match findLitBeforeQuote (lc "href=\"") (attrs ++ s3.drop attrs.length) with
        | none => none
        | some (_, s4) =>
          let href := s4.takeWhile (· ≠ '"')
          match s4.drop href.length with
          | '"' :: s5 =>
            match tagTail s5 with
            | none => none
            | some s6 =>
              match findLitCI (lc "</a>") s6 with
              | some (text, rest) =>
                some (lc "[" ++
                  jsTrim (stripHtmlTagsL (convertInlineFormattingL text)) ++
                  lc "](" ++ href ++ lc ")", s.length - rest.length)
              | none => none
          | _ => none
    | [] => none

def convertLinksL (s : List Char) : List Char := replaceScan linkMD s

/-- Matcher of the aligned-paragraph regex of `convertParagraphs`. -/
def alignedParaMD (s : List Char) : Option (List Char × Nat) :=
  match dropLitCI (lc "<p") s with
  | none => none
  | some s1 =>
    match s1 with
    | c :: s2 =>
      if !jsWs c then none
      else
        match dropLitCI (lc "class=\"") (s2.dropWhile jsWs) with
        | none => none
        | some s3 =>
          match findLitBeforeQuote (lc "intercom-align-") s3 with
          | none => none
          | some (_, s4) =>
            match alignAlt s4 with
            | none => none
            | some (al, s5) =>
              let v := s5.takeWhile (· ≠ '"')
              match s5.drop v.length with
              | '"' :: s6 =>
                match tagTail s6 with
                | none => none
                | some s7 =>
                  match findLitCI (lc "</p>") s7 with
                  | none => none
                  | some (content, rest) =>
                    let t := jsTrim content
                    some ((if t.isEmpty then lc "\n"
                      else lc "\n\n<!-- align:" ++ al ++ lc " -->" ++ t ++ lc "\n\n"),
                      s.length - rest.length)
              | _ => none
    | [] => none

/-- Matcher of the `no-margin`-paragraph regex of `convertParagraphs`. -/
def noMarginParaMD (s : List Char) : Option (List Char × Nat) :=
  match dropLitCI (lc "<p") s with
  | none => none
  | some s1 =>
    match s1 with
    | c :: s2 =>
      if !jsWs c then none
      else
        match dropLitCI (lc "class=\"no-margin\"") (s2.dropWhile jsWs) with
        | none => none
        | some s3 =>
          match tagTail s3 with
          | none => none
          | some s4 =>
            match findLitCI (lc "</p>") s4 with
            | none => none
            | some (content, rest) =>
              let t := jsTrim content
              some ((if t.isEmpty then lc "\n" else lc "\n\n" ++ t ++ lc "\n\n"),
                s.length - rest.length)
    | [] => none

/-- Matcher of the generic-paragraph regex of `convertParagraphs`. -/
def plainParaMD (s : List Char) : Option (List Char × Nat) :=
  match pUnwrapM false s with
  | none => none
  | some (content, k) =>
    let t := jsTrim content
    some ((if t.isEmpty then lc "\n" else lc "\n\n" ++ t ++ lc "\n\n"), k)

def convertParagraphsL (s : List Char) : List Char :=
  replaceScan plainParaMD
    (replaceScan noMarginParaMD (replaceScan alignedParaMD s))

/-- Matcher of `/<br\s*\/?>/gi` (decode: break tag → soft break). -/
def brMD (s : List Char) : Option (List Char × Nat) :=
  match dropLitCI (lc "<br") s with
  | none => none
  | some s1 =>
    let ws := s1.takeWhile jsWs
    match s1.drop ws.length with
    | '/' :: '>' :: _ => some (lc "  \n", 3 + ws.length + 2)
    | '>' :: _ => some (lc "  \n", 3 + ws.length + 1)
    | _ => none

/-- Matcher of `/\n{3,}/g`. -/
def nlRunM (s : List Char) : Option (List Char × Nat) :=
  match s with
  | '\n' :: _ =>
    let run := s.takeWhile (· = '\n')
    if run.length ≥ 3 then some (lc "\n\n", run.length) else none
  | _ => none

/-- `cleanupWhitespace`. -/
def cleanupWhitespaceL (s : List Char) : List Char :=
  joinC '\n' ((splitOnC '\n' (replaceScan nlRunM s)).map jsTrimEnd)

/-- `htmlToMarkdown` on characters. -/
def htmlToMarkdownL (html : List Char) : List Char :=
  if html.isEmpty then []
  else
    let r1 := stripL html
    let r2 := convertTablesL r1
    let r3 := convertCalloutsL r2
    let r4 := convertCodeBlocksL r3
    let r5 := convertImagesL r4
    let r6 := replaceScan hrMD r5
    let r7 := convertHeadingsL r6
    let r8 := convertListsL r7
    let r9 := convertLinksL r8
    let r10 := convertParagraphsL r9
    let r11 := convertInlineFormattingL r10
    let r12 := replaceScan brMD r11
    jsTrim (cleanupWhitespaceL r12)

/-- `htmlToMarkdown` (html-to-markdown.ts). -/
def htmlToMarkdown (html : String) : String := sOf (htmlToMarkdownL (lc html))

/-! ## Specification-side notions used by the claims -/

/-- Lexicographic comparison of character lists. -/
def leLC : List Char → List Char → Bool
  | [], _ => true
  | _ :: _, [] => false
  | a :: as, b :: bs => if a = b then leLC as bs else decide (a < b)

def insertLe (x : List Char) : List (List Char) → List (List Char)
  | [] => [x]
  | y :: ys => if leLC x y then x :: y :: ys else y :: insertLe x ys

/-- Insertion sort of query segments. -/
def sortSegs (l : List (List Char)) : List (List Char) := l.foldr insertLe []

/-- Matcher rewriting each signed CDN URL occurrence to carry its raw query
`&`-segments in sorted order (used to state equality of HTML strings "up to
the ordering of query parameters"). -/
def qpCanonM (s : List Char) : Option (List Char × Nat) :=
  match sigMatch s with
  | none => none
  | some (base, q, _) =>
    some (base ++ '?' :: joinC '&' (sortSegs (splitOnC '&' q)),
      base.length + 1 + q.length)

/-- Canonical form of an HTML string under query-parameter reordering of its
signed CDN URLs. -/
def qpCanon (s : List Char) : List Char := replaceScan qpCanonM s

/-- Two HTML strings are equal up to the ordering of query parameters of their
signed CDN URLs. -/
def eqModQP (a b : List Char) : Prop := qpCanon a = qpCanon b

instance (a b : List Char) : Decidable (eqModQP a b) := by
  unfold eqModQP
  infer_instance

/-- The host of an asset URL in one of the two known hostname patterns. -/
inductive HostT where
  | icdn : HostT
  | att : List Char → List Char → HostT
deriving Repr, DecidableEq

/-- Raw text of the host. -/
def hostRaw : HostT → List Char
  | HostT.icdn => icdnLit
  | HostT.att r1 r2 => r1 ++ attLit ++ r2

/-- A structured signed asset URL: host, the rest of the base (path etc.), and
the raw query string. -/
structure SUrl where
  host : HostT
  tail : List Char
  query : List Char
deriving Repr, DecidableEq

/-- Raw text of a signed asset URL. -/
def rawUrl (u : SUrl) : List Char :=
  httpsLit ++ hostRaw u.host ++ u.tail ++ '?' :: u.query

/-- A segment of an HTML document of the claim class: inert text, or a signed
asset URL occurrence. -/
inductive Seg where
  | txt : List Char → Seg
  | url : SUrl → Seg
deriving Repr, DecidableEq

/-- The HTML string denoted by a list of segments. -/
def mkHtml : List Seg → List Char
  | [] => []
  | Seg.txt t :: rest => t ++ mkHtml rest
  | Seg.url u :: rest => rawUrl u ++ mkHtml rest

/-- Well-formedness of the host part of one URL occurrence (makes the regex
hostname alternation match it as written). -/
def hostOkB : SUrl → Bool
  | ⟨HostT.icdn, _, _⟩ => true
  | ⟨HostT.att r1 r2, tail, _⟩ =>
    !r1.isEmpty && r1.all isHostA && r2.all isHostB &&
    decide (((r1 ++ attLit ++ r2) ++ tail ++ ['?']).take icdnLit.length ≠ icdnLit)

/-- Well-formedness of one URL occurrence. -/
def urlOkB (u : SUrl) : Bool :=
  hostOkB u &&
  u.tail.all (fun c => !stopQ c && c ≠ '#') &&
  u.query.all (fun c => !stopNQ c && c ≠ '#') &&
  (parseURL (rawUrl u)).isSome

/-- Well-formedness of the segment list:
* inert text is colon-free (so no URL-pattern match can start inside it) and
  never empty when it separates two URLs;
* a URL is followed by nothing or by inert text starting with a quote or
  whitespace character (the regex's own delimiters);
* every URL occurrence is well-formed. -/
def segsOkB : List Seg → Bool
  | [] => true
  | Seg.txt t :: rest => t.all (· ≠ ':') && segsOkB rest
  | Seg.url u :: rest =>
    urlOkB u &&
    (match rest with
     | [] => true
     | Seg.txt t :: _ => !t.isEmpty && stopNQ (t.headD ' ')
     | Seg.url _ :: _ => false) &&
    segsOkB rest

/-- The canonical keys of the URL occurrences of a segment list are
collision-free: equal keys come from identical occurrences. -/
def keysInjectiveB (segs : List Seg) : Bool :=
  let urls := segs.filterMap (fun s => match s with
    | Seg.url u => some u
    | _ => none)
  urls.all (fun u1 => urls.all (fun u2 =>
    (match parseURL (rawUrl u1), parseURL (rawUrl u2) with
     | some p1, some p2 => decide (canonKey p1 = canonKey p2 → u1 = u2)
     | _, _ => true)))

/-- Every line of `s` carries no trailing whitespace. -/
def noTrailWS (s : List Char) : Prop :=
  ∀ l ∈ splitOnC '\n' s, jsTrimEnd l = l

/-- A `<tr>` row of the Intercom table dialect. -/
def trRow (cells : List (List Char)) : List Char :=
  lc "<tr>" ++ joinL (cells.map tdCell) ++ lc "</tr>"

/-- A table of the Intercom HTML dialect (first row is the header row). -/
def tableHtml (rows : List (List (List Char))) : List Char :=
  lc "<div class=\"intercom-interblocks-table-container\"><table role=\"presentation\"><tbody>" ++
  joinL (rows.map trRow) ++ lc "</tbody></table></div>"

/-- The Markdown table the decoder is expected to produce for rows padded to
`n` columns. -/
def mdTable (n : Nat) (rows : List (List (List Char))) : List Char :=
  joinC '\n' (mdRowLine (padTo n (rows.headD [])) ::
    mdRowLine (List.replicate n (lc "---")) ::
    (rows.drop 1).map (fun r => mdRowLine (padTo n r)))

/-- Characters allowed in the inert parameters of the universal claims: plain
text that no conversion pass can touch. -/
def plainC (c : Char) : Bool :=
  (c ≥ 'a' && c ≤ 'z') || (c ≥ 'A' && c ≤ 'Z') || (c ≥ '0' && c ≤ '9') ||
  c = ' ' || c = ',' || c = '.' || c = '+' || c = '%' || c = '('  || c = ')' ||
  c = '='

/-- Characters of a CSS color value as the callout regex `([^;]+)` captures it:
alphanumerics and `#` (hex colors and keywords). -/
def colorC (c : Char) : Bool :=
  (c ≥ 'a' && c ≤ 'z') || (c ≥ 'A' && c ≤ 'Z') || (c ≥ '0' && c ≤ '9') || c = '#'

/-- A plain-text fragment: non-empty, made of `plainC` characters, with no
leading or trailing space. -/
def plainTextB (t : List Char) : Bool :=
  !t.isEmpty && t.all plainC && !jsWs (t.headD 'x') && !jsWs (t.getLastD 'x')

/-- Does `s` contain `pat` as a contiguous substring? -/
def hasSub (pat s : List Char) : Bool := (findLit pat s).isSome

/-- The opening of a callout container, up to the background-color value. -/
def calloutA : List Char :=
  lc "<div class=\"intercom-interblocks-callout\" style=\"background-color: "

/-- The end of the style attribute and of the opening callout tag. -/
def calloutB : List Char := lc ";\">"

/-- The closing tag of a callout container. -/
def calloutE : List Char := lc "</div>"

/-- Two occurrences of the same image asset with different ephemeral
signatures: a well-formed input of the claim-C1 class on which the
strip/restore inverse fails (the index is last-seen-wins per canonical key). -/
def segsC1 : List Seg :=
  [Seg.txt (lc "<img src=\""),
   Seg.url ⟨HostT.icdn, lc "/a.png", lc "expires=1&signature=x&req=1"⟩,
   Seg.txt (lc "\"> <img src=\""),
   Seg.url ⟨HostT.icdn, lc "/a.png", lc "expires=2&signature=y&req=1"⟩,
   Seg.txt (lc "\">")]

/-- Remove trailing empty pieces. -/
def dropTrailNils (ls : List (List Char)) : List (List Char) :=
  (ls.reverse.dropWhile List.isEmpty).reverse

/-- The beginning-of-line state after scanning `a` starting in state `b`. -/
def bolAfter : Bool → List Char → Bool
  | b, [] => b
  | _, c :: rest => bolAfter (c == '\n') rest

/-! # Theorems

## Basic lemmas about the helpers -/

theorem dropLit_eq_some {p : List Char} : ∀ {s r : List Char},
    dropLit p s = some r ↔ s = p ++ r := by
  induction p with
  | nil => intro s r; simp [dropLit]
  | cons x ps ih =>
    intro s r
    cases s with
    | nil => simp [dropLit]
    | cons c cs =>
      simp only [dropLit]
      by_cases h : c = x
      · subst h
        simp [ih]
      · simp [h]

theorem dropLit_app (p r : List Char) : dropLit p (p ++ r) = some r :=
  dropLit_eq_some.mpr rfl

theorem startsL_iff {p s : List Char} : startsL p s = true ↔ ∃ r, s = p ++ r := by
  unfold startsL
  simp only [Option.isSome_iff_exists, dropLit_eq_some]

theorem takeWhile_app_stop {q : Char → Bool} {x : Char} (hx : q x = false) :
    ∀ (a z : List Char), (a ++ x :: z).takeWhile q = a.takeWhile q := by
  intro a
  induction a with
  | nil => intro z; simp [List.takeWhile_cons, hx]
  | cons c a' ih =>
    intro z
    simp only [List.cons_append, List.takeWhile_cons]
    cases hq : q c <;> simp [ih z]

theorem dropWhile_app_stop {q : Char → Bool} {x : Char} (hx : q x = false) :
    ∀ (a z : List Char), (a ++ x :: z).dropWhile q = a.dropWhile q ++ x :: z := by
  intro a
  induction a with
  | nil => intro z; simp [List.dropWhile_cons, hx]
  | cons c a' ih =>
    intro z
    simp only [List.cons_append, List.dropWhile_cons]
    cases hq : q c <;> simp [ih z]

theorem takeWhile_all {q : Char → Bool} : ∀ {a : List Char},
    (∀ c ∈ a, q c = true) → ∀ (b : List Char), (a ++ b).takeWhile q = a ++ b.takeWhile q := by
  intro a
  induction a with
  | nil => intro _ b; rfl
  | cons c a' ih =>
    intro h b
    simp only [List.cons_append, List.takeWhile_cons, h c (by simp)]
    simp [ih (fun d hd => h d (by simp [hd])) b]

theorem dropWhile_all {q : Char → Bool} : ∀ {a : List Char},
    (∀ c ∈ a, q c = true) → ∀ (b : List Char), (a ++ b).dropWhile q = b.dropWhile q := by
  intro a
  induction a with
  | nil => intro _ b; rfl
  | cons c a' ih =>
    intro h b
    simp only [List.cons_append, List.dropWhile_cons, h c (by simp)]
    simp [ih (fun d hd => h d (by simp [hd])) b]

/-! ## Scanner lemmas -/

theorem replaceScanF_congr (m : List Char → Option (List Char × Nat)) :
    ∀ (f : Nat), ∀ (g : Nat) (s : List Char), s.length ≤ f → s.length ≤ g →
      replaceScanF m f s = replaceScanF m g s := by
  intro f
  induction f with
  | zero =>
    intro g s hf _
    have hs : s = [] := List.length_eq_zero.mp (Nat.le_zero.mp hf)
    subst hs
    cases g <;> rfl
  | succ f ih =>
    intro g s hf hg
    cases s with
    | nil => cases g <;> rfl
    | cons c rest =>
      cases g with
      | zero => simp at hg
      | succ g' =>
        simp only [List.length_cons] at hf hg
        cases hm : m (c :: rest) with
        | none =>
          simp only [replaceScanF, hm]
          rw [ih g' rest (by omega) (by omega)]
        | some p =>
          obtain ⟨rep, k⟩ := p
          simp only [replaceScanF, hm]
          have hl : ((c :: rest).drop (max k 1)).length ≤ f := by
            simp only [List.length_drop, List.length_cons]
            omega
          have hl2 : ((c :: rest).drop (max k 1)).length ≤ g' := by
            simp only [List.length_drop, List.length_cons]
            omega
          rw [ih g' _ hl hl2]

theorem replaceScan_nil (m : List Char → Option (List Char × Nat)) :
    replaceScan m [] = [] := rfl

theorem replaceScan_some (m : List Char → Option (List Char × Nat))
    {c : Char} {rest rep : List Char} {k : Nat} (hm : m (c :: rest) = some (rep, k)) :
    replaceScan m (c :: rest) = rep ++ replaceScan m ((c :: rest).drop (max k 1)) := by
  unfold replaceScan
  simp only [List.length_cons, replaceScanF, hm]
  congr 1
  apply replaceScanF_congr
  · simp only [List.length_drop, List.length_cons]; omega
  · exact Nat.le_refl _

theorem replaceScan_none (m : List Char → Option (List Char × Nat))
    {c : Char} {rest : List Char} (hm : m (c :: rest) = none) :
    replaceScan m (c :: rest) = c :: replaceScan m rest := by
  unfold replaceScan
  simp only [List.length_cons, replaceScanF, hm]

theorem replaceScan_append (m : List Char → Option (List Char × Nat)) :
    ∀ (a b : List Char),
      (∀ a1 a2, a = a1 ++ a2 → a2 ≠ [] → m (a2 ++ b) = none) →
      replaceScan m (a ++ b) = a ++ replaceScan m b := by
  intro a
  induction a with
  | nil => intro b _; rfl
  | cons c a' ih =>
    intro b h
    have h0 : m (c :: (a' ++ b)) = none := by
      have := h [] (c :: a') rfl (by simp)
      simpa using this
    rw [List.cons_append, replaceScan_none m h0,
      ih b (fun a1 a2 heq hne => h (c :: a1) a2 (by rw [heq]; rfl) hne)]
    simp

theorem replaceScan_id (m : List Char → Option (List Char × Nat))
    (s : List Char)
    (h : ∀ s1 s2, s = s1 ++ s2 → s2 ≠ [] → m s2 = none) :
    replaceScan m s = s := by
  have h2 := replaceScan_append m s [] (by
    intro a1 a2 heq hne
    rw [List.append_nil]
    exact h a1 a2 heq hne)
  rw [List.append_nil] at h2
  rw [h2, replaceScan_nil, List.append_nil]

theorem collectScanF_congr {α : Type} (m : List Char → Option (α × Nat)) :
    ∀ (f : Nat), ∀ (g : Nat) (s : List Char), s.length ≤ f → s.length ≤ g →
      collectScanF m f s = collectScanF m g s := by
  intro f
  induction f with
  | zero =>
    intro g s hf _
    have hs : s = [] := List.length_eq_zero.mp (Nat.le_zero.mp hf)
    subst hs
    cases g <;> rfl
  | succ f ih =>
    intro g s hf hg
    cases s with
    | nil => cases g <;> rfl
    | cons c rest =>
      cases g with
      | zero => simp at hg
      | succ g' =>
        simp only [List.length_cons] at hf hg
        cases hm : m (c :: rest) with
        | none =>
          simp only [collectScanF, hm]
          rw [ih g' rest (by omega) (by omega)]
        | some p =>
          obtain ⟨a, k⟩ := p
          simp only [collectScanF, hm]
          have hl : ((c :: rest).drop (max k 1)).length ≤ f := by
            simp only [List.length_drop, List.length_cons]
            omega
          have hl2 : ((c :: rest).drop (max k 1)).length ≤ g' := by
            simp only [List.length_drop, List.length_cons]
            omega
          rw [ih g' _ hl hl2]

theorem collectScan_nil {α : Type} (m : List Char → Option (α × Nat)) :
    collectScan m [] = [] := rfl

theorem collectScan_some {α : Type} (m : List Char → Option (α × Nat))
    {c : Char} {rest : List Char} {a : α} {k : Nat} (hm : m (c :: rest) = some (a, k)) :
    collectScan m (c :: rest) = a :: collectScan m ((c :: rest).drop (max k 1)) := by
  unfold collectScan
  simp only [List.length_cons, collectScanF, hm]
  congr 1
  apply collectScanF_congr
  · simp only [List.length_drop, List.length_cons]; omega
  · exact Nat.le_refl _

theorem collectScan_none {α : Type} (m : List Char → Option (α × Nat))
    {c : Char} {rest : List Char} (hm : m (c :: rest) = none) :
    collectScan m (c :: rest) = collectScan m rest := by
  unfold collectScan
  simp only [List.length_cons, collectScanF, hm]

theorem collectScan_append {α : Type} (m : List Char → Option (α × Nat)) :
    ∀ (a b : List Char),
      (∀ a1 a2, a = a1 ++ a2 → a2 ≠ [] → m (a2 ++ b) = none) →
      collectScan m (a ++ b) = collectScan m b := by
  intro a
  induction a with
  | nil => intro b _; rfl
  | cons c a' ih =>
    intro b h
    have h0 : m (c :: (a' ++ b)) = none := by
      have := h [] (c :: a') rfl (by simp)
      simpa using this
    rw [List.cons_append, collectScan_none m h0,
      ih b (fun a1 a2 heq hne => h (c :: a1) a2 (by rw [heq]; rfl) hne)]

theorem replaceScanBF_congr (m : Bool → List Char → Option (List Char × Nat)) :
    ∀ (f : Nat), ∀ (g : Nat) (b : Bool) (s : List Char), s.length ≤ f → s.length ≤ g →
      replaceScanBF m f b s = replaceScanBF m g b s := by
  intro f
  induction f with
  | zero =>
    intro g b s hf _
    have hs : s = [] := List.length_eq_zero.mp (Nat.le_zero.mp hf)
    subst hs
    cases g <;> rfl
  | succ f ih =>
    intro g b s hf hg
    cases s with
    | nil => cases g <;> rfl
    | cons c rest =>
      cases g with
      | zero => simp at hg
      | succ g' =>
        simp only [List.length_cons] at hf hg
        cases hm : m b (c :: rest) with
        | none =>
          simp only [replaceScanBF, hm]
          rw [ih g' _ rest (by omega) (by omega)]
        | some p =>
          obtain ⟨rep, k⟩ := p
          simp only [replaceScanBF, hm]
          have hl : ((c :: rest).drop (max k 1)).length ≤ f := by
            simp only [List.length_drop, List.length_cons]
            omega
          have hl2 : ((c :: rest).drop (max k 1)).length ≤ g' := by
            simp only [List.length_drop, List.length_cons]
            omega
          rw [ih g' _ _ hl hl2]

theorem replaceScanB_nil (m : Bool → List Char → Option (List Char × Nat)) (b : Bool) :
    replaceScanB m b [] = [] := rfl

theorem replaceScanB_some (m : Bool → List Char → Option (List Char × Nat))
    {b : Bool} {c : Char} {rest rep : List Char} {k : Nat}
    (hm : m b (c :: rest) = some (rep, k)) :
    replaceScanB m b (c :: rest) =
      rep ++ replaceScanB m ((((c :: rest).take (max k 1)).getLast? == some '\n'))
        ((c :: rest).drop (max k 1)) := by
  unfold replaceScanB
  simp only [List.length_cons, replaceScanBF, hm]
  congr 1
  apply replaceScanBF_congr
  · simp only [List.length_drop, List.length_cons]; omega
  · exact Nat.le_refl _

theorem replaceScanB_none (m : Bool → List Char → Option (List Char × Nat))
    {b : Bool} {c : Char} {rest : List Char} (hm : m b (c :: rest) = none) :
    replaceScanB m b (c :: rest) = c :: replaceScanB m (c == '\n') rest := by
  unfold replaceScanB
  simp only [List.length_cons, replaceScanBF, hm]

theorem bolAfter_cons (b : Bool) (c : Char) (a : List Char) :
    bolAfter b (c :: a) = bolAfter (c == '\n') a := rfl

theorem bolAfter_getLast (b : Bool) : ∀ (a : List Char), a ≠ [] →
    bolAfter b a = (a.getLast? == some '\n') := by
  intro a
  induction a generalizing b with
  | nil => intro h; exact absurd rfl h
  | cons c rest ih =>
    intro _
    cases rest with
    | nil => simp [bolAfter]
    | cons d r2 =>
      rw [bolAfter_cons, ih (c == '\n') (by simp), List.getLast?_cons_cons]

theorem replaceScanB_append (m : Bool → List Char → Option (List Char × Nat)) :
    ∀ (a : List Char) (b : Bool) (s : List Char),
      (∀ a1 a2, a = a1 ++ a2 → a2 ≠ [] → m (bolAfter b a1) (a2 ++ s) = none) →
      replaceScanB m b (a ++ s) = a ++ replaceScanB m (bolAfter b a) s := by
  intro a
  induction a with
  | nil => intro b s _; rfl
  | cons c a' ih =>
    intro b s h
    have h0 : m b (c :: (a' ++ s)) = none := by
      have := h [] (c :: a') rfl (by simp)
      simpa [bolAfter] using this
    rw [List.cons_append, replaceScanB_none m h0, bolAfter_cons,
      ih (c == '\n') s (fun a1 a2 heq hne => by
        have := h (c :: a1) a2 (by rw [heq]; rfl) hne
        rwa [bolAfter_cons] at this)]
    simp

/-! ## Concrete claims -/

/-- C3: both codec directions are total functions over strings (they are
defined as total Lean functions, mirroring a source that catches its only
fallible platform call), and decoding the empty string yields the empty
string. -/
theorem claim_C3_totality :
    htmlToMarkdown "" = "" ∧
    ∀ s : String, (∃ t : String, htmlToMarkdown s = t) ∧
      (∃ u : String, markdownToHtml s none = u) ∧
      ∀ o : String, ∃ v : String, markdownToHtml s (some o) = v :=
  ⟨rfl, fun s => ⟨⟨htmlToMarkdown s, rfl⟩, ⟨markdownToHtml s none, rfl⟩,
    fun o => ⟨markdownToHtml s (some o), rfl⟩⟩⟩

/-- C4: the signed-image scenario: the container with the signed CDN URL
decodes to a bare image reference with the unsigned URL; encoding that
Markdown with the original HTML restores the exact original signed URL;
encoding without it leaves the bare unsigned URL. -/
theorem claim_C4_image_scenario :
    htmlToMarkdown "<div class=\"intercom-container\"><img src=\"https://downloads.intercomcdn.com/i/o/123.png?expires=999&signature=abc&req=1\"></div>" =
      "![](https://downloads.intercomcdn.com/i/o/123.png)" ∧
    markdownToHtml "![](https://downloads.intercomcdn.com/i/o/123.png)"
      (some "<div class=\"intercom-container\"><img src=\"https://downloads.intercomcdn.com/i/o/123.png?expires=999&signature=abc&req=1\"></div>") =
      "<div class=\"intercom-container\"><img src=\"https://downloads.intercomcdn.com/i/o/123.png?expires=999&signature=abc&req=1\"></div>" ∧
    markdownToHtml "![](https://downloads.intercomcdn.com/i/o/123.png)" none =
      "<div class=\"intercom-container\"><img src=\"https://downloads.intercomcdn.com/i/o/123.png\"></div>" := by
  refine ⟨by decide, by decide, by decide⟩

/-- C9: the aligned-heading scenario: the centered `h2` decodes to the
alignment directive plus a level-2 heading, and that Markdown encodes back to
the `h2` tag carrying the center-alignment class with the same inner text. -/
theorem claim_C9_heading_scenario :
    htmlToMarkdown "<h2 class=\"intercom-align-center\">Title</h2>" =
      "<!-- align:center -->## Title" ∧
    markdownToHtml "<!-- align:center -->## Title" none =
      "<h2 class=\"intercom-align-center\">Title</h2>" := by
  refine ⟨by decide, by decide⟩

/-- C7 counterexample: an input with an explicit `<br>` tag whose decoded
Markdown does NOT contain the two trailing spaces the claim promises: the
whitespace-cleanup pass strips them, leaving a bare newline. -/
theorem claim_C7_counterexample :
    hasSub (lc "<br>") (lc "<p class=\"no-margin\">a<br>b</p>") = true ∧
    htmlToMarkdown "<p class=\"no-margin\">a<br>b</p>" = "a\nb" ∧
    hasSub (lc "  \n") (lc (htmlToMarkdown "<p class=\"no-margin\">a<br>b</p>")) = false := by
  refine ⟨by decide, by decide, by decide⟩

/-- C5 counterexample: encoding a fenced block tagged with an unknown callout
color (`callout-purple`) does not produce a callout container at all — in
particular nothing styled with the gray background pair — because the
encoder's callout regex only matches the five known color names. -/
theorem claim_C5_counterexample :
    hasSub (lc "intercom-interblocks-callout")
      (lc (markdownToHtml "```callout-purple\nhi\n```" none)) = false ∧
    hasSub (lc "#e8e8e880")
      (lc (markdownToHtml "```callout-purple\nhi\n```" none)) = false := by
  refine ⟨by decide, by decide⟩

/-- C8 counterexample: an occurrence that matches the CDN pattern but fails
URL parsing (non-numeric port) is NOT left as the literal matched text: the
strip callback returns only the base, dropping the query part. -/
theorem claim_C8_counterexample :
    sigMatch (lc "https://downloads.intercomcdn.com:9x?a=1") =
      some (lc "https://downloads.intercomcdn.com:9x", lc "a=1", []) ∧
    parseURL (lc "https://downloads.intercomcdn.com:9x?a=1") = none ∧
    stripImageSignatures "https://downloads.intercomcdn.com:9x?a=1" =
      "https://downloads.intercomcdn.com:9x" := by
  refine ⟨by decide, by decide, by decide⟩

/-- C1 counterexample: an HTML string of the claim class (only well-formed
signed CDN asset URLs) containing the same asset twice with different
signatures: the last-seen-wins index makes restore rewrite the first
occurrence with the second signature, so the result differs from the input
even up to query-parameter ordering. -/
theorem claim_C1_counterexample :
    segsOkB segsC1 = true ∧
    ¬ eqModQP (restoreL (stripL (mkHtml segsC1)) (mkHtml segsC1)) (mkHtml segsC1) := by
  refine ⟨by decide, by decide⟩

/-! ## Lines, joining and trimming -/

theorem splitOnC_ne_nil (sep : Char) : ∀ s, splitOnC sep s ≠ [] := by
  intro s
  cases s with
  | nil => simp [splitOnC]
  | cons c cs =>
    simp only [splitOnC]
    by_cases h : c = sep
    · simp [h]
    · simp only [if_neg h]
      cases splitOnC sep cs <;> simp

theorem joinC_cons_ne (sep : Char) (p : List Char) {ps : List (List Char)}
    (h : ps ≠ []) : joinC sep (p :: ps) = p ++ sep :: joinC sep ps := by
  cases ps with
  | nil => exact absurd rfl h
  | cons q qs => rfl

theorem splitOnC_cons_sep (sep : Char) (cs : List Char) :
    splitOnC sep (sep :: cs) = [] :: splitOnC sep cs := by
  simp [splitOnC]

theorem splitOnC_cons_ne {sep c : Char} (h : c ≠ sep) (cs : List Char)
    {p : List Char} {ps : List (List Char)} (hs : splitOnC sep cs = p :: ps) :
    splitOnC sep (c :: cs) = (c :: p) :: ps := by
  simp only [splitOnC, if_neg h, hs]

theorem joinC_splitOnC (sep : Char) : ∀ s, joinC sep (splitOnC sep s) = s := by
  intro s
  induction s with
  | nil => rfl
  | cons c cs ih =>
    by_cases h : c = sep
    · rw [h, splitOnC_cons_sep,
        joinC_cons_ne sep [] (splitOnC_ne_nil sep cs), List.nil_append, ih]
    · obtain ⟨p, ps, hs⟩ : ∃ p ps, splitOnC sep cs = p :: ps := by
        cases hq : splitOnC sep cs with
        | nil => exact absurd hq (splitOnC_ne_nil sep cs)
        | cons p ps => exact ⟨p, ps, rfl⟩
      rw [splitOnC_cons_ne h cs hs]
      cases ps with
      | nil =>
        have : joinC sep [p] = p := rfl
        rw [hs, this] at ih
        simp [joinC, ih]
      | cons q qs =>
        rw [joinC_cons_ne sep (c :: p) (by simp), List.cons_append,
          ← joinC_cons_ne sep p (by simp), ← hs, ih]

theorem mem_splitOnC_no_sep (sep : Char) : ∀ s p, p ∈ splitOnC sep s →
    ∀ c ∈ p, c ≠ sep := by
  intro s
  induction s with
  | nil =>
    intro p hp
    simp [splitOnC] at hp
    simp [hp]
  | cons c cs ih =>
    intro p hp
    by_cases h : c = sep
    · subst h
      rw [splitOnC_cons_sep] at hp
      rcases List.mem_cons.mp hp with h1 | h1
      · simp [h1]
      · exact ih p h1
    · obtain ⟨q, qs, hs⟩ : ∃ q qs, splitOnC sep cs = q :: qs := by
        cases hq : splitOnC sep cs with
        | nil => exact absurd hq (splitOnC_ne_nil sep cs)
        | cons q qs => exact ⟨q, qs, rfl⟩
      rw [splitOnC_cons_ne h cs hs] at hp
      rcases List.mem_cons.mp hp with h1 | h1
      · subst h1
        intro d hd
        rcases List.mem_cons.mp hd with h2 | h2
        · simp [h2, h]
        · exact ih q (by simp [hs]) d h2
      · exact ih p (by simp [hs, h1])

theorem splitOnC_sep_free {sep : Char} : ∀ {p : List Char},
    (∀ c ∈ p, c ≠ sep) → splitOnC sep p = [p] := by
  intro p
  induction p with
  | nil => intro _; rfl
  | cons c p' ih =>
    intro h
    have hc : c ≠ sep := h c (by simp)
    rw [splitOnC_cons_ne hc p' (ih (fun d hd => h d (by simp [hd])))]

theorem splitOnC_append_sep {sep : Char} : ∀ {a : List Char},
    (∀ c ∈ a, c ≠ sep) → ∀ b, splitOnC sep (a ++ sep :: b) = a :: splitOnC sep b := by
  intro a
  induction a with
  | nil => intro _ b; exact splitOnC_cons_sep sep b
  | cons c a' ih =>
    intro h b
    have hc : c ≠ sep := h c (by simp)
    rw [List.cons_append,
      splitOnC_cons_ne hc (a' ++ sep :: b) (ih (fun d hd => h d (by simp [hd])) b)]

theorem splitOnC_joinC {sep : Char} : ∀ {ls : List (List Char)}, ls ≠ [] →
    (∀ p ∈ ls, ∀ c ∈ p, c ≠ sep) → splitOnC sep (joinC sep ls) = ls := by
  intro ls
  induction ls with
  | nil => intro h _; exact absurd rfl h
  | cons p ps ih =>
    intro _ h
    cases ps with
    | nil =>
      have : joinC sep [p] = p := rfl
      rw [this, splitOnC_sep_free (h p (by simp))]
    | cons q qs =>
      rw [joinC_cons_ne sep p (by simp),
        splitOnC_append_sep (h p (by simp)) (joinC sep (q :: qs)),
        ih (by simp) (fun r hr => h r (by simp [hr]))]

theorem dropWhile_head_false {q : Char → Bool} :
    ∀ {m : List Char} {c : Char} {t : List Char},
      m.dropWhile q = c :: t → q c = false := by
  intro m
  induction m with
  | nil => intro c t h; simp at h
  | cons a m' ih =>
    intro c t h
    rw [List.dropWhile_cons] at h
    cases hq : q a with
    | true => rw [hq] at h; simp only [if_true] at h; exact ih h
    | false =>
      rw [hq] at h
      simp only [Bool.false_eq_true, if_false] at h
      cases h
      exact hq

theorem dropWhile_eq_self_of_head {q : Char → Bool} {l : List Char}
    (h : ∀ x, l.head? = some x → q x = false) : l.dropWhile q = l := by
  cases l with
  | nil => rfl
  | cons c t => simp [List.dropWhile_cons, h c rfl]

theorem head_of_dropWhile_eq_self {q : Char → Bool} {l : List Char}
    (h : l.dropWhile q = l) : ∀ x, l.head? = some x → q x = false := by
  cases l with
  | nil => intro x hx; simp at hx
  | cons c t =>
    intro x hx
    simp only [List.head?_cons, Option.some.injEq] at hx
    subst hx
    exact dropWhile_head_false h

theorem jsTrimEnd_fixed_iff {l : List Char} :
    jsTrimEnd l = l ↔ ∀ x, l.getLast? = some x → jsWs x = false := by
  unfold jsTrimEnd
  constructor
  · intro h x hx
    have h2 : l.reverse.dropWhile jsWs = l.reverse := by
      have := congrArg List.reverse h
      simpa using this
    exact head_of_dropWhile_eq_self h2 x (by rw [List.head?_reverse, hx])
  · intro h
    have h2 : l.reverse.dropWhile jsWs = l.reverse := by
      apply dropWhile_eq_self_of_head
      intro x hx
      exact h x (by rwa [List.head?_reverse] at hx)
    rw [h2, List.reverse_reverse]

theorem jsTrimEnd_mem {l : List Char} {c : Char} (h : c ∈ jsTrimEnd l) : c ∈ l := by
  unfold jsTrimEnd at h
  rw [List.mem_reverse] at h
  have := (@List.dropWhile_sublist Char l.reverse jsWs).subset h
  rwa [List.mem_reverse] at this

theorem jsTrimEnd_idem (l : List Char) : jsTrimEnd (jsTrimEnd l) = jsTrimEnd l := by
  rw [jsTrimEnd_fixed_iff]
  intro x hx
  unfold jsTrimEnd at hx
  rw [List.getLast?_reverse] at hx
  cases hd : List.dropWhile jsWs l.reverse with
  | nil => rw [hd] at hx; simp at hx
  | cons c t =>
    rw [hd] at hx
    simp only [List.head?_cons, Option.some.injEq] at hx
    subst hx
    exact dropWhile_head_false hd

theorem jsTrimEnd_append_fixed {last : List Char} (h1 : last ≠ [])
    (h2 : jsTrimEnd last = last) (x : List Char) :
    jsTrimEnd (x ++ last) = x ++ last := by
  obtain ⟨c, r, hr⟩ : ∃ c r, last.reverse = c :: r := by
    cases hl : last.reverse with
    | nil => exact absurd (by simpa using congrArg List.reverse hl) h1
    | cons c r => exact ⟨c, r, rfl⟩
  have hc : jsWs c = false := by
    have h3 : last.reverse.dropWhile jsWs = last.reverse := by
      have := congrArg List.reverse h2
      simpa [jsTrimEnd] using this
    exact head_of_dropWhile_eq_self h3 c (by rw [hr]; rfl)
  unfold jsTrimEnd
  rw [List.reverse_append, hr, List.cons_append, List.dropWhile_cons, hc]
  simp
  have h4 := congrArg List.reverse hr
  simp only [List.reverse_cons, List.reverse_reverse] at h4
  exact h4.symm

theorem jsTrimEnd_append_ws {w : Char} (hw : jsWs w = true) (x : List Char) :
    jsTrimEnd (x ++ [w]) = jsTrimEnd x := by
  unfold jsTrimEnd
  rw [List.reverse_append]
  simp [List.dropWhile_cons, hw]

theorem fixed_tail {c : Char} {p : List Char} (h : jsTrimEnd (c :: p) = c :: p) :
    jsTrimEnd p = p := by
  rw [jsTrimEnd_fixed_iff] at h ⊢
  intro x hx
  cases p with
  | nil => simp at hx
  | cons d p' => exact h x (by rwa [List.getLast?_cons_cons])

theorem noTrailWS_nil : noTrailWS [] := by
  intro l hl
  simp [splitOnC] at hl
  simp [hl, jsTrimEnd]

theorem noTrail_tail {c : Char} {t : List Char} (h : noTrailWS (c :: t)) :
    noTrailWS t := by
  intro l hl
  by_cases hc : c = '\n'
  · subst hc
    exact h l (by rw [splitOnC_cons_sep]; simp [hl])
  · obtain ⟨p, ps, hs⟩ : ∃ p ps, splitOnC '\n' t = p :: ps := by
      cases hq : splitOnC '\n' t with
      | nil => exact absurd hq (splitOnC_ne_nil _ t)
      | cons p ps => exact ⟨p, ps, rfl⟩
    rw [hs] at hl
    rcases List.mem_cons.mp hl with h1 | h1
    · subst h1
      exact fixed_tail (h (c :: l) (by rw [splitOnC_cons_ne hc t hs]; simp))
    · exact h l (by rw [splitOnC_cons_ne hc t hs]; simp [h1])

theorem dropWhile_noTrail : ∀ {s : List Char}, noTrailWS s →
    noTrailWS (s.dropWhile jsWs) := by
  intro s
  induction s with
  | nil => intro h; exact h
  | cons c t ih =>
    intro h
    rw [List.dropWhile_cons]
    cases hc : jsWs c with
    | false => simpa using h
    | true => simpa using ih (noTrail_tail h)

theorem dropTrailNils_append_ne {last : List Char} (h : last ≠ [])
    (ls : List (List Char)) : dropTrailNils (ls ++ [last]) = ls ++ [last] := by
  unfold dropTrailNils
  rw [List.reverse_append]
  have hne : last.isEmpty = false := by
    cases last with
    | nil => exact absurd rfl h
    | cons a b => rfl
  simp [List.dropWhile_cons, hne]

theorem dropTrailNils_append_nil (ls : List (List Char)) :
    dropTrailNils (ls ++ [[]]) = dropTrailNils ls := by
  unfold dropTrailNils
  rw [List.reverse_append]
  simp [List.dropWhile_cons, List.isEmpty]

theorem mem_dropTrailNils {ls : List (List Char)} {p : List Char}
    (h : p ∈ dropTrailNils ls) : p ∈ ls := by
  unfold dropTrailNils at h
  rw [List.mem_reverse] at h
  have := (@List.dropWhile_sublist (List Char) ls.reverse List.isEmpty).subset h
  rwa [List.mem_reverse] at this

theorem joinC_append_singleton (sep : Char) (p : List Char)
    {ls : List (List Char)} (h : ls ≠ []) :
    joinC sep (ls ++ [p]) = joinC sep ls ++ sep :: p := by
  induction ls with
  | nil => exact absurd rfl h
  | cons q qs ih =>
    cases qs with
    | nil => rfl
    | cons r rs =>
      rw [List.cons_append, joinC_cons_ne sep q (by simp),
        joinC_cons_ne sep q (by simp), ih (by simp)]
      simp

theorem jsTrimEnd_joinC : ∀ (ls : List (List Char)),
    (∀ l ∈ ls, jsTrimEnd l = l) →
    jsTrimEnd (joinC '\n' ls) = joinC '\n' (dropTrailNils ls) := by
  intro ls
  induction ls using List.reverseRecOn with
  | nil => intro _; rfl
  | append_singleton ls' last ih =>
    intro h
    by_cases hl : last = []
    · subst hl
      rw [dropTrailNils_append_nil]
      by_cases hls : ls' = []
      · subst hls; rfl
      · rw [joinC_append_singleton '\n' [] hls]
        have h3 : joinC '\n' ls' ++ '\n' :: ([] : List Char) =
            joinC '\n' ls' ++ ['\n'] := rfl
        rw [h3, jsTrimEnd_append_ws (by decide) (joinC '\n' ls')]
        exact ih (fun l hl2 => h l (by simp [hl2]))
    · rw [dropTrailNils_append_ne hl ls']
      by_cases hls : ls' = []
      · subst hls
        simp only [List.nil_append]
        have h3 : joinC '\n' [last] = last := rfl
        rw [h3]
        exact h last (by simp)
      · rw [joinC_append_singleton '\n' last hls]
        have hfix : jsTrimEnd last = last := h last (by simp)
        have h3 : joinC '\n' ls' ++ '\n' :: last =
            (joinC '\n' ls' ++ ['\n']) ++ last := by simp
        rw [h3, jsTrimEnd_append_fixed hl hfix]

theorem jsTrimEnd_noTrail {s : List Char} (h : noTrailWS s) :
    noTrailWS (jsTrimEnd s) := by
  have hs : s = joinC '\n' (splitOnC '\n' s) := (joinC_splitOnC '\n' s).symm
  have h2 : jsTrimEnd s = joinC '\n' (dropTrailNils (splitOnC '\n' s)) := by
    conv_lhs => rw [hs]
    exact jsTrimEnd_joinC (splitOnC '\n' s) h
  rw [h2]
  cases hd : dropTrailNils (splitOnC '\n' s) with
  | nil => exact noTrailWS_nil
  | cons p ps =>
    intro l hl
    rw [splitOnC_joinC (by simp) (fun r hr d hd2 =>
      mem_splitOnC_no_sep '\n' s r (mem_dropTrailNils (by rw [hd]; exact hr)) d hd2)] at hl
    exact h l (mem_dropTrailNils (by rw [hd]; exact hl))

theorem jsTrim_noTrail {s : List Char} (h : noTrailWS s) :
    noTrailWS (jsTrim s) := by
  have : jsTrim s = jsTrimEnd (s.dropWhile jsWs) := rfl
  rw [this]
  exact jsTrimEnd_noTrail (dropWhile_noTrail h)

theorem cleanup_noTrail (s : List Char) : noTrailWS (cleanupWhitespaceL s) := by
  unfold cleanupWhitespaceL
  intro l hl
  rw [splitOnC_joinC (by
      have := splitOnC_ne_nil '\n' (replaceScan nlRunM s)
      cases hq : splitOnC '\n' (replaceScan nlRunM s) with
      | nil => exact absurd hq this
      | cons p ps => simp)
    (fun r hr d hd2 => by
      obtain ⟨p, hp, hpr⟩ := List.mem_map.mp hr
      exact mem_splitOnC_no_sep '\n' (replaceScan nlRunM s) p hp d
        (by rw [← hpr] at hd2; exact jsTrimEnd_mem hd2))] at hl
  obtain ⟨p, _, hpr⟩ := List.mem_map.mp hl
  rw [← hpr]
  exact jsTrimEnd_idem p

/-- C7 (amended): the decoder's line-break pass does turn a break tag into two
trailing spaces plus a newline, but the final whitespace cleanup strips every
line's trailing whitespace, so the final returned Markdown never contains a
line with trailing spaces — the soft break degrades to a bare newline. -/
theorem claim_C7_amended :
    (∀ html : String, noTrailWS (lc (htmlToMarkdown html))) ∧
    replaceScan brMD (lc "a<br>b") = lc "a  \nb" ∧
    htmlToMarkdown "<p class=\"no-margin\">a<br>b</p>" = "a\nb" := by
  refine ⟨?_, by decide, by decide⟩
  intro html
  show noTrailWS (htmlToMarkdownL (lc html))
  unfold htmlToMarkdownL
  by_cases h : (lc html).isEmpty
  · rw [if_pos h]
    exact noTrailWS_nil
  · rw [if_neg h]
    exact jsTrim_noTrail (cleanup_noTrail _)

/-! ## Character tools and matcher trigger lemmas -/

theorem char_ofNat_toNat {n : Nat} (h1 : 97 ≤ n) (h2 : n ≤ 122) :
    (Char.ofNat n).toNat = n := by
  unfold Char.ofNat
  rw [dif_pos (by constructor; omega)]
  rfl

theorem toLower_symbol {c x : Char} (hx : x.toNat < 97 ∨ 122 < x.toNat)
    (h : c.toLower = x) : c = x := by
  simp only [Char.toLower] at h
  by_cases hc : c.toNat ≥ 65 ∧ c.toNat ≤ 90
  · exfalso
    rw [if_pos hc] at h
    have h2 := congrArg Char.toNat h
    rw [char_ofNat_toNat (by omega) (by omega)] at h2
    omega
  · rw [if_neg hc] at h
    exact h

theorem dropLitCI_some_head {p : Char} {ps : List Char} {s r : List Char}
    (h : dropLitCI (p :: ps) s = some r) :
    ∃ c cs, s = c :: cs ∧ c.toLower = p.toLower := by
  cases s with
  | nil => simp [dropLitCI] at h
  | cons c cs =>
    simp only [dropLitCI] at h
    by_cases hc : c.toLower = p.toLower
    · exact ⟨c, cs, rfl, hc⟩
    · rw [if_neg hc] at h; simp at h

/-- A case-insensitive literal starting with a non-letter symbol pins the
first character exactly. -/
theorem headCI_symbol {p : Char} {ps s r : List Char}
    (hp : p.toNat < 97 ∨ 122 < p.toNat) (hfix : p.toLower = p)
    (h : dropLitCI (p :: ps) s = some r) : ∃ cs, s = p :: cs := by
  obtain ⟨c, cs, hs, hlow⟩ := dropLitCI_some_head h
  rw [hfix] at hlow
  exact ⟨cs, by rw [hs, toLower_symbol hp hlow]⟩

theorem dropLit_some_head {p : Char} {ps s r : List Char}
    (h : dropLit (p :: ps) s = some r) : ∃ cs, s = p :: cs := by
  have := dropLit_eq_some.mp h
  exact ⟨ps ++ r, by rw [this]; rfl⟩

/-- Identity of a scanner whose matcher requires a trigger character at the
match position, over a string avoiding that character. -/
theorem replaceScan_id_of_char (m : List Char → Option (List Char × Nat))
    (trig : Char → Bool)
    (hm : ∀ c r x, m (c :: r) = some x → trig c = true)
    (s : List Char) (hs : ∀ c ∈ s, trig c = false) : replaceScan m s = s := by
  apply replaceScan_id
  intro s1 s2 heq hne
  cases s2 with
  | nil => exact absurd rfl hne
  | cons c r =>
    cases hx : m (c :: r) with
    | none => rfl
    | some x =>
      exfalso
      have h1 := hm c r x hx
      have h2 : c ∈ s := by rw [heq]; simp
      rw [hs c h2] at h1
      exact Bool.false_ne_true h1

theorem replaceScanB_id_of_char (m : Bool → List Char → Option (List Char × Nat))
    (trig : Char → Bool)
    (hm : ∀ b c r x, m b (c :: r) = some x → trig c = true)
    (b : Bool) (s : List Char) (hs : ∀ c ∈ s, trig c = false) :
    replaceScanB m b s = s := by
  have h := replaceScanB_append m s b [] (by
    intro a1 a2 heq hne
    rw [List.append_nil]
    cases a2 with
    | nil => exact absurd rfl hne
    | cons c r =>
      cases hx : m (bolAfter b a1) (c :: r) with
      | none => rfl
      | some x =>
        exfalso
        have h1 := hm _ c r x hx
        have h2 : c ∈ s := by rw [heq]; simp
        rw [hs c h2] at h1
        exact Bool.false_ne_true h1)
  rw [List.append_nil] at h
  rw [h, replaceScanB_nil, List.append_nil]

/-! ## Character class facts -/

theorem stopQ_cases {c : Char} (h : stopQ c = true) :
    c = '"' ∨ c = squote ∨ c = ' ' ∨ c = '\t' ∨ c = '\n' ∨ c = '\r' ∨
    c = '\x0b' ∨ c = '\x0c' ∨ c = ' ' ∨ c = '?' := by
  simp only [stopQ, jsWs, Bool.or_eq_true, decide_eq_true_eq] at h
  tauto

theorem stopNQ_cases {c : Char} (h : stopNQ c = true) :
    c = '"' ∨ c = squote ∨ c = ' ' ∨ c = '\t' ∨ c = '\n' ∨ c = '\r' ∨
    c = '\x0b' ∨ c = '\x0c' ∨ c = ' ' := by
  simp only [stopNQ, jsWs, Bool.or_eq_true, decide_eq_true_eq] at h
  tauto

theorem isHostA_stopQ {c : Char} (h : isHostA c = true) : stopQ c = false := by
  cases hs : stopQ c with
  | false => rfl
  | true =>
    exfalso
    rcases stopQ_cases hs with h1|h1|h1|h1|h1|h1|h1|h1|h1|h1 <;>
      (subst h1; revert h; decide)

theorem isHostB_stopQ {c : Char} (h : isHostB c = true) : stopQ c = false := by
  cases hs : stopQ c with
  | false => rfl
  | true =>
    exfalso
    rcases stopQ_cases hs with h1|h1|h1|h1|h1|h1|h1|h1|h1|h1 <;>
      (subst h1; revert h; decide)

theorem stopNQ_stopQ {c : Char} (h : stopNQ c = true) : stopQ c = true := by
  simp only [stopQ, stopNQ, Bool.or_eq_true] at h ⊢
  tauto

/-- `hostSplit` structural decomposition: the host is an initial fragment of
stop-free characters. -/
theorem hostSplit_decomp {s1 h s2 : List Char} (hh : hostSplit s1 = some (h, s2)) :
    s1 = h ++ s2 ∧ ∀ c ∈ h, stopQ c = false := by
  unfold hostSplit at hh
  cases hi : dropLit icdnLit s1 with
  | some r =>
    rw [hi] at hh
    simp only [Option.some.injEq, Prod.mk.injEq] at hh
    obtain ⟨h1, h2⟩ := hh
    subst h1; subst h2
    exact ⟨dropLit_eq_some.mp hi, fun c hc => by fin_cases hc <;> rfl⟩
  | none =>
    rw [hi] at hh
    simp only at hh
    by_cases he : (s1.takeWhile isHostA).isEmpty
    · rw [if_pos he] at hh; simp at hh
    · rw [if_neg he] at hh
      cases ha : dropLit attLit (s1.dropWhile isHostA) with
      | none => rw [ha] at hh; simp at hh
      | some s2' =>
        rw [ha] at hh
        simp only [Option.some.injEq, Prod.mk.injEq] at hh
        obtain ⟨h1, h2⟩ := hh
        subst h1; subst h2
        constructor
        · have e1 : s1.dropWhile isHostA = attLit ++ s2' := dropLit_eq_some.mp ha
          have e2 : s2'.takeWhile isHostB ++ s2'.dropWhile isHostB = s2' :=
            List.takeWhile_append_dropWhile isHostB s2'
          calc s1 = s1.takeWhile isHostA ++ s1.dropWhile isHostA :=
                (List.takeWhile_append_dropWhile isHostA s1).symm
            _ = s1.takeWhile isHostA ++ (attLit ++ s2') := by rw [e1]
            _ = s1.takeWhile isHostA ++ (attLit ++
                  (s2'.takeWhile isHostB ++ s2'.dropWhile isHostB)) := by rw [e2]
            _ = s1.takeWhile isHostA ++ attLit ++ s2'.takeWhile isHostB ++
                  s2'.dropWhile isHostB := by simp [List.append_assoc]
        · intro c hc
          rcases List.mem_append.mp hc with hc1 | hc2
          · rcases List.mem_append.mp hc1 with hc3 | hc4
            · exact isHostA_stopQ (List.mem_takeWhile_imp hc3)
            · fin_cases hc4 <;> rfl
          · exact isHostB_stopQ (List.mem_takeWhile_imp hc2)

/-- `sigMatch` structural decomposition: a match is a stop-free base, a
literal `?`, a query free of quote/whitespace characters, and a rest that is
empty or starts with a quote/whitespace character. -/
theorem sigMatch_decomp {s b q r : List Char} (hm : sigMatch s = some (b, q, r)) :
    s = b ++ '?' :: q ++ r ∧
    (∃ t, b = httpsLit ++ t) ∧
    (∀ c ∈ b, stopQ c = false) ∧
    (∀ c ∈ q, stopNQ c = false) ∧
    (r = [] ∨ ∃ d r2, r = d :: r2 ∧ stopNQ d = true) := by
  unfold sigMatch at hm
  cases h1 : dropLit httpsLit s with
  | none => simp [h1] at hm
  | some s1 =>
    simp only [h1] at hm
    cases h2 : hostSplit s1 with
    | none => simp [h2] at hm
    | some p =>
      obtain ⟨h, s2⟩ := p
      simp only [h2] at hm
      cases h3 : s2.dropWhile (fun c => !stopQ c) with
      | nil => simp [h3] at hm
      | cons c s3 =>
        simp only [h3] at hm
        by_cases hc : c = '?'
        · rw [if_pos hc] at hm
          simp only [Option.some.injEq, Prod.mk.injEq] at hm
          obtain ⟨hb, hq, hr⟩ := hm
          subst hb; subst hq; subst hr; subst hc
          obtain ⟨hs1, hstop⟩ := hostSplit_decomp h2
          have hs : s = httpsLit ++ h ++ s2.takeWhile (fun c => !stopQ c) ++
              '?' :: (s3.takeWhile (fun c => !stopNQ c) ++
                s3.dropWhile (fun c => !stopNQ c)) := by
            rw [List.takeWhile_append_dropWhile]
            have e2 : s2.takeWhile (fun c => !stopQ c) ++ ('?' :: s3) = s2 := by
              rw [← h3, List.takeWhile_append_dropWhile]
            calc s = httpsLit ++ s1 := dropLit_eq_some.mp h1
              _ = httpsLit ++ (h ++ s2) := by rw [hs1]
              _ = httpsLit ++ (h ++ (s2.takeWhile (fun c => !stopQ c) ++ '?' :: s3)) := by
                  rw [e2]
              _ = httpsLit ++ h ++ s2.takeWhile (fun c => !stopQ c) ++ '?' :: s3 := by
                  simp [List.append_assoc]
          refine ⟨by simpa [List.append_assoc] using hs,
            ⟨h ++ s2.takeWhile (fun c => !stopQ c), by simp [List.append_assoc]⟩,
            ?_, ?_, ?_⟩
          · intro d hd
            rcases List.mem_append.mp hd with hd1 | hd2
            · rcases List.mem_append.mp hd1 with hd3 | hd4
              · fin_cases hd3 <;> rfl
              · exact hstop d hd4
            · have := List.mem_takeWhile_imp hd2
              simpa using this
          · intro d hd
            have := List.mem_takeWhile_imp hd
            simpa using this
          · cases h4 : s3.dropWhile (fun c => !stopNQ c) with
            | nil => exact Or.inl rfl
            | cons d r2 =>
              right
              refine ⟨d, r2, rfl, ?_⟩
              have := dropWhile_head_false h4
              simpa using this
        · rw [if_neg hc] at hm; simp at hm

/-- A match of the signed-URL pattern always contains a literal `?`. -/
theorem sigMatch_none_of_no_qmark {s : List Char} (h : ('?' ∈ s) → False) :
    sigMatch s = none := by
  cases hm : sigMatch s with
  | none => rfl
  | some p =>
    exfalso
    obtain ⟨b, q, r⟩ := p
    obtain ⟨hs, _⟩ := sigMatch_decomp hm
    exact h (by rw [hs]; simp)

/-- The strip scan is the identity on strings without `?`. -/
theorem stripL_id_of_no_qmark {s : List Char} (h : ∀ c ∈ s, c ≠ '?') :
    stripL s = s := by
  apply replaceScan_id
  intro s1 s2 heq hne
  unfold stripMatcher
  rw [sigMatch_none_of_no_qmark (fun hq => h '?' (by rw [heq]; simp [hq]) rfl)]

/-! ## Stability of the URL matcher under query replacement -/

theorem append_qmark_inj {a : List Char} : ∀ {b x y : List Char},
    (∀ c ∈ a, c ≠ '?') → (∀ c ∈ b, c ≠ '?') →
    a ++ '?' :: x = b ++ '?' :: y → a = b ∧ x = y := by
  induction a with
  | nil =>
    intro b x y _ hb h
    cases b with
    | nil => simpa using h
    | cons d b' =>
      exfalso
      simp only [List.nil_append, List.cons_append, List.cons.injEq] at h
      exact hb d (by simp) h.1.symm
  | cons e a' ih =>
    intro b x y ha hb h
    cases b with
    | nil =>
      exfalso
      simp only [List.cons_append, List.nil_append, List.cons.injEq] at h
      exact ha e (by simp) h.1
    | cons d b' =>
      simp only [List.cons_append, List.cons.injEq] at h
      obtain ⟨h1, h2⟩ := h
      obtain ⟨h3, h4⟩ := ih (fun c hc => ha c (by simp [hc]))
        (fun c hc => hb c (by simp [hc])) h2
      exact ⟨by rw [h1, h3], h4⟩

theorem dropLit_q_cases (lit : List Char) (hq : ∀ c ∈ lit, c ≠ '?') :
    ∀ (p z : List Char), (∃ p2, p = lit ++ p2) ∨ dropLit lit (p ++ '?' :: z) = none := by
  induction lit with
  | nil => intro p z; exact Or.inl ⟨p, rfl⟩
  | cons l ls ih =>
    intro p z
    cases p with
    | nil =>
      right
      simp only [List.nil_append, dropLit]
      rw [if_neg (fun hh : '?' = l => hq l (by simp) hh.symm)]
    | cons a p' =>
      by_cases hal : a = l
      · subst hal
        rcases ih (fun c hc => hq c (by simp [hc])) p' z with ⟨p2, hp2⟩ | hn
        · exact Or.inl ⟨p2, by rw [hp2]; rfl⟩
        · right
          simp only [List.cons_append, dropLit, if_pos rfl]
          exact hn
      · right
        simp only [List.cons_append, dropLit]
        rw [if_neg hal]

theorem hostSplit_qcases (p : List Char) :
    (∃ h p2, p = h ++ p2 ∧ (∀ c ∈ h, stopQ c = false) ∧
      ∀ z2, hostSplit (p ++ '?' :: z2) = some (h, p2 ++ '?' :: z2)) ∨
    ∀ z2, hostSplit (p ++ '?' :: z2) = none := by
  rcases dropLit_q_cases icdnLit (by decide) p [] with ⟨p2, hp2⟩ | hn
  · left
    refine ⟨icdnLit, p2, hp2, fun c hc => by fin_cases hc <;> rfl, fun z2 => ?_⟩
    unfold hostSplit
    simp only [hp2, List.append_assoc, dropLit_app]
  · have hnone : ∀ z2, dropLit icdnLit (p ++ '?' :: z2) = none := by
      intro z2
      rcases dropLit_q_cases icdnLit (by decide) p z2 with ⟨p2, hp2⟩ | hn2
      · exfalso
        rw [hp2, List.append_assoc, dropLit_app] at hn
        exact Option.noConfusion hn
      · exact hn2
    have htw : ∀ z2 : List Char, (p ++ '?' :: z2).takeWhile isHostA = p.takeWhile isHostA :=
      fun z2 => takeWhile_app_stop (by decide) p z2
    have hdw : ∀ z2 : List Char,
        (p ++ '?' :: z2).dropWhile isHostA = p.dropWhile isHostA ++ '?' :: z2 :=
      fun z2 => dropWhile_app_stop (by decide) p z2
    by_cases he : (p.takeWhile isHostA).isEmpty
    · right
      intro z2
      unfold hostSplit
      simp only [hnone z2, htw z2, if_pos he]
    · rcases dropLit_q_cases attLit (by decide) (p.dropWhile isHostA) [] with ⟨p2, hp2⟩ | hn2
      · left
        refine ⟨p.takeWhile isHostA ++ attLit ++ p2.takeWhile isHostB,
          p2.dropWhile isHostB, ?_, ?_, ?_⟩
        · conv_lhs => rw [← List.takeWhile_append_dropWhile isHostA p, hp2]
          rw [← List.takeWhile_append_dropWhile isHostB p2]
          simp [List.append_assoc]
        · intro c hc
          rcases List.mem_append.mp hc with hc1 | hc2
          · rcases List.mem_append.mp hc1 with hc3 | hc4
            · exact isHostA_stopQ (List.mem_takeWhile_imp hc3)
            · fin_cases hc4 <;> rfl
          · exact isHostB_stopQ (List.mem_takeWhile_imp hc2)
        · intro z2
          unfold hostSplit
          simp only [hnone z2, htw z2, if_neg he, hdw z2, hp2, List.append_assoc,
            dropLit_app]
          rw [@takeWhile_app_stop isHostB (Char.ofNat 63) (by decide) p2 z2,
            @dropWhile_app_stop isHostB (Char.ofNat 63) (by decide) p2 z2]
      · right
        intro z2
        unfold hostSplit
        rcases dropLit_q_cases attLit (by decide) (p.dropWhile isHostA) z2 with ⟨p2, hp2⟩ | hn3
        · exfalso
          rw [hp2, List.append_assoc, dropLit_app] at hn2
          exact Option.noConfusion hn2
        · simp only [hnone z2, htw z2, if_neg he, hdw z2, hn3]

/-- Re-matching stability: if the pattern matched with base `b`, then `b`
followed by `?` and any query text matches again with the same base. -/
theorem sigMatch_rematch {s b q r : List Char} (hm : sigMatch s = some (b, q, r)) :
    ∀ Y, sigMatch (b ++ '?' :: Y) =
      some (b, Y.takeWhile (fun c => !stopNQ c), Y.dropWhile (fun c => !stopNQ c)) := by
  intro Y
  unfold sigMatch at hm
  cases h1 : dropLit httpsLit s with
  | none => simp [h1] at hm
  | some s1 =>
    simp only [h1] at hm
    cases h2 : hostSplit s1 with
    | none => simp [h2] at hm
    | some p =>
      obtain ⟨h, s2⟩ := p
      simp only [h2] at hm
      cases h3 : s2.dropWhile (fun c => !stopQ c) with
      | nil => simp [h3] at hm
      | cons c s3 =>
        simp only [h3] at hm
        by_cases hc : c = '?'
        · rw [if_pos hc] at hm
          simp only [Option.some.injEq, Prod.mk.injEq] at hm
          obtain ⟨hb, _, _⟩ := hm
          subst hc
          obtain ⟨hs1, hstop⟩ := hostSplit_decomp h2
          -- s2 = run ++ '?' :: s3
          have hs2 : s2 = s2.takeWhile (fun c => !stopQ c) ++ '?' :: s3 := by
            rw [← h3, List.takeWhile_append_dropWhile]
          -- hostSplit over (h ++ run) with a query suffix is stable
          rcases hostSplit_qcases (h ++ s2.takeWhile (fun c => !stopQ c)) with
            ⟨h0, p2, hp, hstop0, hall⟩ | hnone
          · have horig := hall s3
            have hkey : hostSplit s1 = some (h0, p2 ++ '?' :: s3) := by
              rw [hs1, hs2, ← List.append_assoc]
              exact horig
            rw [h2] at hkey
            simp only [Option.some.injEq, Prod.mk.injEq] at hkey
            obtain ⟨hh0, hseq⟩ := hkey
            -- identify p2 with run
            have hq1 : ∀ c ∈ p2, c ≠ '?' := by
              intro d hd hdq
              subst hdq
              have hd2 : '?' ∈ h0 ++ p2 := by simp [hd]
              rw [← hp] at hd2
              rcases List.mem_append.mp hd2 with hx | hx
              · have := hstop '?' hx
                simp [stopQ] at this
              · have := List.mem_takeWhile_imp hx
                simp [stopQ] at this
            have hq2 : ∀ d ∈ s2.takeWhile (fun c => !stopQ c), d ≠ '?' := by
              intro d hd hdq
              subst hdq
              have := List.mem_takeWhile_imp hd
              simp [stopQ] at this
            have heq : p2 ++ '?' :: s3 = s2.takeWhile (fun c => !stopQ c) ++ '?' :: s3 :=
              hseq.symm.trans hs2
            obtain ⟨hpr, _⟩ := append_qmark_inj hq1 hq2 heq
            -- takeWhile over p2 ++ '?' :: Y
            have htk : (p2 ++ '?' :: Y).takeWhile (fun c => !stopQ c) = p2 := by
              rw [@takeWhile_app_stop (fun c => !stopQ c) '?' (by decide) p2 Y]
              apply List.takeWhile_eq_self_iff.mpr
              intro x hx
              have hx2 : x ∈ h0 ++ p2 := by simp [hx]
              rw [← hp] at hx2
              rcases List.mem_append.mp hx2 with hy | hy
              · simp [hstop x hy]
              · simp [List.mem_takeWhile_imp hy]
            have hdk : (p2 ++ '?' :: Y).dropWhile (fun c => !stopQ c) = '?' :: Y := by
              rw [@dropWhile_app_stop (fun c => !stopQ c) '?' (by decide) p2 Y]
              have : p2.dropWhile (fun c => !stopQ c) = [] := by
                rw [List.dropWhile_eq_nil_iff]
                intro x hx
                have hx2 : x ∈ h0 ++ p2 := by simp [hx]
                rw [← hp] at hx2
                rcases List.mem_append.mp hx2 with hy | hy
                · simp [hstop x hy]
                · simp [List.mem_takeWhile_imp hy]
              rw [this]
              rfl
            -- now compute sigMatch (b ++ '?' :: Y)
            have hbsplit : b ++ '?' :: Y =
                httpsLit ++ ((h ++ s2.takeWhile (fun c => !stopQ c)) ++ '?' :: Y) := by
              rw [← hb]
              simp [List.append_assoc]
            unfold sigMatch
            rw [hbsplit, dropLit_app]
            simp only [hall Y, htk, hdk]
            simp only [if_true, Option.some.injEq, Prod.mk.injEq, and_true, true_and]
            rw [← hb, hh0, hpr]
          · exfalso
            have := hnone s3
            rw [hs1, hs2] at h2
            rw [← List.append_assoc] at h2
            rw [this] at h2
            exact Option.noConfusion h2
        · rw [if_neg hc] at hm; simp at hm

/-- No match can start strictly inside a stop-free fragment followed by a
delimiter: the pattern needs a `?` before the first stopping character. -/
theorem sigMatch_none_interior {u T : List Char} (hu : ∀ c ∈ u, stopQ c = false)
    (hT : T = [] ∨ ∃ d t2, T = d :: t2 ∧ stopNQ d = true) :
    ∀ u2, (∃ u1, u = u1 ++ u2) → sigMatch (u2 ++ T) = none := by
  intro u2 hu2
  obtain ⟨u1, hu1⟩ := hu2
  cases hm : sigMatch (u2 ++ T) with
  | none => rfl
  | some p =>
    exfalso
    obtain ⟨b, q, r⟩ := p
    obtain ⟨hs, _, hb, _, _⟩ := sigMatch_decomp hm
    have hu2stop : ∀ c ∈ u2, stopQ c = false := fun c hc =>
      hu c (by rw [hu1]; exact List.mem_append.mpr (Or.inr hc))
    rcases List.append_eq_append_iff.mp hs with ⟨a2, hBa, hTa⟩ | ⟨c2, hu22, hra⟩
    · rcases List.append_eq_append_iff.mp hBa.symm with ⟨a3, hb3, ha3⟩ | ⟨c3, hu23, hq3⟩
      · have hT2 : T = a3 ++ '?' :: (q ++ r) := by
          rw [hTa, ha3]
          simp [List.append_assoc]
        cases a3 with
        | nil =>
          rcases hT with hTe | ⟨d, t2, hd, hds⟩
          · rw [hTe] at hT2
            simp at hT2
          · rw [hd] at hT2
            simp only [List.nil_append, List.cons.injEq] at hT2
            rw [hT2.1] at hds
            exact absurd hds (by decide)
        | cons e a3x =>
          rcases hT with hTe | ⟨d, t2, hd, hds⟩
          · rw [hTe] at hT2
            simp at hT2
          · rw [hd] at hT2
            simp only [List.cons_append, List.cons.injEq] at hT2
            have he : e ∈ b := by rw [hb3]; simp
            have hqe := hb e he
            rw [← hT2.1] at hqe
            rw [stopNQ_stopQ hds] at hqe
            exact Bool.noConfusion hqe
      · cases c3 with
        | nil =>
          simp only [List.nil_append] at hq3
          rw [← hq3] at hTa
          rcases hT with hTe | ⟨d, t2, hd, hds⟩
          · rw [hTe] at hTa
            simp at hTa
          · rw [hd] at hTa
            simp only [List.cons_append, List.cons.injEq] at hTa
            rw [hTa.1] at hds
            exact absurd hds (by decide)
        | cons e c3x =>
          simp only [List.cons_append, List.cons.injEq] at hq3
          have he : e ∈ u2 := by rw [hu23]; simp
          have hestop := hu2stop e he
          rw [← hq3.1] at hestop
          exact absurd hestop (by decide)
    · have hq : ∃ x ∈ u2, x = '?' := by
        rw [hu22]
        exact ⟨'?', by simp, rfl⟩
      obtain ⟨x, hx, hx2⟩ := hq
      have := hu2stop x hx
      rw [hx2] at this
      exact absurd this (by decide)

/-! ## Percent-encoding round trip -/

theorem char_eq_of_toNat {a b : Char} (h : a.toNat = b.toNat) : a = b :=
  Char.eq_of_val_eq (UInt32.ext h)

theorem char_ofNat_toNat_lt {n : Nat} (h : n < 55296) : (Char.ofNat n).toNat = n := by
  unfold Char.ofNat
  rw [dif_pos (by constructor; omega)]
  rfl

theorem char_ofNat_toNat_self {c : Char} (h : c.toNat < 55296) :
    Char.ofNat c.toNat = c :=
  char_eq_of_toNat (char_ofNat_toNat_lt h)

theorem formDecodeF_congr : ∀ (f g : Nat) (s : List Char), s.length ≤ f →
    s.length ≤ g → formDecodeF f s = formDecodeF g s := by
  intro f
  induction f with
  | zero =>
    intro g s hf _
    have hs : s = [] := List.length_eq_zero.mp (Nat.le_zero.mp hf)
    subst hs
    cases g <;> rfl
  | succ f ih =>
    intro g s hf hg
    cases s with
    | nil => cases g <;> rfl
    | cons c r =>
      cases g with
      | zero => simp at hg
      | succ g =>
        simp only [List.length_cons, Nat.add_le_add_iff_right] at hf hg
        simp only [formDecodeF]
        by_cases hplus : c = '+'
        · rw [if_pos hplus, if_pos hplus, ih g r hf hg]
        · rw [if_neg hplus, if_neg hplus]
          by_cases hpct : c = '%'
          · rw [if_pos hpct, if_pos hpct]
            cases r with
            | nil =>
              show '%' :: formDecodeF f [] = '%' :: formDecodeF g []
              rw [ih g [] hf hg]
            | cons a r1 =>
              cases r1 with
              | nil =>
                show '%' :: formDecodeF f [a] = '%' :: formDecodeF g [a]
                rw [ih g [a] hf hg]
              | cons b r2 =>
                simp only [List.length_cons] at hf hg
                cases hx : hexVal a with
                | none =>
                  simp only [hx]
                  rw [ih g (a :: b :: r2) (by simp; omega) (by simp; omega)]
                | some x =>
                  cases hy : hexVal b with
                  | none =>
                    simp only [hx, hy]
                    rw [ih g (a :: b :: r2) (by simp; omega) (by simp; omega)]
                  | some y =>
                    simp only [hx, hy]
                    rw [ih g r2 (by omega) (by omega)]
          · rw [if_neg hpct, if_neg hpct, ih g r hf hg]

theorem formDecode_cons_plus (s : List Char) :
    formDecode ('+' :: s) = ' ' :: formDecode s := by
  rfl

theorem formDecode_cons_other {c : Char} (h1 : c ≠ '+') (h2 : c ≠ '%')
    (s : List Char) : formDecode (c :: s) = c :: formDecode s := by
  unfold formDecode
  simp only [List.length_cons, formDecodeF, if_neg h1, if_neg h2]

theorem formDecodeF_pct (f : Nat) (a b : Char) (s : List Char) :
    formDecodeF (f + 1) ('%' :: a :: b :: s) =
      (match hexVal a, hexVal b with
       | some x, some y => Char.ofNat (16 * x + y) :: formDecodeF f s
       | _, _ => '%' :: formDecodeF f (a :: b :: s)) := rfl

theorem formDecode_pct {a b : Char} {x y : Nat} (hx : hexVal a = some x)
    (hy : hexVal b = some y) (s : List Char) :
    formDecode ('%' :: a :: b :: s) = Char.ofNat (16 * x + y) :: formDecode s := by
  unfold formDecode
  rw [show ('%' :: a :: b :: s).length = s.length + 2 + 1 from rfl]
  simp only [formDecodeF_pct, hx, hy]
  congr 1
  apply formDecodeF_congr <;> omega

theorem hexVal_hexDigit : ∀ n, n < 16 → hexVal (hexDigit n) = some n := by decide

theorem formSafe_not_special {c : Char} (h : formSafe c = true) :
    c ≠ '+' ∧ c ≠ '%' := by
  constructor <;> rintro rfl <;> revert h <;> decide

theorem formDecode_formEncode : ∀ s : List Char, formDecode (formEncode s) = s := by
  intro s
  induction s with
  | nil => rfl
  | cons c s ih =>
    have henc : formEncode (c :: s) = formEncodeC c ++ formEncode s := rfl
    rw [henc]
    unfold formEncodeC
    by_cases hsafe : formSafe c
    · rw [if_pos hsafe]
      obtain ⟨h1, h2⟩ := formSafe_not_special hsafe
      simp only [List.cons_append, List.nil_append]
      rw [formDecode_cons_other h1 h2, ih]
    · rw [if_neg hsafe]
      by_cases hsp : c = ' '
      · rw [if_pos hsp, hsp]
        simp only [List.cons_append, List.nil_append]
        rw [formDecode_cons_plus, ih]
      · rw [if_neg hsp]
        by_cases hle : c.toNat ≤ 255
        · rw [if_pos hle]
          simp only [List.cons_append, List.nil_append]
          rw [formDecode_pct (hexVal_hexDigit _ (by omega))
            (hexVal_hexDigit _ (by omega)) (formEncode s)]
          rw [show 16 * (c.toNat / 16) + c.toNat % 16 = c.toNat from by omega]
          rw [char_ofNat_toNat_self (by omega), ih]
        · rw [if_neg hle]
          simp only [List.cons_append, List.nil_append]
          have hplus : c ≠ '+' := by
            rintro rfl; exact hle (by decide)
          have hpct : c ≠ '%' := by
            rintro rfl; exact hle (by decide)
          rw [formDecode_cons_other hplus hpct, ih]

/-! ## Character classes of the serialized query -/

theorem hexDigit_ok : ∀ n, n < 16 →
    stopNQ (hexDigit n) = false ∧ hexDigit n ≠ '&' ∧ hexDigit n ≠ '=' ∧
      hexDigit n ≠ '#' := by decide

theorem formSafe_ok {c : Char} (h : formSafe c = true) :
    stopNQ c = false ∧ c ≠ '&' ∧ c ≠ '=' ∧ c ≠ '#' := by
  refine ⟨?_, ?_, ?_, ?_⟩
  · cases hs : stopNQ c with
    | false => rfl
    | true =>
      exfalso
      rcases stopNQ_cases hs with h1|h1|h1|h1|h1|h1|h1|h1|h1 <;>
        (subst h1; revert h; decide)
  · rintro rfl; revert h; decide
  · rintro rfl; revert h; decide
  · rintro rfl; revert h; decide

theorem formEncodeC_ok (c : Char) : ∀ d ∈ formEncodeC c,
    stopNQ d = false ∧ d ≠ '&' ∧ d ≠ '=' ∧ d ≠ '#' := by
  intro d hd
  unfold formEncodeC at hd
  by_cases hsafe : formSafe c
  · rw [if_pos hsafe] at hd
    simp only [List.mem_singleton] at hd
    subst hd
    exact formSafe_ok hsafe
  · rw [if_neg hsafe] at hd
    by_cases hsp : c = ' '
    · rw [if_pos hsp] at hd
      simp only [List.mem_singleton] at hd
      subst hd
      decide
    · rw [if_neg hsp] at hd
      by_cases hle : c.toNat ≤ 255
      · rw [if_pos hle] at hd
        simp only [List.mem_cons, List.not_mem_nil, or_false] at hd
        rcases hd with hd | hd | hd
        · subst hd; decide
        · subst hd; exact hexDigit_ok _ (by omega)
        · subst hd; exact hexDigit_ok _ (by omega)
      · rw [if_neg hle] at hd
        simp only [List.mem_singleton] at hd
        subst hd
        refine ⟨?_, ?_, ?_, ?_⟩
        · cases hs : stopNQ d with
          | false => rfl
          | true =>
            exfalso
            rcases stopNQ_cases hs with h1|h1|h1|h1|h1|h1|h1|h1|h1 <;>
              (subst h1; exact hle (by decide))
        · rintro rfl; exact hle (by decide)
        · rintro rfl; exact hle (by decide)
        · rintro rfl; exact hle (by decide)

theorem mem_joinC {sep : Char} : ∀ {ls : List (List Char)} {d : Char},
    d ∈ joinC sep ls → d = sep ∨ ∃ p ∈ ls, d ∈ p := by
  intro ls
  induction ls with
  | nil => intro d hd; simp [joinC] at hd
  | cons p ps ih =>
    intro d hd
    cases ps with
    | nil => exact Or.inr ⟨p, by simp, by simpa [joinC] using hd⟩
    | cons p2 ps2 =>
      rw [show joinC sep (p :: p2 :: ps2) = p ++ sep :: joinC sep (p2 :: ps2)
        from rfl] at hd
      rcases List.mem_append.mp hd with h | h
      · exact Or.inr ⟨p, by simp, h⟩
      · rcases List.mem_cons.mp h with h2 | h2
        · exact Or.inl h2
        · rcases ih h2 with h3 | ⟨v, hv, hdv⟩
          · exact Or.inl h3
          · exact Or.inr ⟨v, by simp [hv], hdv⟩

theorem mem_formEncode {d : Char} : ∀ {s : List Char},
    d ∈ formEncode s → ∃ c ∈ s, d ∈ formEncodeC c := by
  intro s
  induction s with
  | nil => intro h; simp [formEncode, joinL] at h
  | cons c s ih =>
    intro h
    rw [show formEncode (c :: s) = formEncodeC c ++ formEncode s from rfl] at h
    rcases List.mem_append.mp h with h | h
    · exact ⟨c, by simp, h⟩
    · obtain ⟨c2, hc2, hd2⟩ := ih h
      exact ⟨c2, by simp [hc2], hd2⟩

theorem serializeForm_ok (ps : List (List Char × List Char)) :
    ∀ d ∈ serializeForm ps, stopNQ d = false ∧ d ≠ '#' := by
  intro d hd
  rcases mem_joinC hd with h | ⟨p, hp, hdp⟩
  · subst h; exact ⟨rfl, by decide⟩
  · obtain ⟨pr, _, hmap⟩ := List.mem_map.mp hp
    rw [← hmap] at hdp
    rcases List.mem_append.mp hdp with h | h
    · obtain ⟨c, _, hce⟩ := mem_formEncode h
      exact ⟨(formEncodeC_ok c d hce).1, (formEncodeC_ok c d hce).2.2.2⟩
    · rcases List.mem_cons.mp h with h2 | h2
      · subst h2; exact ⟨rfl, by decide⟩
      · obtain ⟨c, _, hce⟩ := mem_formEncode h2
        exact ⟨(formEncodeC_ok c d hce).1, (formEncodeC_ok c d hce).2.2.2⟩

/-! ## The serializer and parser of query pairs are inverse -/

theorem parseForm_nil : parseForm [] = [] := rfl

theorem foldr_segs (ps : List (List Char × List Char)) :
    (ps.map (fun p => formEncode p.1 ++ '=' :: formEncode p.2)).foldr
      (fun seg acc => if seg.isEmpty then acc
        else (formDecode (seg.takeWhile (· ≠ '=')),
              formDecode ((seg.dropWhile (· ≠ '=')).drop 1)) :: acc) [] = ps := by
  induction ps with
  | nil => rfl
  | cons p ps ih =>
    simp only [List.map_cons, List.foldr_cons, ih]
    rw [if_neg (by simp)]
    have hq : ((· ≠ '=') : Char → Bool) '=' = false := by decide
    have henc : ∀ x ∈ formEncode p.1, (((· ≠ '=') : Char → Bool)) x = true := by
      intro x hx
      obtain ⟨c, _, hce⟩ := mem_formEncode hx
      simpa using (formEncodeC_ok c x hce).2.2.1
    have ht : (formEncode p.1 ++ '=' :: formEncode p.2).takeWhile (· ≠ '=') =
        formEncode p.1 := by
      rw [takeWhile_app_stop hq]
      exact List.takeWhile_eq_self_iff.mpr henc
    have hd : ((formEncode p.1 ++ '=' :: formEncode p.2).dropWhile
        (· ≠ '=')).drop 1 = formEncode p.2 := by
      rw [dropWhile_app_stop hq, List.dropWhile_eq_nil_iff.mpr henc]
      rfl
    rw [ht, hd, formDecode_formEncode, formDecode_formEncode]

theorem parseForm_serializeForm (ps : List (List Char × List Char)) :
    parseForm (serializeForm ps) = ps := by
  cases ps with
  | nil => rfl
  | cons p0 ps0 =>
    unfold parseForm serializeForm
    rw [splitOnC_joinC (by simp) ?noamp]
    case noamp =>
      intro seg hseg c hc
      obtain ⟨pr, _, hmap⟩ := List.mem_map.mp hseg
      rw [← hmap] at hc
      rcases List.mem_append.mp hc with h | h
      · obtain ⟨e, _, hce⟩ := mem_formEncode h
        exact (formEncodeC_ok e c hce).2.1
      · rcases List.mem_cons.mp h with h2 | h2
        · subst h2; decide
        · obtain ⟨e, _, hce⟩ := mem_formEncode h2
          exact (formEncodeC_ok e c hce).2.1
    exact foldr_segs (p0 :: ps0)

theorem deleteSigParams_idem (ps : List (List Char × List Char)) :
    deleteSigParams (deleteSigParams ps) = deleteSigParams ps := by
  unfold deleteSigParams
  rw [List.filter_filter]
  congr 1
  funext a
  rw [Bool.and_self]

/-! ## Stability of `parseURL` under query replacement -/

theorem queryOf_qtail_nil {w : List Char}
    (hm : w.dropWhile (fun c => !(c = '?' || c = '#')) = []) (z : List Char) :
    queryOf (w ++ '?' :: z) = z.takeWhile (· ≠ '#') := by
  have hp4 : (fun c => !(c = '?' || c = '#')) '?' = false := by decide
  simp only [queryOf]
  rw [dropWhile_app_stop hp4 w z, hm]
  rfl

theorem queryOf_qtail_cons {w w2 : List Char} {e : Char}
    (hm : w.dropWhile (fun c => !(c = '?' || c = '#')) = e :: w2) (he : e ≠ '?')
    (z : List Char) : queryOf (w ++ '?' :: z) = [] := by
  have hp4 : (fun c => !(c = '?' || c = '#')) '?' = false := by decide
  simp only [queryOf]
  rw [dropWhile_app_stop hp4 w z, hm, List.cons_append]
  split
  · rename_i tq heq
    injection heq with h1 _
    exact absurd h1 he
  · rfl

theorem parseURL_qswap {t z : List Char} (hq : '?' ∉ t) {u : UrlT}
    (h : parseURL (httpsLit ++ (t ++ '?' :: z)) = some u) :
    u.params = parseForm (if (t.dropWhile (fun c => !(c = '/' || c = '?' || c = '#'))).dropWhile
          (fun c => !(c = '?' || c = '#')) = []
        then z.takeWhile (· ≠ '#') else []) ∧
    ∀ z2, parseURL (httpsLit ++ (t ++ '?' :: z2)) = some
      { origin := u.origin, path := u.path,
        params := parseForm (if (t.dropWhile (fun c => !(c = '/' || c = '?' || c = '#'))).dropWhile
            (fun c => !(c = '?' || c = '#')) = []
          then z2.takeWhile (· ≠ '#') else []) } := by
  have hp3 : (fun c => !(c = '/' || c = '?' || c = '#')) '?' = false := by decide
  have hp4 : (fun c => !(c = '?' || c = '#')) '?' = false := by decide
  have hquery : ∀ z2 : List Char,
      queryOf ((t ++ '?' :: z2).dropWhile (fun c => !(c = '/' || c = '?' || c = '#'))) =
        (if (t.dropWhile (fun c => !(c = '/' || c = '?' || c = '#'))).dropWhile
            (fun c => !(c = '?' || c = '#')) = []
          then z2.takeWhile (· ≠ '#') else []) := by
    intro z2
    rw [dropWhile_app_stop hp3 t z2]
    cases hw : (t.dropWhile (fun c => !(c = '/' || c = '?' || c = '#'))).dropWhile
        (fun c => !(c = '?' || c = '#')) with
    | nil => rw [queryOf_qtail_nil hw z2, if_pos rfl]
    | cons e w2 =>
      have hem : e ∈ t := by
        have h1 : e ∈ (t.dropWhile (fun c => !(c = '/' || c = '?' || c = '#'))).dropWhile
            (fun c => !(c = '?' || c = '#')) := by rw [hw]; simp
        exact (List.dropWhile_sublist _).mem ((List.dropWhile_sublist _).mem h1)
      have he : e ≠ '?' := fun hh => hq (hh ▸ hem)
      rw [queryOf_qtail_cons hw he z2, if_neg (by simp)]
  have hpath : ∀ z2 : List Char,
      ((t ++ '?' :: z2).dropWhile (fun c => !(c = '/' || c = '?' || c = '#'))).takeWhile
          (fun c => !(c = '?' || c = '#')) =
        (t.dropWhile (fun c => !(c = '/' || c = '?' || c = '#'))).takeWhile
          (fun c => !(c = '?' || c = '#')) := by
    intro z2
    rw [dropWhile_app_stop hp3 t z2, takeWhile_app_stop hp4 _ z2]
  have hauth : ∀ z2 : List Char,
      (t ++ '?' :: z2).takeWhile (fun c => !(c = '/' || c = '?' || c = '#')) =
        t.takeWhile (fun c => !(c = '/' || c = '?' || c = '#')) :=
    fun z2 => takeWhile_app_stop hp3 t z2
  unfold parseURL at h
  rw [dropLit_app] at h
  simp only [hauth, hpath, hquery] at h
  split at h
  · exact Option.noConfusion h
  · split at h
    · exact Option.noConfusion h
    · split at h
      · exact Option.noConfusion h
      · rename_i hC1 hC2 hsc po heq
        have hu := Option.some.inj h
        subst hu
        refine ⟨rfl, ?_⟩
        intro z2
        unfold parseURL
        rw [dropLit_app]
        simp only [hauth, hpath, hquery]
        rw [if_neg hC1, if_neg hC2]
        simp only [heq]

/-! ## Stability of the strip replacement -/

theorem stripRepl_eq_of_some {b q : List Char} {u : UrlT}
    (hu : parseURL (b ++ '?' :: q) = some u)
    (hne : serializeForm (deleteSigParams u.params) ≠ []) :
    stripRepl b q = b ++ '?' :: serializeForm (deleteSigParams u.params) := by
  unfold stripRepl
  simp only [hu]
  rw [if_neg (fun hh => hne (List.isEmpty_iff.mp hh))]

theorem stripRepl_eq_of_none {b q : List Char}
    (hu : parseURL (b ++ '?' :: q) = none) : stripRepl b q = b := by
  unfold stripRepl
  simp only [hu]

theorem stripRepl_eq_of_empty {b q : List Char} {u : UrlT}
    (hu : parseURL (b ++ '?' :: q) = some u)
    (he : serializeForm (deleteSigParams u.params) = []) : stripRepl b q = b := by
  unfold stripRepl
  simp only [hu]
  rw [if_pos (List.isEmpty_iff.mpr he)]

theorem stripRepl_stable {t2 q : List Char} (hq : '?' ∉ t2) {u : UrlT}
    (hu : parseURL (httpsLit ++ (t2 ++ '?' :: q)) = some u)
    (hne : serializeForm (deleteSigParams u.params) ≠ []) :
    stripRepl (httpsLit ++ t2) (serializeForm (deleteSigParams u.params)) =
      (httpsLit ++ t2) ++ '?' :: serializeForm (deleteSigParams u.params) := by
  obtain ⟨hparams, hall⟩ := parseURL_qswap hq hu
  by_cases hW : (t2.dropWhile (fun c => !(c = '/' || c = '?' || c = '#'))).dropWhile
      (fun c => !(c = '?' || c = '#')) = []
  · have h2 := hall (serializeForm (deleteSigParams u.params))
    rw [if_pos hW] at h2
    have htake : (serializeForm (deleteSigParams u.params)).takeWhile (· ≠ '#') =
        serializeForm (deleteSigParams u.params) :=
      List.takeWhile_eq_self_iff.mpr
        (fun x hx => by simpa using (serializeForm_ok _ x hx).2)
    rw [htake] at h2
    unfold stripRepl
    rw [show (httpsLit ++ t2) ++ '?' :: serializeForm (deleteSigParams u.params) =
      httpsLit ++ (t2 ++ '?' :: serializeForm (deleteSigParams u.params)) from by simp]
    simp only [h2]
    rw [parseForm_serializeForm, deleteSigParams_idem]
    rw [if_neg (fun hh => hne (List.isEmpty_iff.mp hh))]
    rw [List.append_assoc]
  · exfalso
    rw [if_neg hW] at hparams
    rw [parseForm_nil] at hparams
    apply hne
    rw [hparams]
    rfl

/-! ## No-match preservation under tail replacement -/

theorem stopQ_isHostA {c : Char} (h : stopQ c = true) : isHostA c = false := by
  cases hi : isHostA c with
  | false => rfl
  | true => rw [isHostA_stopQ hi] at h; exact Bool.noConfusion h

theorem stopQ_isHostB {c : Char} (h : stopQ c = true) : isHostB c = false := by
  cases hi : isHostB c with
  | false => rfl
  | true => rw [isHostB_stopQ hi] at h; exact Bool.noConfusion h

theorem dropLit_delim_cases (lit : List Char) (hlit : ∀ c ∈ lit, stopQ c = false) :
    ∀ p : List Char, (∃ p2, p = lit ++ p2) ∨
      ∀ T, (T = [] ∨ ∃ d w, T = d :: w ∧ stopQ d = true) →
        dropLit lit (p ++ T) = none := by
  induction lit with
  | nil => intro p; exact Or.inl ⟨p, rfl⟩
  | cons l ls ih =>
    intro p
    cases p with
    | nil =>
      right
      intro T hT
      rcases hT with rfl | ⟨d, w, rfl, hd⟩
      · rfl
      · simp only [List.nil_append, dropLit]
        rw [if_neg (fun hh : d = l => by
          rw [hh, hlit l (by simp)] at hd; exact Bool.noConfusion hd)]
    | cons a p2 =>
      by_cases hal : a = l
      · subst hal
        rcases ih (fun c hc => hlit c (by simp [hc])) p2 with ⟨p3, hp3⟩ | hn
        · exact Or.inl ⟨p3, by rw [hp3]; rfl⟩
        · right
          intro T hT
          simp only [List.cons_append, dropLit, if_pos rfl]
          exact hn T hT
      · right
        intro T hT
        simp only [List.cons_append, dropLit]
        rw [if_neg hal]

theorem hostSplit_delim_cases (p : List Char) :
    (∃ h p2, p = h ++ p2 ∧ (∀ c ∈ h, stopQ c = false) ∧
      ∀ T, (T = [] ∨ ∃ d w, T = d :: w ∧ stopQ d = true) →
        hostSplit (p ++ T) = some (h, p2 ++ T)) ∨
    ∀ T, (T = [] ∨ ∃ d w, T = d :: w ∧ stopQ d = true) →
      hostSplit (p ++ T) = none := by
  have htw : ∀ (q : Char → Bool), (∀ c, stopQ c = true → q c = false) →
      ∀ (a T : List Char), (T = [] ∨ ∃ d w, T = d :: w ∧ stopQ d = true) →
        (a ++ T).takeWhile q = a.takeWhile q := by
    intro q hq a T hT
    rcases hT with rfl | ⟨d, w, rfl, hd⟩
    · rw [List.append_nil]
    · exact takeWhile_app_stop (hq d hd) a w
  have hdw : ∀ (q : Char → Bool), (∀ c, stopQ c = true → q c = false) →
      ∀ (a T : List Char), (T = [] ∨ ∃ d w, T = d :: w ∧ stopQ d = true) →
        (a ++ T).dropWhile q = a.dropWhile q ++ T := by
    intro q hq a T hT
    rcases hT with rfl | ⟨d, w, rfl, hd⟩
    · rw [List.append_nil, List.append_nil]
    · exact dropWhile_app_stop (hq d hd) a w
  rcases dropLit_delim_cases icdnLit (by decide) p with ⟨p2, hp2⟩ | hn
  · left
    refine ⟨icdnLit, p2, hp2, fun c hc => by fin_cases hc <;> rfl, fun T hT => ?_⟩
    unfold hostSplit
    simp only [hp2, List.append_assoc, dropLit_app]
  · by_cases he : (p.takeWhile isHostA).isEmpty
    · right
      intro T hT
      unfold hostSplit
      simp only [hn T hT, htw isHostA (fun c h => stopQ_isHostA h) p T hT, if_pos he]
    · rcases dropLit_delim_cases attLit (by decide) (p.dropWhile isHostA) with
        ⟨p2, hp2⟩ | hn2
      · left
        refine ⟨p.takeWhile isHostA ++ attLit ++ p2.takeWhile isHostB,
          p2.dropWhile isHostB, ?_, ?_, fun T hT => ?_⟩
        · conv_lhs => rw [← List.takeWhile_append_dropWhile isHostA p, hp2]
          rw [← List.takeWhile_append_dropWhile isHostB p2]
          simp [List.append_assoc]
        · intro c hc
          rcases List.mem_append.mp hc with hc1 | hc2
          · rcases List.mem_append.mp hc1 with hc3 | hc4
            · exact isHostA_stopQ (List.mem_takeWhile_imp hc3)
            · fin_cases hc4 <;> rfl
          · exact isHostB_stopQ (List.mem_takeWhile_imp hc2)
        · unfold hostSplit
          simp only [hn T hT, htw isHostA (fun c h => stopQ_isHostA h) p T hT,
            if_neg he, hdw isHostA (fun c h => stopQ_isHostA h) p T hT, hp2,
            List.append_assoc, dropLit_app]
          rw [htw isHostB (fun c h => stopQ_isHostB h) p2 T hT,
            hdw isHostB (fun c h => stopQ_isHostB h) p2 T hT]
      · right
        intro T hT
        unfold hostSplit
        have hn3 : dropLit attLit ((p ++ T).dropWhile isHostA) = none := by
          rw [hdw isHostA (fun c h => stopQ_isHostA h) p T hT]
          exact hn2 T hT
        simp only [hn T hT, htw isHostA (fun c h => stopQ_isHostA h) p T hT,
          if_neg he, hn3]

theorem sigMatch_delim_none {X y : List Char}
    (hm : sigMatch (X ++ '?' :: y) = none) :
    ∀ T, (T = [] ∨ ∃ d w, T = d :: w ∧ stopQ d = true) →
      sigMatch (X ++ T) = none := by
  intro T hT
  rcases dropLit_delim_cases httpsLit (by decide) X with ⟨X2, hX2⟩ | hn
  · subst hX2
    rcases hostSplit_delim_cases X2 with ⟨h, p2, hp, hstop, hall⟩ | hnone
    · cases hw : p2.dropWhile (fun c => !stopQ c) with
      | nil =>
        exfalso
        have hfree : ∀ c ∈ p2, (!stopQ c) = true := List.dropWhile_eq_nil_iff.mp hw
        unfold sigMatch at hm
        simp only [List.append_assoc, dropLit_app,
          hall ('?' :: y) (Or.inr ⟨'?', y, rfl, by decide⟩)] at hm
        have hdrop : (p2 ++ '?' :: y).dropWhile (fun c => !stopQ c) = '?' :: y := by
          rw [dropWhile_all hfree ('?' :: y)]
          simp [List.dropWhile_cons, stopQ]
        simp only [hdrop] at hm
        simp at hm
      | cons e w2 =>
        have hp2split : p2 = p2.takeWhile (fun c => !stopQ c) ++ e :: w2 := by
          rw [← hw, List.takeWhile_append_dropWhile]
        have hstopE : stopQ e = true := by
          have := dropWhile_head_false hw
          simpa using this
        have hdwgen : ∀ Z : List Char,
            (p2 ++ Z).dropWhile (fun c => !stopQ c) = e :: (w2 ++ Z) := by
          intro Z
          conv_lhs => rw [hp2split]
          rw [List.append_assoc, List.cons_append,
            dropWhile_all (fun c hc => List.mem_takeWhile_imp hc) (e :: (w2 ++ Z))]
          simp [List.dropWhile_cons, hstopE]
        by_cases heq : e = '?'
        · exfalso
          subst heq
          unfold sigMatch at hm
          simp only [List.append_assoc, dropLit_app,
            hall ('?' :: y) (Or.inr ⟨'?', y, rfl, by decide⟩)] at hm
          simp only [hdwgen ('?' :: y)] at hm
          simp at hm
        · unfold sigMatch
          simp only [List.append_assoc, dropLit_app, hall T hT]
          simp only [hdwgen T]
          rw [if_neg heq]
    · unfold sigMatch
      simp only [List.append_assoc, dropLit_app, hnone T hT]
  · unfold sigMatch
    simp only [hn T hT]

/-! ## First-match decomposition of the strip scanner -/

theorem sigMatch_none_of_head {d : Char} (hd : d ≠ 'h') (r : List Char) :
    sigMatch (d :: r) = none := by
  unfold sigMatch
  rw [show httpsLit = 'h' :: ('t' :: 't' :: 'p' :: 's' :: ':' :: '/' :: '/' :: [])
    from rfl]
  simp only [dropLit]
  rw [if_neg hd]

theorem stripMatcher_none {s : List Char} (h : sigMatch s = none) :
    stripMatcher s = none := by
  unfold stripMatcher
  rw [h]

theorem stripL_decomp : ∀ s : List Char,
    (stripL s = s ∧ ∀ s1 s2, s = s1 ++ s2 → s2 ≠ [] → stripMatcher s2 = none) ∨
    (∃ pre b q r, s = pre ++ ((b ++ '?' :: q) ++ r) ∧
      (∀ p1 p2, pre = p1 ++ p2 → p2 ≠ [] →
        stripMatcher (p2 ++ ((b ++ '?' :: q) ++ r)) = none) ∧
      sigMatch ((b ++ '?' :: q) ++ r) = some (b, q, r) ∧
      stripL s = pre ++ stripRepl b q ++ stripL r) := by
  intro s
  induction s with
  | nil =>
    left
    refine ⟨rfl, fun s1 s2 heq hne => absurd ?_ hne⟩
    exact (List.append_eq_nil.mp heq.symm).2
  | cons c rest ih =>
    cases hm : stripMatcher (c :: rest) with
    | some rp =>
      right
      cases hsm : sigMatch (c :: rest) with
      | none =>
        exfalso
        unfold stripMatcher at hm
        rw [hsm] at hm
        exact Option.noConfusion hm
      | some trip =>
        obtain ⟨b, q, r⟩ := trip
        obtain ⟨hs, _, _, _, _⟩ := sigMatch_decomp hsm
        refine ⟨[], b, q, r, by simpa using hs, ?_, ?_, ?_⟩
        · intro p1 p2 heq hne
          exact absurd (List.append_eq_nil.mp heq.symm).2 hne
        · rw [← hs]
          exact hsm
        · have hmm : stripMatcher (c :: rest) =
              some (stripRepl b q, b.length + 1 + q.length) := by
            unfold stripMatcher
            rw [hsm]
          have e1 := replaceScan_some stripMatcher hmm
          show replaceScan stripMatcher (c :: rest) =
            [] ++ stripRepl b q ++ replaceScan stripMatcher r
          rw [e1, hs, Nat.max_eq_left (by omega)]
          rw [show b.length + 1 + q.length = (b ++ '?' :: q).length from by
            rw [List.length_append, List.length_cons]; omega]
          rw [List.drop_left]
          rfl
    | none =>
      rcases ih with ⟨hfix, hnm⟩ | ⟨pre, b, q, r, hs, hpre, hsm, hout⟩
      · left
        constructor
        · unfold stripL
          rw [replaceScan_none stripMatcher hm]
          unfold stripL at hfix
          rw [hfix]
        · intro s1 s2 heq hne
          cases s1 with
          | nil =>
            have h2 : s2 = c :: rest := by simpa using heq.symm
            rw [h2]
            exact hm
          | cons c1 s1x =>
            injection heq with h1 h2
            exact hnm s1x s2 h2 hne
      · right
        refine ⟨c :: pre, b, q, r, by rw [hs]; rfl, ?_, hsm, ?_⟩
        · intro p1 p2 heq hne
          cases p1 with
          | nil =>
            have hp2 : p2 = c :: pre := by simpa using heq.symm
            rw [hp2, show (c :: pre) ++ ((b ++ '?' :: q) ++ r) = c :: rest from by
              rw [hs]; rfl]
            exact hm
          | cons c1 p1x =>
            injection heq with h1 h2
            exact hpre p1x p2 h2 hne
        · unfold stripL
          rw [replaceScan_none stripMatcher hm]
          unfold stripL at hout
          rw [hout]
          rfl

theorem stripMatcher_none_inv {s : List Char} (h : stripMatcher s = none) :
    sigMatch s = none := by
  cases hsm : sigMatch s with
  | none => rfl
  | some v =>
    exfalso
    obtain ⟨v1, v2, v3⟩ := v
    unfold stripMatcher at h
    rw [hsm] at h
    simp at h

theorem replaceScan_some_of_ne (m : List Char → Option (List Char × Nat))
    {s rep : List Char} {k : Nat} (hne : s ≠ []) (hm : m s = some (rep, k)) :
    replaceScan m s = rep ++ replaceScan m (s.drop (max k 1)) := by
  cases s with
  | nil => exact absurd rfl hne
  | cons c rest => exact replaceScan_some m hm

theorem stripL_some {s rep : List Char} {k : Nat} (hne : s ≠ [])
    (hm : stripMatcher s = some (rep, k)) :
    stripL s = rep ++ stripL (s.drop (max k 1)) :=
  replaceScan_some_of_ne stripMatcher hne hm

theorem stripL_append (a b : List Char)
    (h : ∀ a1 a2, a = a1 ++ a2 → a2 ≠ [] → stripMatcher (a2 ++ b) = none) :
    stripL (a ++ b) = a ++ stripL b :=
  replaceScan_append stripMatcher a b h

theorem stripL_idem_aux : ∀ n : Nat, ∀ s : List Char, s.length ≤ n →
    stripL (stripL s) = stripL s := by
  intro n
  induction n with
  | zero =>
    intro s hs
    have h0 : s = [] := List.length_eq_zero.mp (Nat.le_zero.mp hs)
    subst h0
    rfl
  | succ n ih =>
    intro s hs
    rcases stripL_decomp s with ⟨hfix, _⟩ | ⟨pre, b, q, r, hsplit, hpre, hsm, hout⟩
    · rw [hfix, hfix]
    · obtain ⟨_, ⟨t2, hbt⟩, hbstop, hqfree, hrT⟩ := sigMatch_decomp hsm
      have hlenr : r.length ≤ n := by
        have hl := congrArg List.length hsplit
        simp [List.length_append] at hl
        omega
      have hTrN : stripL r = [] ∨ ∃ d w, stripL r = d :: w ∧ stopNQ d = true := by
        rcases hrT with hre | ⟨d, r2, hdr, hd⟩
        · left; rw [hre]; rfl
        · right
          have hdh : d ≠ 'h' := by
            rcases stopNQ_cases hd with h1|h1|h1|h1|h1|h1|h1|h1|h1 <;>
              (subst h1; decide)
          refine ⟨d, stripL r2, ?_, hd⟩
          rw [hdr]
          unfold stripL
          rw [replaceScan_none stripMatcher
            (stripMatcher_none (sigMatch_none_of_head hdh r2))]
      have hTrQ : stripL r = [] ∨ ∃ d w, stripL r = d :: w ∧ stopQ d = true := by
        rcases hTrN with h | ⟨d, w, h1, h2⟩
        · exact Or.inl h
        · exact Or.inr ⟨d, w, h1, stopNQ_stopQ h2⟩
      have hIHr : stripL (stripL r) = stripL r := ih r hlenr
      have hpre2 : ∀ (T : List Char), (T = [] ∨ ∃ d w, T = d :: w ∧ stopQ d = true) →
          ∀ p1 p2, pre = p1 ++ p2 → p2 ≠ [] →
            stripMatcher (p2 ++ (b ++ T)) = none := by
        intro T hT p1 p2 heq hne
        apply stripMatcher_none
        have holdm := stripMatcher_none_inv (hpre p1 p2 heq hne)
        rw [show p2 ++ ((b ++ '?' :: q) ++ r) = (p2 ++ b) ++ '?' :: (q ++ r) from by
          simp [List.append_assoc]] at holdm
        have hnew := sigMatch_delim_none holdm T hT
        rw [show (p2 ++ b) ++ T = p2 ++ (b ++ T) from by
          simp [List.append_assoc]] at hnew
        exact hnew
      have hRshape : stripRepl b q = b ∨
          ∃ rq, rq ≠ [] ∧ (∀ d ∈ rq, stopNQ d = false) ∧
            stripRepl b q = b ++ '?' :: rq ∧ stripRepl b rq = b ++ '?' :: rq := by
        cases hpu : parseURL (b ++ '?' :: q) with
        | none => exact Or.inl (stripRepl_eq_of_none hpu)
        | some u =>
          by_cases hrq : serializeForm (deleteSigParams u.params) = []
          · exact Or.inl (stripRepl_eq_of_empty hpu hrq)
          · right
            have hq2 : '?' ∉ t2 := by
              intro hmem
              have hmb : '?' ∈ b := by rw [hbt]; simp [hmem]
              have := hbstop '?' hmb
              simp [stopQ] at this
            have hpu2 : parseURL (httpsLit ++ (t2 ++ '?' :: q)) = some u := by
              rw [← List.append_assoc, ← hbt]
              exact hpu
            have hst := stripRepl_stable hq2 hpu2 hrq
            rw [← hbt] at hst
            exact ⟨serializeForm (deleteSigParams u.params), hrq,
              fun d hd => (serializeForm_ok _ d hd).1,
              stripRepl_eq_of_some hpu hrq, hst⟩
      rw [hout]
      rcases hRshape with hRb | ⟨rq, hrqne, hrqfree, hRq, hRst⟩
      · rw [hRb]
        have hsuf : ∀ a1 a2, pre ++ b = a1 ++ a2 → a2 ≠ [] →
            stripMatcher (a2 ++ stripL r) = none := by
          intro a1 a2 heq hne
          rcases List.append_eq_append_iff.mp heq with ⟨w, ha1, hbw⟩ | ⟨w, hprew, ha2⟩
          · exact stripMatcher_none (sigMatch_none_interior hbstop hTrN a2 ⟨w, hbw⟩)
          · cases w with
            | nil =>
              simp only [List.nil_append] at ha2
              rw [ha2]
              exact stripMatcher_none
                (sigMatch_none_interior hbstop hTrN b ⟨[], by simp⟩)
            | cons c1 wx =>
              have h2 := hpre2 (stripL r) hTrQ a1 (c1 :: wx) hprew (by simp)
              rw [ha2, show (c1 :: wx ++ b) ++ stripL r =
                (c1 :: wx) ++ (b ++ stripL r) from by simp [List.append_assoc]]
              exact h2
        have happ : stripL ((pre ++ b) ++ stripL r) =
            (pre ++ b) ++ stripL (stripL r) :=
          stripL_append (pre ++ b) (stripL r) hsuf
        rw [happ, hIHr]
      · rw [hRq]
        have hsuf : ∀ a1 a2, pre = a1 ++ a2 → a2 ≠ [] →
            stripMatcher (a2 ++ ((b ++ '?' :: rq) ++ stripL r)) = none := by
          intro a1 a2 heq hne
          have h2 := hpre2 ('?' :: (rq ++ stripL r))
            (Or.inr ⟨'?', rq ++ stripL r, rfl, by decide⟩) a1 a2 heq hne
          rw [show a2 ++ (b ++ '?' :: (rq ++ stripL r)) =
            a2 ++ ((b ++ '?' :: rq) ++ stripL r) from by
            simp [List.append_assoc]] at h2
          exact h2
        have hsig2 : sigMatch ((b ++ '?' :: rq) ++ stripL r) =
            some (b, rq, stripL r) := by
          rw [show (b ++ '?' :: rq) ++ stripL r = b ++ '?' :: (rq ++ stripL r) from by
            simp [List.append_assoc]]
          rw [sigMatch_rematch hsm (rq ++ stripL r)]
          have hfree2 : ∀ c ∈ rq, (!stopNQ c) = true := fun c hc => by
            simp [hrqfree c hc]
          have ht : (rq ++ stripL r).takeWhile (fun c => !stopNQ c) = rq := by
            rw [takeWhile_all hfree2 (stripL r)]
            rcases hTrN with he | ⟨d, w, hdw, hd⟩
            · rw [he]; simp
            · rw [hdw]
              simp [List.takeWhile_cons, hd]
          have hdp : (rq ++ stripL r).dropWhile (fun c => !stopNQ c) = stripL r := by
            rw [dropWhile_all hfree2 (stripL r)]
            rcases hTrN with he | ⟨d, w, hdw, hd⟩
            · rw [he]
              rfl
            · rw [hdw]
              simp [List.dropWhile_cons, hd]
          rw [ht, hdp]
        have hmm2 : stripMatcher ((b ++ '?' :: rq) ++ stripL r) =
            some (b ++ '?' :: rq, b.length + 1 + rq.length) := by
          unfold stripMatcher
          simp only [hsig2]
          rw [hRst]
        have hblock : stripL ((b ++ '?' :: rq) ++ stripL r) =
            (b ++ '?' :: rq) ++ stripL (stripL r) := by
          rw [stripL_some (by simp) hmm2]
          congr 1
          rw [Nat.max_eq_left (by omega),
            show b.length + 1 + rq.length = (b ++ '?' :: rq).length from by
              rw [List.length_append, List.length_cons]; omega,
            List.drop_left]
        calc stripL ((pre ++ (b ++ '?' :: rq)) ++ stripL r)
            = stripL (pre ++ ((b ++ '?' :: rq) ++ stripL r)) :=
              congrArg stripL (List.append_assoc pre (b ++ '?' :: rq) (stripL r))
          _ = pre ++ stripL ((b ++ '?' :: rq) ++ stripL r) :=
              stripL_append pre ((b ++ '?' :: rq) ++ stripL r) hsuf
          _ = pre ++ ((b ++ '?' :: rq) ++ stripL (stripL r)) := by rw [hblock]
          _ = pre ++ ((b ++ '?' :: rq) ++ stripL r) := by rw [hIHr]
          _ = (pre ++ (b ++ '?' :: rq)) ++ stripL r :=
              (List.append_assoc pre (b ++ '?' :: rq) (stripL r)).symm

/-- C2: signature stripping is idempotent — for every string `h`,
`stripImageSignatures (stripImageSignatures h) = stripImageSignatures h`. -/
theorem claim_C2_strip_idempotent (h : String) :
    stripImageSignatures (stripImageSignatures h) = stripImageSignatures h := by
  unfold stripImageSignatures
  rw [show lc (sOf (stripL (lc h))) = stripL (lc h) from rfl,
    stripL_idem_aux (lc h).length (lc h) (Nat.le_refl _)]

/-! ## C8: occurrences whose URL fails to parse -/

theorem buildMapGoF_nil : ∀ (f : Nat) (acc : List (List Char × List Char)),
    buildMapGoF f [] acc = acc := by
  intro f acc
  cases f <;> rfl

/-- C8 (amended): for a matched occurrence whose URL fails platform parsing
(here: port above 65535), `stripImageSignatures` truncates it to the base —
dropping the query — rather than leaving it unchanged, while
`restoreImageSignatures` leaves it unchanged and builds no index entry
from it. -/
theorem claim_C8_amended (q : List Char) (hq : ∀ c ∈ q, stopNQ c = false) :
    parseURL (lc "https://downloads.intercomcdn.com:99999/img.png" ++ '?' :: q) =
      none ∧
    stripL (lc "https://downloads.intercomcdn.com:99999/img.png" ++ '?' :: q) =
      lc "https://downloads.intercomcdn.com:99999/img.png" ∧
    (∀ orig,
      restoreL (lc "https://downloads.intercomcdn.com:99999/img.png" ++ '?' :: q)
        orig =
      lc "https://downloads.intercomcdn.com:99999/img.png" ++ '?' :: q) ∧
    buildMap (lc "https://downloads.intercomcdn.com:99999/img.png" ++ '?' :: q) =
      [] := by
  have htake : q.takeWhile (fun c => !stopNQ c) = q :=
    List.takeWhile_eq_self_iff.mpr (fun x hx => by simp [hq x hx])
  have hdrop : q.dropWhile (fun c => !stopNQ c) = [] :=
    List.dropWhile_eq_nil_iff.mpr (fun x hx => by simp [hq x hx])
  have hparse : parseURL
      (lc "https://downloads.intercomcdn.com:99999/img.png" ++ '?' :: q) = none := rfl
  have hsm : sigMatch
      (lc "https://downloads.intercomcdn.com:99999/img.png" ++ '?' :: q) =
      some (lc "https://downloads.intercomcdn.com:99999/img.png", q, []) := by
    have h0 : sigMatch
        (lc "https://downloads.intercomcdn.com:99999/img.png" ++ '?' :: q) =
        some (lc "https://downloads.intercomcdn.com:99999/img.png",
          q.takeWhile (fun c => !stopNQ c), q.dropWhile (fun c => !stopNQ c)) := rfl
    rw [htake, hdrop] at h0
    exact h0
  have hlen : (lc "https://downloads.intercomcdn.com:99999/img.png").length + 1 +
      q.length =
      (lc "https://downloads.intercomcdn.com:99999/img.png" ++ '?' :: q).length := by
    rw [List.length_append, List.length_cons]
    omega
  refine ⟨hparse, ?_, ?_, ?_⟩
  · have hrepl : stripRepl (lc "https://downloads.intercomcdn.com:99999/img.png") q =
        lc "https://downloads.intercomcdn.com:99999/img.png" :=
      stripRepl_eq_of_none hparse
    have hmm : stripMatcher
        (lc "https://downloads.intercomcdn.com:99999/img.png" ++ '?' :: q) =
        some (lc "https://downloads.intercomcdn.com:99999/img.png",
          (lc "https://downloads.intercomcdn.com:99999/img.png").length + 1 +
            q.length) := by
      unfold stripMatcher
      simp only [hsm]
      rw [hrepl]
    rw [stripL_some (by simp) hmm, Nat.max_eq_left (by omega), hlen,
      List.drop_length]
    rfl
  · intro orig
    have hrm : restMatcher (buildMap orig)
        (lc "https://downloads.intercomcdn.com:99999/img.png" ++ '?' :: q) =
        some (lc "https://downloads.intercomcdn.com:99999/img.png" ++
            '?' :: q.takeWhile (fun c => !stopNQ c),
          (lc "https://downloads.intercomcdn.com:99999/img.png" ++
            '?' :: q.takeWhile (fun c => !stopNQ c)).length) := rfl
    rw [htake] at hrm
    unfold restoreL
    rw [replaceScan_some_of_ne _ (by simp) hrm,
      Nat.max_eq_left (by simp; omega), List.drop_length, replaceScan_nil,
      List.append_nil]
  · unfold buildMap
    rw [show lc "https://downloads.intercomcdn.com:99999/img.png" ++ '?' :: q =
      'h' :: (lc "ttps://downloads.intercomcdn.com:99999/img.png" ++ '?' :: q)
      from rfl]
    rw [List.length_cons]
    simp only [buildMapGoF]
    have hsm2 : sigMatch
        ('h' :: (lc "ttps://downloads.intercomcdn.com:99999/img.png" ++ '?' :: q)) =
        some (lc "https://downloads.intercomcdn.com:99999/img.png", q, []) := hsm
    simp only [hsm2, hparse]
    rw [Nat.max_eq_left (by omega)]
    rw [show (lc "https://downloads.intercomcdn.com:99999/img.png").length + 1 +
        q.length =
      ('h' :: (lc "ttps://downloads.intercomcdn.com:99999/img.png" ++ '?' :: q)).length
      from hlen]
    rw [List.drop_length, buildMapGoF_nil]

theorem claim_C8_amended_witness :
    (∀ c ∈ lc "expires=1700000000&signature=abc12", stopNQ c = false) ∧
    stripL (lc "https://downloads.intercomcdn.com:99999/img.png" ++
        '?' :: lc "expires=1700000000&signature=abc12") =
      lc "https://downloads.intercomcdn.com:99999/img.png" :=
  ⟨by decide,
    (claim_C8_amended (lc "expires=1700000000&signature=abc12") (by decide)).2.1⟩

/-! ## Trigger characters of the decoder matchers -/

theorem needs_of_dropLitCI {pat : List Char} {p : Char} {pt : List Char}
    (hpat : pat = p :: pt) (hp : p.toNat < 97 ∨ 122 < p.toNat)
    (hfix : p.toLower = p) {c : Char} {r s1 : List Char}
    (h : dropLitCI pat (c :: r) = some s1) : c = p := by
  rw [hpat] at h
  obtain ⟨cs, hcons⟩ := headCI_symbol hp hfix h
  exact congrArg (fun l => List.headD l ' ') hcons

theorem matcher_none_of_head {α : Type} {m : List Char → Option α} {t : Char}
    (hneed : ∀ c r x, m (c :: r) = some x → c = t) {d : Char} (hd : d ≠ t)
    (r : List Char) : m (d :: r) = none := by
  cases h : m (d :: r) with
  | none => rfl
  | some x => exact absurd (hneed d r x h) hd

theorem tableMD_needs : ∀ c r x, tableMD (c :: r) = some x → c = '<' := by
  intro c r x h
  unfold tableMD at h
  cases hd : dropLitCI (lc "<div") (c :: r) with
  | none => simp [hd] at h
  | some s1 => exact needs_of_dropLitCI rfl (by decide) (by decide) hd

theorem calloutMD_needs : ∀ c r x, calloutMD (c :: r) = some x → c = '<' := by
  intro c r x h
  unfold calloutMD at h
  cases hd : dropLitCI (lc "<div") (c :: r) with
  | none => simp [hd] at h
  | some s1 => exact needs_of_dropLitCI rfl (by decide) (by decide) hd

theorem codeBlockMD_needs : ∀ c r x, codeBlockMD (c :: r) = some x → c = '<' := by
  intro c r x h
  unfold codeBlockMD at h
  cases hd : dropLitCI (lc "<pre><code>") (c :: r) with
  | none => simp [hd] at h
  | some s1 => exact needs_of_dropLitCI rfl (by decide) (by decide) hd

theorem imgTagM_needs : ∀ c r x, imgTagM (c :: r) = some x → c = '<' := by
  intro c r x h
  unfold imgTagM at h
  cases hd : dropLitCI (lc "<img") (c :: r) with
  | none => simp [hd] at h
  | some s1 => exact needs_of_dropLitCI rfl (by decide) (by decide) hd

theorem alignedImageMD_needs : ∀ c r x, alignedImageMD (c :: r) = some x → c = '<' := by
  intro c r x h
  unfold alignedImageMD at h
  cases hd : dropLitCI (lc "<div") (c :: r) with
  | none => simp [hd] at h
  | some s1 => exact needs_of_dropLitCI rfl (by decide) (by decide) hd

theorem plainImageMD_needs : ∀ c r x, plainImageMD (c :: r) = some x → c = '<' := by
  intro c r x h
  unfold plainImageMD at h
  cases hd : dropLitCI (lc "<div") (c :: r) with
  | none => simp [hd] at h
  | some s1 => exact needs_of_dropLitCI rfl (by decide) (by decide) hd

theorem bareImageMD_needs : ∀ c r x, bareImageMD (c :: r) = some x → c = '<' := by
  intro c r x h
  unfold bareImageMD at h
  cases hd : imgTagM (c :: r) with
  | none => simp [hd] at h
  | some p => exact imgTagM_needs c r p hd

theorem hrMD_needs : ∀ c r x, hrMD (c :: r) = some x → c = '<' := by
  intro c r x h
  unfold hrMD at h
  cases hd : dropLitCI (lc "<hr") (c :: r) with
  | none => simp [hd] at h
  | some s1 => exact needs_of_dropLitCI rfl (by decide) (by decide) hd

theorem alignedHeadingMD_needs (lvl : Nat) :
    ∀ c r x, alignedHeadingMD lvl (c :: r) = some x → c = '<' := by
  intro c r x h
  unfold alignedHeadingMD at h
  cases hd : dropLitCI (lc "<h" ++ natDigits lvl) (c :: r) with
  | none => simp [hd] at h
  | some s1 =>
    exact needs_of_dropLitCI (show lc "<h" ++ natDigits lvl =
      '<' :: ('h' :: natDigits lvl) from rfl) (by decide) (by decide) hd

theorem plainHeadingMD_needs (lvl : Nat) :
    ∀ c r x, plainHeadingMD lvl (c :: r) = some x → c = '<' := by
  intro c r x h
  unfold plainHeadingMD at h
  cases hd : dropLitCI (lc "<h" ++ natDigits lvl) (c :: r) with
  | none => simp [hd] at h
  | some s1 =>
    exact needs_of_dropLitCI (show lc "<h" ++ natDigits lvl =
      '<' :: ('h' :: natDigits lvl) from rfl) (by decide) (by decide) hd

theorem liMD_needs : ∀ c r x, liMD (c :: r) = some x → c = '<' := by
  intro c r x h
  unfold liMD at h
  cases hd : dropLitCI (lc "<li") (c :: r) with
  | none => simp [hd] at h
  | some s1 => exact needs_of_dropLitCI rfl (by decide) (by decide) hd

theorem ulMD_needs : ∀ c r x, ulMD (c :: r) = some x → c = '<' := by
  intro c r x h
  unfold ulMD at h
  cases hd : dropLitCI (lc "<ul") (c :: r) with
  | none => simp [hd] at h
  | some s1 => exact needs_of_dropLitCI rfl (by decide) (by decide) hd

theorem olMD_needs : ∀ c r x, olMD (c :: r) = some x → c = '<' := by
  intro c r x h
  unfold olMD at h
  cases hd : dropLitCI (lc "<ol") (c :: r) with
  | none => simp [hd] at h
  | some s1 => exact needs_of_dropLitCI rfl (by decide) (by decide) hd

theorem linkMD_needs : ∀ c r x, linkMD (c :: r) = some x → c = '<' := by
  intro c r x h
  unfold linkMD at h
  cases hd : dropLitCI (lc "<a") (c :: r) with
  | none => simp [hd] at h
  | some s1 => exact needs_of_dropLitCI rfl (by decide) (by decide) hd

theorem pUnwrapM_needs (nl : Bool) : ∀ c r x, pUnwrapM nl (c :: r) = some x → c = '<' := by
  intro c r x h
  unfold pUnwrapM at h
  cases hd : dropLitCI (lc "<p") (c :: r) with
  | none => simp [hd] at h
  | some s1 => exact needs_of_dropLitCI rfl (by decide) (by decide) hd

theorem alignedParaMD_needs : ∀ c r x, alignedParaMD (c :: r) = some x → c = '<' := by
  intro c r x h
  unfold alignedParaMD at h
  cases hd : dropLitCI (lc "<p") (c :: r) with
  | none => simp [hd] at h
  | some s1 => exact needs_of_dropLitCI rfl (by decide) (by decide) hd

theorem noMarginParaMD_needs : ∀ c r x, noMarginParaMD (c :: r) = some x → c = '<' := by
  intro c r x h
  unfold noMarginParaMD at h
  cases hd : dropLitCI (lc "<p") (c :: r) with
  | none => simp [hd] at h
  | some s1 => exact needs_of_dropLitCI rfl (by decide) (by decide) hd

theorem plainParaMD_needs : ∀ c r x, plainParaMD (c :: r) = some x → c = '<' := by
  intro c r x h
  unfold plainParaMD at h
  cases hd : pUnwrapM false (c :: r) with
  | none => simp [hd] at h
  | some p => exact pUnwrapM_needs false c r p hd

theorem dropLitCI_lt_head {pt : List Char} {c : Char} {r s1 : List Char}
    (h : dropLitCI ('<' :: pt) (c :: r) = some s1) : c = '<' := by
  obtain ⟨cs, hcons⟩ := headCI_symbol (by decide) (by decide) h
  exact congrArg (fun l => List.headD l ' ') hcons

theorem pairTagM_needs (t1 t2 marker : List Char) :
    ∀ c r x, pairTagM t1 t2 marker (c :: r) = some x → c = '<' := by
  intro c r x h
  unfold pairTagM at h
  cases hd : dropLitCI (lc "<" ++ t1 ++ lc ">") (c :: r) with
  | none =>
    simp only [hd] at h
    cases hd2 : dropLitCI (lc "<" ++ t2 ++ lc ">") (c :: r) with
    | none =>
      simp only [hd2] at h
      exact Option.noConfusion h
    | some s1 =>
      exact dropLitCI_lt_head
        (show dropLitCI ('<' :: (t2 ++ lc ">")) (c :: r) = some s1 from hd2)
  | some s1 =>
    exact dropLitCI_lt_head
      (show dropLitCI ('<' :: (t1 ++ lc ">")) (c :: r) = some s1 from hd)

theorem codeTagM_needs : ∀ c r x, codeTagM (c :: r) = some x → c = '<' := by
  intro c r x h
  unfold codeTagM at h
  cases hd : dropLitCI (lc "<code>") (c :: r) with
  | none => simp [hd] at h
  | some s1 => exact needs_of_dropLitCI rfl (by decide) (by decide) hd

theorem stripTagM_needs : ∀ c r x, stripTagM (c :: r) = some x → c = '<' := by
  intro c r x h
  unfold stripTagM at h
  split at h
  · rename_i s1 heq
    exact congrArg (fun l => List.headD l ' ') heq
  · exact Option.noConfusion h

theorem entityM_needs : ∀ c r x, entityM (c :: r) = some x → c = '&' := by
  intro c r x h
  unfold entityM at h
  split at h
  · rename_i s1 heq
    exact congrArg (fun l => List.headD l ' ') heq
  · exact Option.noConfusion h

theorem brMD_needs : ∀ c r x, brMD (c :: r) = some x → c = '<' := by
  intro c r x h
  unfold brMD at h
  cases hd : dropLitCI (lc "<br") (c :: r) with
  | none => simp [hd] at h
  | some s1 => exact needs_of_dropLitCI rfl (by decide) (by decide) hd

theorem nlRunM_needs : ∀ c r x, nlRunM (c :: r) = some x → c = '\n' := by
  intro c r x h
  unfold nlRunM at h
  split at h
  · rename_i s1 heq
    exact congrArg (fun l => List.headD l ' ') heq
  · exact Option.noConfusion h

/-! ## Suffix analysis of zoned strings -/

theorem suffix_append {X Y s1 s2 : List Char} (h : X ++ Y = s1 ++ s2) :
    (∃ x1 x2, X = x1 ++ x2 ∧ x2 ≠ [] ∧ s2 = x2 ++ Y) ∨ (∃ y1, Y = y1 ++ s2) := by
  rcases List.append_eq_append_iff.mp h with ⟨w, hs1, hY⟩ | ⟨w, hX, hs2⟩
  · exact Or.inr ⟨w, hY⟩
  · cases w with
    | nil =>
      right
      refine ⟨[], ?_⟩
      simp only [List.nil_append] at hs2 ⊢
      exact hs2.symm
    | cons d wx =>
      left
      exact ⟨s1, d :: wx, hX, by simp, hs2⟩

theorem tails_of_split {X x1 x2 : List Char} (h : X = x1 ++ x2) : x2 ∈ X.tails :=
  (List.mem_tails _ _).mpr ⟨x1, h.symm⟩

theorem replaceScan_id_zones (m : List Char → Option (List Char × Nat))
    {A C B P E : List Char}
    (hA : ∀ a2 ∈ A.tails, a2 ≠ [] → m (a2 ++ (C ++ (B ++ (P ++ E)))) = none)
    (hC : ∀ c2, (∃ c1, C = c1 ++ c2) → c2 ≠ [] → m (c2 ++ (B ++ (P ++ E))) = none)
    (hB : ∀ b2 ∈ B.tails, b2 ≠ [] → m (b2 ++ (P ++ E)) = none)
    (hP : ∀ p2, (∃ p1, P = p1 ++ p2) → p2 ≠ [] → m (p2 ++ E) = none)
    (hE : ∀ e2 ∈ E.tails, e2 ≠ [] → m e2 = none) :
    replaceScan m (A ++ (C ++ (B ++ (P ++ E)))) = A ++ (C ++ (B ++ (P ++ E))) := by
  apply replaceScan_id
  intro s1 s2 heq hne
  rcases suffix_append heq with ⟨x1, x2, hX, hxne, hs2⟩ | ⟨y1, hY⟩
  · rw [hs2]
    exact hA x2 (tails_of_split hX) hxne
  · rcases suffix_append hY with ⟨c1, c2, hCs, hcne, hs2⟩ | ⟨y2, hY2⟩
    · rw [hs2]
      exact hC c2 ⟨c1, hCs⟩ hcne
    · rcases suffix_append hY2 with ⟨b1, b2, hBs, hbne, hs2⟩ | ⟨y3, hY3⟩
      · rw [hs2]
        exact hB b2 (tails_of_split hBs) hbne
      · rcases suffix_append hY3 with ⟨p1, p2, hPs, hpne, hs2⟩ | ⟨y4, hY4⟩
        · rw [hs2]
          exact hP p2 ⟨p1, hPs⟩ hpne
        · exact hE s2 (tails_of_split hY4) hne

/-! ## C5: the unknown-color callout container -/

theorem drop_takeWhile_len (q : Char → Bool) (s : List Char) :
    s.drop (s.takeWhile q).length = s.dropWhile q := by
  induction s with
  | nil => rfl
  | cons c r ih =>
    simp only [List.takeWhile_cons, List.dropWhile_cons]
    cases hq : q c
    · simp
    · simpa using ih

theorem dropLitCI_app : ∀ (p r : List Char), dropLitCI p (p ++ r) = some r := by
  intro p
  induction p with
  | nil => intro r; simp [dropLitCI]
  | cons c ps ih =>
    intro r
    simp only [List.cons_append, dropLitCI, if_pos rfl]
    exact ih r

theorem findLitCI_append_skip {p0 : Char} {pt : List Char} {P : List Char}
    (hP : ∀ c ∈ P, c.toLower ≠ p0.toLower) (R : List Char) :
    findLitCI (p0 :: pt) (P ++ R) =
      (findLitCI (p0 :: pt) R).map (fun ab => (P ++ ab.1, ab.2)) := by
  induction P with
  | nil =>
    simp only [List.nil_append]
    cases h : findLitCI (p0 :: pt) R with
    | none => rfl
    | some ab => simp
  | cons c P2 ih =>
    have hd : dropLitCI (p0 :: pt) (c :: (P2 ++ R)) = none := by
      simp only [dropLitCI]
      rw [if_neg (hP c (by simp))]
    rw [List.cons_append]
    show (match dropLitCI (p0 :: pt) (c :: (P2 ++ R)) with
      | some r => some ([], r)
      | none => match findLitCI (p0 :: pt) (P2 ++ R) with
        | some (a, b) => some (c :: a, b)
        | none => none) = _
    rw [hd, ih (fun d hdm => hP d (by simp [hdm]))]
    cases h : findLitCI (p0 :: pt) R with
    | none => rfl
    | some ab => simp

theorem jsWs_cases {c : Char} (h : jsWs c = true) :
    c = ' ' ∨ c = '\t' ∨ c = '\n' ∨ c = '\r' ∨ c = '\x0b' ∨ c = '\x0c' ∨
    c = ' ' := by
  simp only [jsWs, Bool.or_eq_true, decide_eq_true_eq] at h
  tauto

theorem colorC_not_ws {c : Char} (h : colorC c = true) : jsWs c = false := by
  cases hs : jsWs c with
  | false => rfl
  | true =>
    exfalso
    rcases jsWs_cases hs with h1|h1|h1|h1|h1|h1|h1 <;> (subst h1; revert h; decide)

theorem colorC_ne {c : Char} (h : colorC c = true) {x : Char}
    (hx : colorC x = false) : c ≠ x := by
  intro he
  subst he
  rw [h] at hx
  cases hx

theorem plainC_ne {c : Char} (h : plainC c = true) {x : Char}
    (hx : plainC x = false) : c ≠ x := by
  intro he
  subst he
  rw [h] at hx
  cases hx

theorem plainC_toLower_ne {c x : Char} (h : plainC c = true)
    (hlt : x.toNat < 97 ∨ 122 < x.toNat) (hfix : x.toLower = x)
    (hx : plainC x = false) : c.toLower ≠ x.toLower := by
  rw [hfix]
  intro he
  have hc := toLower_symbol hlt he
  subst hc
  rw [h] at hx
  cases hx

theorem calloutMD_eval {C P : List Char} (hCne : C ≠ [])
    (hCall : ∀ c ∈ C, colorC c = true) (hPall : ∀ c ∈ P, plainC c = true) :
    calloutMD (calloutA ++ (C ++ (calloutB ++ (P ++ calloutE)))) =
      some (lc "\n\n" ++ fenceL ++ lc "callout-" ++
          ((alGet calloutColors (jsTrim C)).getD (lc "gray")) ++ lc "\n" ++
          jsTrim (convertInlineFormattingL (replaceScan (pUnwrapM true) P)) ++
          lc "\n" ++ fenceL ++ lc "\n\n",
        (calloutA ++ (C ++ (calloutB ++ (P ++ calloutE)))).length) := by
  obtain ⟨c0, C0, hC0⟩ : ∃ c0 C0, C = c0 :: C0 := by
    cases hc : C with
    | nil => exact absurd hc hCne
    | cons a b => exact ⟨a, b, rfl⟩
  have hE7 : (C ++ (calloutB ++ (P ++ calloutE))).dropWhile jsWs =
      C ++ (calloutB ++ (P ++ calloutE)) := by
    apply dropWhile_eq_self_of_head
    intro x hx
    rw [hC0] at hx
    simp only [List.cons_append, List.head?_cons, Option.some.injEq] at hx
    subst hx
    exact colorC_not_ws (hCall c0 (by rw [hC0]; simp))
  have hE8 : (C ++ (calloutB ++ (P ++ calloutE))).takeWhile (· ≠ ';') = C := by
    rw [show calloutB ++ (P ++ calloutE) =
      ';' :: (lc "\">" ++ (P ++ calloutE)) from rfl]
    rw [takeWhile_app_stop (by decide)]
    rw [List.takeWhile_eq_self_iff.mpr]
    intro a ha
    simpa using colorC_ne (hCall a ha) (show colorC ';' = false by decide)
  have hemp : C.isEmpty = false := by rw [hC0]; rfl
  have hE9 : (C ++ (calloutB ++ (P ++ calloutE))).dropWhile (· ≠ ';') =
      ';' :: ('"' :: ('>' :: (P ++ calloutE))) := by
    rw [dropWhile_all (fun c hc => by
      simpa using colorC_ne (hCall c hc) (show colorC ';' = false by decide))]
    rfl
  have hE12 : findLitCI (lc "</div>") (P ++ calloutE) = some (P, []) := by
    rw [show lc "</div>" = '<' :: lc "/div>" from rfl]
    rw [findLitCI_append_skip (fun c hc => plainC_toLower_ne (hPall c hc)
      (by decide) (by decide) (by decide))]
    rw [show findLitCI ('<' :: lc "/div>") calloutE = some ([], []) from rfl]
    simp
  simp only [calloutMD]
  rw [show dropLitCI (lc "<div") (calloutA ++ (C ++ (calloutB ++ (P ++ calloutE)))) =
    some (' ' :: (lc "class=\"intercom-interblocks-callout\" style=\"background-color: "
      ++ (C ++ (calloutB ++ (P ++ calloutE))))) from rfl]
  simp only []
  rw [if_neg (by decide)]
  rw [show (lc "class=\"intercom-interblocks-callout\" style=\"background-color: "
      ++ (C ++ (calloutB ++ (P ++ calloutE)))).dropWhile jsWs =
    lc "class=\"intercom-interblocks-callout\" style=\"background-color: "
      ++ (C ++ (calloutB ++ (P ++ calloutE))) from rfl]
  rw [show dropLitCI (lc "class=\"intercom-interblocks-callout\"")
      (lc "class=\"intercom-interblocks-callout\" style=\"background-color: "
        ++ (C ++ (calloutB ++ (P ++ calloutE)))) =
    some (lc " style=\"background-color: " ++ (C ++ (calloutB ++ (P ++ calloutE))))
      from rfl]
  simp only [drop_takeWhile_len, List.takeWhile_append_dropWhile]
  rw [show findLitBeforeQuote (lc "style=\"")
      (lc " style=\"background-color: " ++ (C ++ (calloutB ++ (P ++ calloutE)))) =
    some ([' '], lc "background-color: " ++ (C ++ (calloutB ++ (P ++ calloutE))))
      from rfl]
  simp only []
  rw [show findLitBeforeQuote (lc "background-color:")
      (lc "background-color: " ++ (C ++ (calloutB ++ (P ++ calloutE)))) =
    some ([], lc " " ++ (C ++ (calloutB ++ (P ++ calloutE)))) from rfl]
  simp only []
  rw [show (lc " " ++ (C ++ (calloutB ++ (P ++ calloutE)))).dropWhile jsWs =
    (C ++ (calloutB ++ (P ++ calloutE))).dropWhile jsWs from rfl]
  rw [hE7, hE8, hemp]
  simp only [Bool.false_eq_true, if_false]
  rw [hE9]
  simp only []
  rw [show ('"' :: ('>' :: (P ++ calloutE))).dropWhile (· ≠ '"') =
    '"' :: ('>' :: (P ++ calloutE)) from rfl]
  simp only []
  rw [show tagTail ('>' :: (P ++ calloutE)) = some (P ++ calloutE) from rfl]
  simp only []
  rw [hE12]
  simp only [List.length_nil, Nat.sub_zero]

theorem nlRunM_one {d : Char} (hd : d ≠ '\n') (w : List Char) :
    nlRunM ('\n' :: d :: w) = none := by
  unfold nlRunM
  simp [List.takeWhile_cons, hd]

theorem replaceScan_all (m : List Char → Option (List Char × Nat))
    {s rep : List Char} (hne : s ≠ []) (hm : m s = some (rep, s.length)) :
    replaceScan m s = rep := by
  cases s with
  | nil => exact absurd rfl hne
  | cons c rest =>
    rw [replaceScan_some m hm]
    rw [Nat.max_eq_left (by simp)]
    rw [List.drop_length, replaceScan_nil, List.append_nil]

theorem map_jsTrimEnd_id : ∀ (ls : List (List Char)),
    (∀ l ∈ ls, jsTrimEnd l = l) → ls.map jsTrimEnd = ls := by
  intro ls h
  induction ls with
  | nil => rfl
  | cons a as ih =>
    simp only [List.map_cons, h a (by simp),
      ih (fun l hl => h l (by simp [hl]))]

theorem jsTrim_wrap {core : List Char} (hne : core ≠ [])
    (hh : ∀ x, core.head? = some x → jsWs x = false)
    (hl : jsTrimEnd core = core) :
    jsTrim (lc "\n\n" ++ (core ++ lc "\n\n")) = core := by
  obtain ⟨c, t, hc⟩ : ∃ c t, core = c :: t := by
    cases h : core with
    | nil => exact absurd h hne
    | cons a b => exact ⟨a, b, rfl⟩
  subst hc
  show jsTrimEnd ((lc "\n\n" ++ ((c :: t) ++ lc "\n\n")).dropWhile jsWs) = c :: t
  rw [dropWhile_all (by decide)]
  rw [show ((c :: t) ++ lc "\n\n").dropWhile jsWs = (c :: t) ++ lc "\n\n" from by
    simp [List.dropWhile_cons, hh c rfl]]
  rw [show (c :: t) ++ lc "\n\n" = ((c :: t) ++ ['\n']) ++ ['\n'] from by
    simp; rfl]
  rw [jsTrimEnd_append_ws (by decide), jsTrimEnd_append_ws (by decide)]
  exact hl

theorem cleanup_id {s : List Char} (h1 : replaceScan nlRunM s = s)
    (h2 : noTrailWS s) : cleanupWhitespaceL s = s := by
  unfold cleanupWhitespaceL
  rw [h1, map_jsTrimEnd_id _ h2]
  exact joinC_splitOnC '\n' s

theorem calloutDecode {C P : List Char} (hCne : C ≠ [])
    (hCall : ∀ c ∈ C, colorC c = true) (hCk : alGet calloutColors C = none)
    (hP : plainTextB P = true) :
    htmlToMarkdownL (calloutA ++ (C ++ (calloutB ++ (P ++ calloutE)))) =
      lc "```callout-gray\n" ++ (P ++ lc "\n```") := by
  simp only [plainTextB, Bool.and_eq_true, Bool.not_eq_true',
    List.all_eq_true] at hP
  obtain ⟨⟨⟨hPe, hPall⟩, hPh⟩, hPl⟩ := hP
  obtain ⟨p0, P0, rfl⟩ : ∃ p0 P0, P = p0 :: P0 := by
    cases h : P with
    | nil => rw [h] at hPe; cases hPe
    | cons a b => exact ⟨a, b, rfl⟩
  set P := p0 :: P0 with hPdef
  have hp0 : p0 ≠ '\n' := plainC_ne (hPall p0 (by rw [hPdef]; simp)) (by decide)
  have hPnl : ∀ c ∈ P, c ≠ '\n' := fun c hc => plainC_ne (hPall c hc) (by decide)
  have hPhead : ∀ x, P.head? = some x → jsWs x = false := by
    intro x hx
    rw [hPdef, List.head?_cons, Option.some.injEq] at hx
    subst hx
    simpa [hPdef] using hPh
  have hPtrim : jsTrimEnd P = P := by
    apply jsTrimEnd_fixed_iff.mpr
    intro x hx
    have : P.getLastD 'x' = x := by rw [List.getLastD_eq_getLast?, hx]; rfl
    rw [← this]
    exact hPl
  have hCh : ∀ x, C.head? = some x → jsWs x = false := by
    intro x hx
    exact colorC_not_ws (hCall x (List.mem_of_mem_head? hx))
  have hCl : jsTrimEnd C = C := by
    apply jsTrimEnd_fixed_iff.mpr
    intro x hx
    exact colorC_not_ws (hCall x (List.mem_of_getLast?_eq_some hx))
  have hjC : jsTrim C = C := by
    show jsTrimEnd (C.dropWhile jsWs) = C
    rw [dropWhile_eq_self_of_head hCh]
    exact hCl
  -- the input contains no question mark: the strip pass is the identity
  have hnoq : ∀ c ∈ calloutA ++ (C ++ (calloutB ++ (P ++ calloutE))), c ≠ '?' := by
    intro c hc
    simp only [List.mem_append] at hc
    rcases hc with hc | hc | hc | hc | hc
    · exact (show ∀ c ∈ calloutA, c ≠ '?' by decide) c hc
    · exact colorC_ne (hCall c hc) (by decide)
    · exact (show ∀ c ∈ calloutB, c ≠ '?' by decide) c hc
    · exact plainC_ne (hPall c hc) (by decide)
    · exact (show ∀ c ∈ calloutE, c ≠ '?' by decide) c hc
  have hstrip : stripL (calloutA ++ (C ++ (calloutB ++ (P ++ calloutE)))) =
      calloutA ++ (C ++ (calloutB ++ (P ++ calloutE))) :=
    stripL_id_of_no_qmark hnoq
  -- the table pass does not fire anywhere
  have htab : convertTablesL (calloutA ++ (C ++ (calloutB ++ (P ++ calloutE)))) =
      calloutA ++ (C ++ (calloutB ++ (P ++ calloutE))) := by
    unfold convertTablesL
    apply replaceScan_id_zones tableMD
    · intro a2 ha2 hne
      fin_cases ha2 <;> first | exact absurd rfl hne | rfl
    · intro c2 hex hne
      obtain ⟨c1, hCs⟩ := hex
      cases c2 with
      | nil => exact absurd rfl hne
      | cons d w =>
        exact matcher_none_of_head tableMD_needs
          (colorC_ne (hCall d (by rw [hCs]; simp)) (by decide)) _
    · intro b2 hb2 hne
      fin_cases hb2 <;> first | exact absurd rfl hne | rfl
    · intro p2 hex hne
      obtain ⟨p1, hPs⟩ := hex
      cases p2 with
      | nil => exact absurd rfl hne
      | cons d w =>
        exact matcher_none_of_head tableMD_needs
          (plainC_ne (hPall d (by rw [hPs]; simp)) (by decide)) _
    · intro e2 he2 hne
      fin_cases he2 <;> first | exact absurd rfl hne | rfl
  -- the callout pass fires once, on the whole input
  have hpid : ∀ (m : List Char → Option (List Char × Nat)),
      (∀ c r x, m (c :: r) = some x → c = '<') → replaceScan m P = P := by
    intro m hm
    apply replaceScan_id_of_char m (fun c => c == '<')
    · intro c r x h
      simp [hm c r x h]
    · intro c hc
      simp only [beq_eq_false_iff_ne, ne_eq]
      exact plainC_ne (hPall c hc) (by decide)
  have hinner : jsTrim (convertInlineFormattingL (replaceScan (pUnwrapM true) P)) =
      P := by
    rw [hpid _ (pUnwrapM_needs true)]
    unfold convertInlineFormattingL
    rw [hpid _ (pairTagM_needs _ _ _), hpid _ (pairTagM_needs _ _ _),
      hpid _ codeTagM_needs]
    show jsTrimEnd (P.dropWhile jsWs) = P
    rw [dropWhile_eq_self_of_head hPhead]
    exact hPtrim
  have hr3 : convertCalloutsL (calloutA ++ (C ++ (calloutB ++ (P ++ calloutE)))) =
      lc "\n\n```callout-gray\n" ++ (P ++ lc "\n```\n\n") := by
    have hm := calloutMD_eval hCne hCall hPall
    rw [hjC, hCk, hinner] at hm
    unfold convertCalloutsL
    rw [replaceScan_all calloutMD (by
      intro h
      exact List.noConfusion (show ([] : List Char) = '<' :: _ from h.symm.trans rfl)) hm]
    simp only [Option.getD_none, List.append_assoc]
    rfl
  -- the later passes leave the produced Markdown unchanged
  have hRtrig : ∀ c ∈ lc "\n\n```callout-gray\n" ++ (P ++ lc "\n```\n\n"),
      (c == '<') = false := by
    intro c hc
    simp only [List.mem_append] at hc
    rcases hc with hc | hc | hc
    · exact (show ∀ c ∈ lc "\n\n```callout-gray\n", (c == '<') = false by decide) c hc
    · simp only [beq_eq_false_iff_ne, ne_eq]
      exact plainC_ne (hPall c hc) (by decide)
    · exact (show ∀ c ∈ lc "\n```\n\n", (c == '<') = false by decide) c hc
  have hid : ∀ (m : List Char → Option (List Char × Nat)),
      (∀ c r x, m (c :: r) = some x → c = '<') →
      replaceScan m (lc "\n\n```callout-gray\n" ++ (P ++ lc "\n```\n\n")) =
        lc "\n\n```callout-gray\n" ++ (P ++ lc "\n```\n\n") := by
    intro m hm
    apply replaceScan_id_of_char m (fun c => c == '<')
    · intro c r x h
      simp [hm c r x h]
    · exact hRtrig
  -- the newline-run pass does not fire: no run of three newlines
  have hnl : replaceScan nlRunM (lc "\n\n```callout-gray\n" ++ (P ++ lc "\n```\n\n")) =
      lc "\n\n```callout-gray\n" ++ (P ++ lc "\n```\n\n") := by
    have h0 := replaceScan_id_zones nlRunM
      (A := lc "\n\n```callout-gray\n") (C := []) (B := [])
      (P := P) (E := lc "\n```\n\n")
      (by
        intro a2 ha2 hne
        fin_cases ha2 <;>
          first
          | exact absurd rfl hne
          | rfl
          | exact nlRunM_one hp0 _)
      (by
        intro c2 hex hne
        obtain ⟨c1, hc1⟩ := hex
        exact absurd (List.append_eq_nil.mp hc1.symm).2 hne)
      (by
        intro b2 hb2 hne
        simp only [List.tails] at hb2
        simp only [List.mem_singleton] at hb2
        exact absurd hb2 hne)
      (by
        intro p2 hex hne
        obtain ⟨p1, hPs⟩ := hex
        cases p2 with
        | nil => exact absurd rfl hne
        | cons d w =>
          exact matcher_none_of_head nlRunM_needs
            (plainC_ne (hPall d (by rw [hPs]; simp)) (by decide)) _)
      (by
        intro e2 he2 hne
        fin_cases he2 <;> first | exact absurd rfl hne | rfl)
    simpa only [List.nil_append] using h0
  have hsplit : splitOnC '\n' (lc "\n\n```callout-gray\n" ++ (P ++ lc "\n```\n\n")) =
      [[], [], lc "```callout-gray", P, lc "```", [], []] := by
    show splitOnC '\n' ('\n' :: ('\n' :: (lc "```callout-gray" ++ '\n' ::
      (P ++ ('\n' :: (lc "```" ++ '\n' :: ['\n'])))))) = _
    rw [splitOnC_cons_sep, splitOnC_cons_sep]
    rw [splitOnC_append_sep (by decide)]
    rw [splitOnC_append_sep hPnl]
    rw [splitOnC_append_sep (by decide)]
    rw [splitOnC_cons_sep]
    rfl
  have hTrail : noTrailWS (lc "\n\n```callout-gray\n" ++ (P ++ lc "\n```\n\n")) := by
    intro l hl
    rw [hsplit] at hl
    simp only [List.mem_cons, List.not_mem_nil, or_false] at hl
    rcases hl with rfl | rfl | rfl | rfl | rfl | rfl | rfl
    · rfl
    · rfl
    · decide
    · exact hPtrim
    · decide
    · rfl
    · rfl
  have hclean : cleanupWhitespaceL (lc "\n\n```callout-gray\n" ++ (P ++ lc "\n```\n\n")) =
      lc "\n\n```callout-gray\n" ++ (P ++ lc "\n```\n\n") := cleanup_id hnl hTrail
  have hcore_trim : jsTrimEnd (lc "```callout-gray\n" ++ (P ++ lc "\n```")) =
      lc "```callout-gray\n" ++ (P ++ lc "\n```") := by
    apply jsTrimEnd_append_fixed (by simp)
    apply jsTrimEnd_append_fixed (by decide) (by decide)
  have hjt : jsTrim (lc "\n\n```callout-gray\n" ++ (P ++ lc "\n```\n\n")) =
      lc "```callout-gray\n" ++ (P ++ lc "\n```") := by
    rw [show lc "\n\n```callout-gray\n" ++ (P ++ lc "\n```\n\n") =
      lc "\n\n" ++ ((lc "```callout-gray\n" ++ (P ++ lc "\n```")) ++ lc "\n\n") from by
        simp only [List.append_assoc]
        rfl]
    apply jsTrim_wrap (fun h => List.noConfusion h)
    · intro x hx
      rw [show (lc "```callout-gray\n" ++ (P ++ lc "\n```")).head? = some btick
        from rfl, Option.some.injEq] at hx
      subst hx
      rfl
    · exact hcore_trim
  -- assemble the pipeline
  show jsTrim (cleanupWhitespaceL (replaceScan brMD (convertInlineFormattingL
    (convertParagraphsL (convertLinksL (convertListsL (convertHeadingsL
      (replaceScan hrMD (convertImagesL (convertCodeBlocksL (convertCalloutsL
        (convertTablesL (stripL (calloutA ++ (C ++ (calloutB ++
          (P ++ calloutE))))))))))))))))) =
    lc "```callout-gray\n" ++ (P ++ lc "\n```")
  rw [hstrip, htab, hr3]
  rw [show convertCodeBlocksL (lc "\n\n```callout-gray\n" ++ (P ++ lc "\n```\n\n")) =
    lc "\n\n```callout-gray\n" ++ (P ++ lc "\n```\n\n") from hid _ codeBlockMD_needs]
  rw [show convertImagesL (lc "\n\n```callout-gray\n" ++ (P ++ lc "\n```\n\n")) =
    lc "\n\n```callout-gray\n" ++ (P ++ lc "\n```\n\n") from by
      unfold convertImagesL
      rw [hid _ alignedImageMD_needs, hid _ plainImageMD_needs,
        hid _ bareImageMD_needs]]
  rw [hid _ hrMD_needs]
  rw [show convertHeadingsL (lc "\n\n```callout-gray\n" ++ (P ++ lc "\n```\n\n")) =
    lc "\n\n```callout-gray\n" ++ (P ++ lc "\n```\n\n") from by
      unfold convertHeadingsL
      simp only []
      rw [hid _ (alignedHeadingMD_needs 1), hid _ (plainHeadingMD_needs 1),
        hid _ (alignedHeadingMD_needs 2), hid _ (plainHeadingMD_needs 2),
        hid _ (alignedHeadingMD_needs 3), hid _ (plainHeadingMD_needs 3),
        hid _ (alignedHeadingMD_needs 4), hid _ (plainHeadingMD_needs 4)]]
  rw [show convertListsL (lc "\n\n```callout-gray\n" ++ (P ++ lc "\n```\n\n")) =
    lc "\n\n```callout-gray\n" ++ (P ++ lc "\n```\n\n") from by
      unfold convertListsL
      rw [hid _ ulMD_needs, hid _ olMD_needs]]
  rw [show convertLinksL (lc "\n\n```callout-gray\n" ++ (P ++ lc "\n```\n\n")) =
    lc "\n\n```callout-gray\n" ++ (P ++ lc "\n```\n\n") from hid _ linkMD_needs]
  rw [show convertParagraphsL (lc "\n\n```callout-gray\n" ++ (P ++ lc "\n```\n\n")) =
    lc "\n\n```callout-gray\n" ++ (P ++ lc "\n```\n\n") from by
      unfold convertParagraphsL
      rw [hid _ alignedParaMD_needs, hid _ noMarginParaMD_needs,
        hid _ plainParaMD_needs]]
  rw [show convertInlineFormattingL (lc "\n\n```callout-gray\n" ++ (P ++ lc "\n```\n\n")) =
    lc "\n\n```callout-gray\n" ++ (P ++ lc "\n```\n\n") from by
      unfold convertInlineFormattingL
      rw [hid _ (pairTagM_needs _ _ _), hid _ (pairTagM_needs _ _ _),
        hid _ codeTagM_needs]]
  rw [hid _ brMD_needs]
  rw [hclean, hjt]

/-- C5 (corrected): decoding an HTML callout container whose background-color
value is not one of the registry's known values does produce a fenced block
tagged `callout-gray`; but encoding a fenced block tagged with an unknown
callout color does NOT render a gray-styled callout container — the encoder's
callout regex matches only the five known color names, so the block falls
through to the code-span and paragraph passes. -/
theorem claim_C5_amended :
    (∀ C P : List Char, C ≠ [] → (∀ c ∈ C, colorC c = true) →
      alGet calloutColors C = none → plainTextB P = true →
      htmlToMarkdownL (calloutA ++ (C ++ (calloutB ++ (P ++ calloutE)))) =
        lc "```callout-gray\n" ++ (P ++ lc "\n```")) ∧
    markdownToHtml "```callout-purple\nhi\n```" none =
      "<p class=\"no-margin\">``<code>callout-purple</p><p class=\"no-margin\">hi</p><p class=\"no-margin\"></code>``</p>" ∧
    hasSub (lc "intercom-interblocks-callout")
      (lc (markdownToHtml "```callout-purple\nhi\n```" none)) = false := by
  refine ⟨fun C P h1 h2 h3 h4 => calloutDecode h1 h2 h3 h4, by decide, by decide⟩

/-- Witness for the parametric part of C5: the unknown color `purple` with
content `hi`. -/
theorem claim_C5_amended_witness :
    htmlToMarkdownL (calloutA ++ (lc "purple" ++ (calloutB ++ (lc "hi" ++ calloutE)))) =
      lc "```callout-gray\n" ++ (lc "hi" ++ lc "\n```") :=
  claim_C5_amended.1 (lc "purple") (lc "hi") (by decide) (by decide) (by decide)
    (by decide)

/-! ## C10: encoder table-cell filtering and padding -/

theorem rangeGet_pad (row : List (List Char)) : ∀ n : Nat,
    (List.range n).map (fun i => ((row.get? i).getD [])) =
      row.take n ++ List.replicate (n - row.length) [] := by
  intro n
  induction n with
  | zero => simp
  | succ k ih =>
    rw [List.range_succ, List.map_append, ih, List.map_singleton]
    by_cases h : row.length ≤ k
    · rw [List.get?_eq_none.mpr h]
      rw [List.take_of_length_le h, List.take_of_length_le (by omega)]
      rw [show k + 1 - row.length = (k - row.length) + 1 by omega]
      rw [List.replicate_succ']
      simp
    · rw [List.take_succ]
      cases hg : row.get? k with
      | none => exact absurd (List.get?_eq_none.mp hg) h
      | some v =>
        rw [show k + 1 - row.length = 0 by omega, show k - row.length = 0 by omega]
        simp [hg]
        rw [← List.get?_eq_getElem?, hg]
        rfl

theorem mdCells_join (cells : List (List Char)) (h : cells ≠ [])
    (h2 : ∀ p ∈ cells, ∀ c ∈ p, c ≠ '|') :
    mdCells (joinC '|' cells) =
      (cells.map jsTrim).filter (fun c => !c.isEmpty) := by
  unfold mdCells
  rw [splitOnC_joinC h h2]

/-- C10: the encoder's Markdown-table parsing filters out every cell whose
trimmed content is empty before the row is assembled (so an interior empty
cell shifts the following cells left), and empty-cell padding happens only at
the end of a data row, up to the header row's retained cell count. -/
theorem claim_C10_cell_filtering :
    (∀ cells : List (List Char), cells ≠ [] →
      (∀ p ∈ cells, ∀ c ∈ p, c ≠ '|') →
      mdCells (joinC '|' cells) =
        (cells.map jsTrim).filter (fun c => !c.isEmpty)) ∧
    mdCells (lc " a || b ") = [lc "a", lc "b"] ∧
    (∀ (row : List (List Char)) (n : Nat),
      (List.range n).map (fun i => ((row.get? i).getD [])) =
        row.take n ++ List.replicate (n - row.length) []) ∧
    convertTablesToHtmlL (lc "|x|y|z|\n|---|---|---|\n|a||b|\n") =
      lc "<div class=\"intercom-interblocks-table-container\"><table role=\"presentation\"><tbody><tr><td><p class=\"no-margin\">x</p></td><td><p class=\"no-margin\">y</p></td><td><p class=\"no-margin\">z</p></td></tr><tr><td><p class=\"no-margin\">a</p></td><td><p class=\"no-margin\">b</p></td><td><p class=\"no-margin\"></p></td></tr></tbody></table></div>" ∧
    convertTablesToHtmlL (lc "|x||y|\n|---|---|\n|a|b|c|\n") =
      lc "<div class=\"intercom-interblocks-table-container\"><table role=\"presentation\"><tbody><tr><td><p class=\"no-margin\">x</p></td><td><p class=\"no-margin\">y</p></td></tr><tr><td><p class=\"no-margin\">a</p></td><td><p class=\"no-margin\">b</p></td></tr></tbody></table></div>" :=
  ⟨mdCells_join, by decide, rangeGet_pad, by decide, by decide⟩

/-- Witness for the parametric part of C10: a three-cell row whose middle cell
trims to empty loses that cell. -/
theorem claim_C10_witness :
    mdCells (joinC '|' [lc " a ", lc "  ", lc " b "]) =
      (([lc " a ", lc "  ", lc " b "]).map jsTrim).filter (fun c => !c.isEmpty) :=
  claim_C10_cell_filtering.1 [lc " a ", lc "  ", lc " b "] (by decide) (by decide)

/-! ## C6: table shape normalization -/

theorem dropLitCI_head_ne {p c : Char} {ps cs : List Char}
    (hd : c.toLower ≠ p.toLower) : dropLitCI (p :: ps) (c :: cs) = none := by
  simp only [dropLitCI]
  rw [if_neg hd]

theorem suffix_cases3 {A Q E s1 s2 : List Char}
    (h : A ++ (Q ++ E) = s1 ++ s2) (hne : s2 ≠ []) :
    (∃ a2 ∈ A.tails, a2 ≠ [] ∧ s2 = a2 ++ (Q ++ E)) ∨
    (∃ q2, (∃ q1, Q = q1 ++ q2) ∧ q2 ≠ [] ∧ s2 = q2 ++ E) ∨
    (∃ e1, E = e1 ++ s2) := by
  rcases suffix_append h with ⟨x1, x2, hXs, hxne, hs2⟩ | ⟨y1, hY1⟩
  · exact Or.inl ⟨x2, tails_of_split hXs, hxne, hs2⟩
  · rcases suffix_append hY1 with ⟨q1, q2, hQs, hqne, hs2⟩ | ⟨e1, hE1⟩
    · exact Or.inr (Or.inl ⟨q2, ⟨q1, hQs⟩, hqne, hs2⟩)
    · exact Or.inr (Or.inr ⟨e1, hE1⟩)

theorem findLitCI_skip (pat : List Char) : ∀ (X R : List Char),
    (∀ x1 x2, X = x1 ++ x2 → x2 ≠ [] → dropLitCI pat (x2 ++ R) = none) →
    findLitCI pat (X ++ R) =
      (findLitCI pat R).map (fun ab => (X ++ ab.1, ab.2)) := by
  intro X
  induction X with
  | nil =>
    intro R _
    simp only [List.nil_append]
    cases h : findLitCI pat R with
    | none => rfl
    | some ab => simp
  | cons c X2 ih =>
    intro R hX
    have hd : dropLitCI pat ((c :: X2) ++ R) = none :=
      hX [] (c :: X2) rfl (by simp)
    rw [List.cons_append]
    cases hp : pat with
    | nil => rw [hp] at hd; simp [dropLitCI] at hd
    | cons p pt =>
      rw [← hp]
      show (match dropLitCI pat (c :: (X2 ++ R)) with
        | some r => some ([], r)
        | none => match findLitCI pat (X2 ++ R) with
          | some (a, b) => some (c :: a, b)
          | none => none) = _
      rw [show dropLitCI pat (c :: (X2 ++ R)) = none from hd]
      rw [ih R (fun x1 x2 hx hne => hX (c :: x1) x2 (by rw [hx]; rfl) hne)]
      cases h : findLitCI pat R with
      | none => rfl
      | some ab => simp

theorem tbodyEnd_skip : ∀ (X R : List Char),
    (∀ x1 x2, X = x1 ++ x2 → x2 ≠ [] → dropLitCI (lc "</tbody>") (x2 ++ R) = none) →
    tbodyEnd (X ++ R) = (tbodyEnd R).map (fun ab => (X ++ ab.1, ab.2)) := by
  intro X
  induction X with
  | nil =>
    intro R _
    simp only [List.nil_append]
    cases h : tbodyEnd R with
    | none => rfl
    | some ab => simp
  | cons c X2 ih =>
    intro R hX
    have hd : dropLitCI (lc "</tbody>") ((c :: X2) ++ R) = none :=
      hX [] (c :: X2) rfl (by simp)
    rw [List.cons_append]
    show (match dropLitCI (lc "</tbody>") (c :: (X2 ++ R)) with
      | some r1 =>
        match wsLitCI (lc "</table>") r1 with
        | some r2 =>
          match wsLitCI (lc "</div>") r2 with
          | some r3 => some ([], r3)
          | none =>
            match tbodyEnd (X2 ++ R) with
            | some (a, b) => some (c :: a, b)
            | none => none
        | none =>
          match tbodyEnd (X2 ++ R) with
          | some (a, b) => some (c :: a, b)
          | none => none
      | none =>
        match tbodyEnd (X2 ++ R) with
        | some (a, b) => some (c :: a, b)
        | none => none) = _
    rw [show dropLitCI (lc "</tbody>") (c :: (X2 ++ R)) = none from hd]
    rw [ih R (fun x1 x2 hx hne => hX (c :: x1) x2 (by rw [hx]; rfl) hne)]
    cases h : tbodyEnd R with
    | none => rfl
    | some ab => simp

theorem jsTrim_wrap_gen {w1 core w2 : List Char} (hne : core ≠ [])
    (hw1 : ∀ c ∈ w1, jsWs c = true) (hw2 : ∀ c ∈ w2, jsWs c = true)
    (hh : ∀ x, core.head? = some x → jsWs x = false)
    (hl : ∀ x, core.getLast? = some x → jsWs x = false) :
    jsTrim (w1 ++ (core ++ w2)) = core := by
  obtain ⟨c, t, rfl⟩ : ∃ c t, core = c :: t := by
    cases h : core with
    | nil => exact absurd h hne
    | cons a b => exact ⟨a, b, rfl⟩
  show jsTrimEnd ((w1 ++ ((c :: t) ++ w2)).dropWhile jsWs) = c :: t
  rw [dropWhile_all hw1]
  rw [show ((c :: t) ++ w2).dropWhile jsWs = (c :: t) ++ w2 from by
    simp [List.dropWhile_cons, hh c rfl]]
  show ((((c :: t) ++ w2).reverse).dropWhile jsWs).reverse = c :: t
  rw [List.reverse_append]
  rw [dropWhile_all (fun d hd => hw2 d (List.mem_reverse.mp hd))]
  rw [dropWhile_eq_self_of_head (fun x hx => hl x (by rwa [List.head?_reverse] at hx))]
  exact List.reverse_reverse (c :: t)

theorem findLitCI_here {pat s r : List Char} (h : dropLitCI pat s = some r) :
    findLitCI pat s = some ([], r) := by
  cases s with
  | nil =>
    show (match dropLitCI pat [] with
      | some r => some ([], r)
      | none => none) = _
    rw [h]
  | cons c cs =>
    show (match dropLitCI pat (c :: cs) with
      | some r => some ([], r)
      | none => match findLitCI pat cs with
        | some (a, b) => some (c :: a, b)
        | none => none) = _
    rw [h]

theorem replaceScan_id_of_plain {s : List Char} (hs : ∀ c ∈ s, plainC c = true)
    (m : List Char → Option (List Char × Nat))
    (hm : ∀ c r x, m (c :: r) = some x → c = '<') : replaceScan m s = s := by
  apply replaceScan_id_of_char m (fun c => c == '<')
  · intro c r x h
    simp [hm c r x h]
  · intro c hc
    simp only [beq_eq_false_iff_ne, ne_eq]
    exact plainC_ne (hs c hc) (by decide)

theorem inline_id_of_plain {s : List Char} (hs : ∀ c ∈ s, plainC c = true) :
    convertInlineFormattingL s = s := by
  unfold convertInlineFormattingL
  rw [replaceScan_id_of_plain hs _ (pairTagM_needs _ _ _),
    replaceScan_id_of_plain hs _ (pairTagM_needs _ _ _),
    replaceScan_id_of_plain hs _ codeTagM_needs]

theorem plainTextB_parts {t : List Char} (h : plainTextB t = true) :
    t ≠ [] ∧ (∀ c ∈ t, plainC c = true) ∧
    (∀ x, t.head? = some x → jsWs x = false) ∧ jsTrimEnd t = t := by
  simp only [plainTextB, Bool.and_eq_true, Bool.not_eq_true',
    List.all_eq_true] at h
  obtain ⟨⟨⟨he, hall⟩, hh⟩, hl⟩ := h
  obtain ⟨a, b, rfl⟩ : ∃ a b, t = a :: b := by
    cases ht : t with
    | nil => rw [ht] at he; cases he
    | cons a b => exact ⟨a, b, rfl⟩
  refine ⟨by simp, hall, ?_, ?_⟩
  · intro x hx
    rw [List.head?_cons, Option.some.injEq] at hx
    subst hx
    exact hh
  · apply jsTrimEnd_fixed_iff.mpr
    intro x hx
    have : (a :: b).getLastD 'x' = x := by rw [List.getLastD_eq_getLast?, hx]; rfl
    rw [← this]
    exact hl

theorem jsTrim_of_plainTextB {t : List Char} (h : plainTextB t = true) :
    jsTrim t = t := by
  obtain ⟨_, _, hh, hl⟩ := plainTextB_parts h
  show jsTrimEnd (t.dropWhile jsWs) = t
  rw [dropWhile_eq_self_of_head hh]
  exact hl

theorem pUnwrap_plain {c : List Char} (hall : ∀ d ∈ c, plainC d = true) :
    pUnwrapM false (lc "<p class=\"no-margin\">" ++ (c ++ lc "</p>")) =
      some (c, (lc "<p class=\"no-margin\">" ++ (c ++ lc "</p>")).length) := by
  unfold pUnwrapM
  rw [show dropLitCI (lc "<p")
      (lc "<p class=\"no-margin\">" ++ (c ++ lc "</p>")) =
    some (lc " class=\"no-margin\">" ++ (c ++ lc "</p>")) from rfl]
  simp only []
  rw [show (lc " class=\"no-margin\">" ++ (c ++ lc "</p>")).takeWhile (· ≠ '>') =
    lc " class=\"no-margin\"" from rfl]
  rw [show (lc " class=\"no-margin\">" ++ (c ++ lc "</p>")).drop
      (lc " class=\"no-margin\"").length = '>' :: (c ++ lc "</p>") from rfl]
  simp only []
  rw [show lc "</p>" = '<' :: lc "/p>" from rfl]
  rw [findLitCI_append_skip (fun d hd => plainC_toLower_ne (hall d hd)
    (by decide) (by decide) (by decide))]
  rw [show findLitCI ('<' :: lc "/p>") ('<' :: lc "/p>") = some ([], []) from rfl]
  simp only [Option.map_some']
  simp

theorem cellM_eval {c : List Char} (hc : plainTextB c = true) (Y : List Char) :
    cellM (lc "<td><p class=\"no-margin\">" ++ (c ++ (lc "</p></td>" ++ Y))) =
      some (c, 34 + c.length) := by
  obtain ⟨hne, hall, hh, hl⟩ := plainTextB_parts hc
  have hskip : findLitCI (lc "</td>")
      (lc "<p class=\"no-margin\">" ++ (c ++ (lc "</p></td>" ++ Y))) =
      some (lc "<p class=\"no-margin\">" ++ (c ++ lc "</p>"), Y) := by
    rw [show lc "<p class=\"no-margin\">" ++ (c ++ (lc "</p></td>" ++ Y)) =
      (lc "<p class=\"no-margin\">" ++ (c ++ lc "</p>")) ++ (lc "</td>" ++ Y) from by
        simp only [List.append_assoc]
        rfl]
    rw [findLitCI_skip (lc "</td>") _ _ (by
      intro x1 x2 hx hne2
      rcases suffix_cases3 hx hne2 with
        ⟨a2, ha2, hane, rfl⟩ | ⟨q2, ⟨q1, hq⟩, hqne, rfl⟩ | ⟨e1, he1⟩
      · fin_cases ha2 <;> first | exact absurd rfl hane | rfl
      · cases q2 with
        | nil => exact absurd rfl hqne
        | cons d w =>
          exact dropLitCI_head_ne (plainC_toLower_ne (hall d (by rw [hq]; simp))
            (by decide) (by decide) (by decide))
      · have hx2 := tails_of_split he1
        fin_cases hx2 <;> first | exact absurd rfl hne2 | rfl)]
    rw [findLitCI_here (dropLitCI_app (lc "</td>") Y)]
    simp
  unfold cellM
  rw [show dropLitCI (lc "<td")
      (lc "<td><p class=\"no-margin\">" ++ (c ++ (lc "</p></td>" ++ Y))) =
    some (lc "><p class=\"no-margin\">" ++ (c ++ (lc "</p></td>" ++ Y))) from rfl]
  simp only []
  rw [show (lc "><p class=\"no-margin\">" ++ (c ++ (lc "</p></td>" ++ Y))).takeWhile
      (· ≠ '>') = [] from rfl]
  simp only [List.length_nil, List.drop_zero]
  rw [show lc "><p class=\"no-margin\">" ++ (c ++ (lc "</p></td>" ++ Y)) =
    '>' :: (lc "<p class=\"no-margin\">" ++ (c ++ (lc "</p></td>" ++ Y))) from rfl]
  simp only []
  rw [hskip]
  simp only []
  have hval : convertInlineFormattingL (jsTrim (replaceScan (pUnwrapM false)
      (lc "<p class=\"no-margin\">" ++ (c ++ lc "</p>")))) = c := by
    rw [replaceScan_all (pUnwrapM false) (by
        intro h
        exact List.noConfusion (show ([] : List Char) = '<' :: _ from h.symm.trans rfl))
      (pUnwrap_plain hall)]
    rw [jsTrim_of_plainTextB hc]
    exact inline_id_of_plain hall
  rw [hval]
  rw [show (lc "<td><p class=\"no-margin\">" ++ (c ++ (lc "</p></td>" ++ Y))).length -
      Y.length = 34 + c.length from by
    simp only [List.length_append]
    rw [show (lc "<td><p class=\"no-margin\">").length = 25 from rfl,
      show (lc "</p></td>").length = 9 from rfl]
    omega]

theorem drop_app_len : ∀ (a b : List Char) (n : Nat),
    (a ++ b).drop (a.length + n) = b.drop n := by
  intro a
  induction a with
  | nil => intro b n; simp
  | cons c t ih =>
    intro b n
    show ((c :: (t ++ b)).drop (t.length + 1 + n)) = b.drop n
    rw [show t.length + 1 + n = (t.length + n) + 1 by omega]
    rw [List.drop_succ_cons]
    exact ih b n

theorem drop_cell (c Y : List Char) :
    (lc "<td><p class=\"no-margin\">" ++ (c ++ (lc "</p></td>" ++ Y))).drop
      (max (34 + c.length) 1) = Y := by
  rw [Nat.max_eq_left (by omega)]
  rw [show (34 : Nat) + c.length =
    (lc "<td><p class=\"no-margin\">").length + (c.length + ((lc "</p></td>").length + 0)) from by
      rw [show (lc "<td><p class=\"no-margin\">").length = 25 from rfl,
        show (lc "</p></td>").length = 9 from rfl]
      omega]
  rw [drop_app_len, drop_app_len, drop_app_len, List.drop_zero]

theorem rowM2_eval {H1 H2 : List Char} (h1 : plainTextB H1 = true)
    (h2 : plainTextB H2 = true) (Y : List Char) :
    rowM (lc "<tr><td><p class=\"no-margin\">" ++ (H1 ++
      (lc "</p></td><td><p class=\"no-margin\">" ++ (H2 ++
        (lc "</p></td></tr>" ++ Y))))) =
      some ([H1, H2], 77 + (H1.length + H2.length)) := by
  obtain ⟨hne1, hall1, _, _⟩ := plainTextB_parts h1
  obtain ⟨hne2, hall2, _, _⟩ := plainTextB_parts h2
  have hskip : findLitCI (lc "</tr>")
      (lc "<td><p class=\"no-margin\">" ++ (H1 ++
        (lc "</p></td><td><p class=\"no-margin\">" ++ (H2 ++
          (lc "</p></td>" ++ (lc "</tr>" ++ Y)))))) =
      some (lc "<td><p class=\"no-margin\">" ++ (H1 ++
        (lc "</p></td><td><p class=\"no-margin\">" ++ (H2 ++ lc "</p></td>"))), Y) := by
    rw [show lc "<td><p class=\"no-margin\">" ++ (H1 ++
        (lc "</p></td><td><p class=\"no-margin\">" ++ (H2 ++
          (lc "</p></td>" ++ (lc "</tr>" ++ Y))))) =
      (lc "<td><p class=\"no-margin\">" ++ (H1 ++
        (lc "</p></td><td><p class=\"no-margin\">" ++ (H2 ++ lc "</p></td>")))) ++
        (lc "</tr>" ++ Y) from by
        simp only [List.append_assoc]]
    rw [findLitCI_skip (lc "</tr>") _ _ (by
      intro x1 x2 hx hne0
      rcases suffix_cases3 hx hne0 with
        ⟨a2, ha2, hane, rfl⟩ | ⟨q2, ⟨q1, hq⟩, hqne, rfl⟩ | ⟨e1, he1⟩
      · fin_cases ha2 <;> first | exact absurd rfl hane | rfl
      · cases q2 with
        | nil => exact absurd rfl hqne
        | cons d w =>
          exact dropLitCI_head_ne (plainC_toLower_ne (hall1 d (by rw [hq]; simp))
            (by decide) (by decide) (by decide))
      · rcases suffix_cases3 he1 hne0 with
          ⟨a2, ha2, hane, rfl⟩ | ⟨q2, ⟨q1, hq⟩, hqne, rfl⟩ | ⟨e2, he2⟩
        · fin_cases ha2 <;> first | exact absurd rfl hane | rfl
        · cases q2 with
          | nil => exact absurd rfl hqne
          | cons d w =>
            exact dropLitCI_head_ne (plainC_toLower_ne (hall2 d (by rw [hq]; simp))
              (by decide) (by decide) (by decide))
        · have hx2 := tails_of_split he2
          fin_cases hx2 <;> first | exact absurd rfl hne0 | rfl)]
    rw [findLitCI_here (dropLitCI_app (lc "</tr>") Y)]
    simp
  have hcells : collectScan cellM (lc "<td><p class=\"no-margin\">" ++ (H1 ++
      (lc "</p></td><td><p class=\"no-margin\">" ++ (H2 ++ lc "</p></td>")))) =
      [H1, H2] := by
    have hc1 : collectScan cellM (lc "<td><p class=\"no-margin\">" ++ (H1 ++
        (lc "</p></td><td><p class=\"no-margin\">" ++ (H2 ++ lc "</p></td>")))) =
        H1 :: collectScan cellM (lc "<td><p class=\"no-margin\">" ++
          (H2 ++ lc "</p></td>")) :=
      Eq.trans (collectScan_some cellM (cellM_eval h1
          (lc "<td><p class=\"no-margin\">" ++ (H2 ++ lc "</p></td>"))))
        (congrArg (fun z => H1 :: collectScan cellM z)
          (drop_cell H1 (lc "<td><p class=\"no-margin\">" ++ (H2 ++ lc "</p></td>"))))
    have hc2 : collectScan cellM (lc "<td><p class=\"no-margin\">" ++
        (H2 ++ lc "</p></td>")) = [H2] :=
      Eq.trans (collectScan_some cellM (cellM_eval h2 ([] : List Char)))
        (congrArg (fun z => H2 :: collectScan cellM z)
          (drop_cell H2 ([] : List Char)))
    rw [hc1, hc2]
  unfold rowM
  rw [show dropLitCI (lc "<tr") (lc "<tr><td><p class=\"no-margin\">" ++ (H1 ++
      (lc "</p></td><td><p class=\"no-margin\">" ++ (H2 ++
        (lc "</p></td></tr>" ++ Y))))) =
    some (lc "><td><p class=\"no-margin\">" ++ (H1 ++
      (lc "</p></td><td><p class=\"no-margin\">" ++ (H2 ++
        (lc "</p></td></tr>" ++ Y))))) from rfl]
  simp only []
  rw [show (lc "><td><p class=\"no-margin\">" ++ (H1 ++
      (lc "</p></td><td><p class=\"no-margin\">" ++ (H2 ++
        (lc "</p></td></tr>" ++ Y))))).takeWhile (· ≠ '>') = [] from rfl]
  simp only [List.length_nil, List.drop_zero]
  rw [show lc "><td><p class=\"no-margin\">" ++ (H1 ++
      (lc "</p></td><td><p class=\"no-margin\">" ++ (H2 ++
        (lc "</p></td></tr>" ++ Y)))) =
    '>' :: (lc "<td><p class=\"no-margin\">" ++ (H1 ++
      (lc "</p></td><td><p class=\"no-margin\">" ++ (H2 ++
        (lc "</p></td>" ++ (lc "</tr>" ++ Y)))))) from rfl]
  simp only [hskip]
  rw [hcells]
  rw [show (lc "<tr><td><p class=\"no-margin\">" ++ (H1 ++
      (lc "</p></td><td><p class=\"no-margin\">" ++ (H2 ++
        (lc "</p></td></tr>" ++ Y))))).length - Y.length =
    77 + (H1.length + H2.length) from by
    simp only [List.length_append]
    rw [show (lc "<tr><td><p class=\"no-margin\">").length = 29 from rfl,
      show (lc "</p></td><td><p class=\"no-margin\">").length = 34 from rfl,
      show (lc "</p></td></tr>").length = 14 from rfl]
    omega]

theorem rowM1_eval {A : List Char} (hA : plainTextB A = true) (Y : List Char) :
    rowM (lc "<tr><td><p class=\"no-margin\">" ++ (A ++
      (lc "</p></td></tr>" ++ Y))) = some ([A], 43 + A.length) := by
  obtain ⟨hneA, hallA, _, _⟩ := plainTextB_parts hA
  have hskip : findLitCI (lc "</tr>")
      (lc "<td><p class=\"no-margin\">" ++ (A ++
        (lc "</p></td>" ++ (lc "</tr>" ++ Y)))) =
      some (lc "<td><p class=\"no-margin\">" ++ (A ++ lc "</p></td>"), Y) := by
    rw [show lc "<td><p class=\"no-margin\">" ++ (A ++
        (lc "</p></td>" ++ (lc "</tr>" ++ Y))) =
      (lc "<td><p class=\"no-margin\">" ++ (A ++ lc "</p></td>")) ++
        (lc "</tr>" ++ Y) from by
        simp only [List.append_assoc]]
    rw [findLitCI_skip (lc "</tr>") _ _ (by
      intro x1 x2 hx hne0
      rcases suffix_cases3 hx hne0 with
        ⟨a2, ha2, hane, rfl⟩ | ⟨q2, ⟨q1, hq⟩, hqne, rfl⟩ | ⟨e1, he1⟩
      · fin_cases ha2 <;> first | exact absurd rfl hane | rfl
      · cases q2 with
        | nil => exact absurd rfl hqne
        | cons d w =>
          exact dropLitCI_head_ne (plainC_toLower_ne (hallA d (by rw [hq]; simp))
            (by decide) (by decide) (by decide))
      · have hx2 := tails_of_split he1
        fin_cases hx2 <;> first | exact absurd rfl hne0 | rfl)]
    rw [findLitCI_here (dropLitCI_app (lc "</tr>") Y)]
    simp
  have hcells : collectScan cellM (lc "<td><p class=\"no-margin\">" ++
      (A ++ lc "</p></td>")) = [A] :=
    Eq.trans (collectScan_some cellM (cellM_eval hA ([] : List Char)))
      (congrArg (fun z => A :: collectScan cellM z) (drop_cell A ([] : List Char)))
  unfold rowM
  rw [show dropLitCI (lc "<tr") (lc "<tr><td><p class=\"no-margin\">" ++ (A ++
      (lc "</p></td></tr>" ++ Y))) =
    some (lc "><td><p class=\"no-margin\">" ++ (A ++
      (lc "</p></td></tr>" ++ Y))) from rfl]
  simp only []
  rw [show (lc "><td><p class=\"no-margin\">" ++ (A ++
      (lc "</p></td></tr>" ++ Y))).takeWhile (· ≠ '>') = [] from rfl]
  simp only [List.length_nil, List.drop_zero]
  rw [show lc "><td><p class=\"no-margin\">" ++ (A ++
      (lc "</p></td></tr>" ++ Y)) =
    '>' :: (lc "<td><p class=\"no-margin\">" ++ (A ++
      (lc "</p></td>" ++ (lc "</tr>" ++ Y)))) from rfl]
  simp only [hskip]
  rw [hcells]
  rw [show (lc "<tr><td><p class=\"no-margin\">" ++ (A ++
      (lc "</p></td></tr>" ++ Y))).length - Y.length = 43 + A.length from by
    simp only [List.length_append]
    rw [show (lc "<tr><td><p class=\"no-margin\">").length = 29 from rfl,
      show (lc "</p></td></tr>").length = 14 from rfl]
    omega]

theorem drop_row2 (H1 H2 Y : List Char) :
    (lc "<tr><td><p class=\"no-margin\">" ++ (H1 ++
      (lc "</p></td><td><p class=\"no-margin\">" ++ (H2 ++
        (lc "</p></td></tr>" ++ Y))))).drop
      (max (77 + (H1.length + H2.length)) 1) = Y := by
  rw [Nat.max_eq_left (by omega)]
  rw [show (77 : Nat) + (H1.length + H2.length) =
    (lc "<tr><td><p class=\"no-margin\">").length + (H1.length +
      ((lc "</p></td><td><p class=\"no-margin\">").length + (H2.length +
        ((lc "</p></td></tr>").length + 0)))) from by
      rw [show (lc "<tr><td><p class=\"no-margin\">").length = 29 from rfl,
        show (lc "</p></td><td><p class=\"no-margin\">").length = 34 from rfl,
        show (lc "</p></td></tr>").length = 14 from rfl]
      omega]
  rw [drop_app_len, drop_app_len, drop_app_len, drop_app_len, drop_app_len,
    List.drop_zero]

theorem drop_row1 (A Y : List Char) :
    (lc "<tr><td><p class=\"no-margin\">" ++ (A ++
      (lc "</p></td></tr>" ++ Y))).drop (max (43 + A.length) 1) = Y := by
  rw [Nat.max_eq_left (by omega)]
  rw [show (43 : Nat) + A.length =
    (lc "<tr><td><p class=\"no-margin\">").length + (A.length +
      ((lc "</p></td></tr>").length + 0)) from by
      rw [show (lc "<tr><td><p class=\"no-margin\">").length = 29 from rfl,
        show (lc "</p></td></tr>").length = 14 from rfl]
      omega]
  rw [drop_app_len, drop_app_len, drop_app_len, List.drop_zero]

theorem bodyScan_eval {H1 H2 A : List Char} (h1 : plainTextB H1 = true)
    (h2 : plainTextB H2 = true) (hA : plainTextB A = true) :
    collectScan rowM (lc "<tr><td><p class=\"no-margin\">" ++ (H1 ++
      (lc "</p></td><td><p class=\"no-margin\">" ++ (H2 ++
        (lc "</p></td></tr>" ++ (lc "<tr><td><p class=\"no-margin\">" ++
          (A ++ lc "</p></td></tr>"))))))) = [[H1, H2], [A]] := by
  have hc1 : collectScan rowM (lc "<tr><td><p class=\"no-margin\">" ++ (H1 ++
      (lc "</p></td><td><p class=\"no-margin\">" ++ (H2 ++
        (lc "</p></td></tr>" ++ (lc "<tr><td><p class=\"no-margin\">" ++
          (A ++ lc "</p></td></tr>"))))))) =
      [H1, H2] :: collectScan rowM (lc "<tr><td><p class=\"no-margin\">" ++
        (A ++ lc "</p></td></tr>")) :=
    Eq.trans (collectScan_some rowM (rowM2_eval h1 h2
        (lc "<tr><td><p class=\"no-margin\">" ++ (A ++ lc "</p></td></tr>"))))
      (congrArg (fun z => [H1, H2] :: collectScan rowM z)
        (drop_row2 H1 H2 (lc "<tr><td><p class=\"no-margin\">" ++
          (A ++ lc "</p></td></tr>"))))
  have hc2 : collectScan rowM (lc "<tr><td><p class=\"no-margin\">" ++
      (A ++ lc "</p></td></tr>")) = [[A]] :=
    Eq.trans (collectScan_some rowM (rowM1_eval hA ([] : List Char)))
      (congrArg (fun z => [A] :: collectScan rowM z) (drop_row1 A ([] : List Char)))
  rw [hc1, hc2]

theorem tbody_body_eval {H1 H2 A : List Char} (h1 : plainTextB H1 = true)
    (h2 : plainTextB H2 = true) (hA : plainTextB A = true) :
    tbodyEnd ((lc "<tr><td><p class=\"no-margin\">" ++ (H1 ++
      (lc "</p></td><td><p class=\"no-margin\">" ++ (H2 ++
        (lc "</p></td></tr>" ++ (lc "<tr><td><p class=\"no-margin\">" ++
          (A ++ lc "</p></td></tr>"))))))) ++ lc "</tbody></table></div>") =
      some (lc "<tr><td><p class=\"no-margin\">" ++ (H1 ++
        (lc "</p></td><td><p class=\"no-margin\">" ++ (H2 ++
          (lc "</p></td></tr>" ++ (lc "<tr><td><p class=\"no-margin\">" ++
            (A ++ lc "</p></td></tr>")))))), []) := by
  obtain ⟨_, hall1, _, _⟩ := plainTextB_parts h1
  obtain ⟨_, hall2, _, _⟩ := plainTextB_parts h2
  obtain ⟨_, hallA, _, _⟩ := plainTextB_parts hA
  rw [tbodyEnd_skip _ _ (by
    intro x1 x2 hx hne0
    rcases suffix_cases3 hx hne0 with
      ⟨a2, ha2, hane, rfl⟩ | ⟨q2, ⟨q1, hq⟩, hqne, rfl⟩ | ⟨e1, he1⟩
    · fin_cases ha2 <;> first | exact absurd rfl hane | rfl
    · cases q2 with
      | nil => exact absurd rfl hqne
      | cons d w =>
        exact dropLitCI_head_ne (plainC_toLower_ne (hall1 d (by rw [hq]; simp))
          (by decide) (by decide) (by decide))
    · rcases suffix_cases3 he1 hne0 with
        ⟨a2, ha2, hane, rfl⟩ | ⟨q2, ⟨q1, hq⟩, hqne, rfl⟩ | ⟨e2, he2⟩
      · fin_cases ha2 <;> first | exact absurd rfl hane | rfl
      · cases q2 with
        | nil => exact absurd rfl hqne
        | cons d w =>
          exact dropLitCI_head_ne (plainC_toLower_ne (hall2 d (by rw [hq]; simp))
            (by decide) (by decide) (by decide))
      · rcases suffix_cases3 (show
          lc "</p></td></tr><tr><td><p class=\"no-margin\">" ++
            (A ++ lc "</p></td></tr>") = e2 ++ x2 from he2) hne0 with
          ⟨a2, ha2, hane, rfl⟩ | ⟨q2, ⟨q1, hq⟩, hqne, rfl⟩ | ⟨e3, he3⟩
        · fin_cases ha2 <;> first | exact absurd rfl hane | rfl
        · cases q2 with
          | nil => exact absurd rfl hqne
          | cons d w =>
            exact dropLitCI_head_ne (plainC_toLower_ne (hallA d (by rw [hq]; simp))
              (by decide) (by decide) (by decide))
        · have hx2 := tails_of_split he3
          fin_cases hx2 <;> first | exact absurd rfl hne0 | rfl)]
  rw [show tbodyEnd (lc "</tbody></table></div>") = some ([], []) from rfl]
  simp

theorem tableMD_eval {H1 H2 A : List Char} (h1 : plainTextB H1 = true)
    (h2 : plainTextB H2 = true) (hA : plainTextB A = true) :
    tableMD (lc "<div class=\"intercom-interblocks-table-container\"><table role=\"presentation\"><tbody>" ++
      ((lc "<tr><td><p class=\"no-margin\">" ++ (H1 ++
        (lc "</p></td><td><p class=\"no-margin\">" ++ (H2 ++
          (lc "</p></td></tr>" ++ (lc "<tr><td><p class=\"no-margin\">" ++
            (A ++ lc "</p></td></tr>"))))))) ++ lc "</tbody></table></div>")) =
      some (lc "\n\n" ++ joinC '\n'
          (mdRowLine (padTo 2 [H1, H2]) ::
            mdRowLine (List.replicate 2 (lc "---")) ::
            [mdRowLine (padTo 2 [A])]) ++ lc "\n\n",
        (lc "<div class=\"intercom-interblocks-table-container\"><table role=\"presentation\"><tbody>" ++
          ((lc "<tr><td><p class=\"no-margin\">" ++ (H1 ++
            (lc "</p></td><td><p class=\"no-margin\">" ++ (H2 ++
              (lc "</p></td></tr>" ++ (lc "<tr><td><p class=\"no-margin\">" ++
                (A ++ lc "</p></td></tr>"))))))) ++
            lc "</tbody></table></div>")).length) := by
  unfold tableMD
  rw [show dropLitCI (lc "<div")
      (lc "<div class=\"intercom-interblocks-table-container\"><table role=\"presentation\"><tbody>" ++
        ((lc "<tr><td><p class=\"no-margin\">" ++ (H1 ++
          (lc "</p></td><td><p class=\"no-margin\">" ++ (H2 ++
            (lc "</p></td></tr>" ++ (lc "<tr><td><p class=\"no-margin\">" ++
              (A ++ lc "</p></td></tr>"))))))) ++ lc "</tbody></table></div>")) =
    some (' ' :: (lc "class=\"intercom-interblocks-table-container\"><table role=\"presentation\"><tbody>" ++
      ((lc "<tr><td><p class=\"no-margin\">" ++ (H1 ++
        (lc "</p></td><td><p class=\"no-margin\">" ++ (H2 ++
          (lc "</p></td></tr>" ++ (lc "<tr><td><p class=\"no-margin\">" ++
            (A ++ lc "</p></td></tr>"))))))) ++ lc "</tbody></table></div>")))
    from rfl]
  simp only []
  rw [if_neg (by decide)]
  rw [show (lc "class=\"intercom-interblocks-table-container\"><table role=\"presentation\"><tbody>" ++
      ((lc "<tr><td><p class=\"no-margin\">" ++ (H1 ++
        (lc "</p></td><td><p class=\"no-margin\">" ++ (H2 ++
          (lc "</p></td></tr>" ++ (lc "<tr><td><p class=\"no-margin\">" ++
            (A ++ lc "</p></td></tr>"))))))) ++
        lc "</tbody></table></div>")).dropWhile jsWs =
    lc "class=\"intercom-interblocks-table-container\"><table role=\"presentation\"><tbody>" ++
      ((lc "<tr><td><p class=\"no-margin\">" ++ (H1 ++
        (lc "</p></td><td><p class=\"no-margin\">" ++ (H2 ++
          (lc "</p></td></tr>" ++ (lc "<tr><td><p class=\"no-margin\">" ++
            (A ++ lc "</p></td></tr>"))))))) ++ lc "</tbody></table></div>")
    from rfl]
  rw [show dropLitCI (lc "class=\"intercom-interblocks-table-container\"")
      (lc "class=\"intercom-interblocks-table-container\"><table role=\"presentation\"><tbody>" ++
        ((lc "<tr><td><p class=\"no-margin\">" ++ (H1 ++
          (lc "</p></td><td><p class=\"no-margin\">" ++ (H2 ++
            (lc "</p></td></tr>" ++ (lc "<tr><td><p class=\"no-margin\">" ++
              (A ++ lc "</p></td></tr>"))))))) ++ lc "</tbody></table></div>")) =
    some ('>' :: (lc "<table role=\"presentation\"><tbody>" ++
      ((lc "<tr><td><p class=\"no-margin\">" ++ (H1 ++
        (lc "</p></td><td><p class=\"no-margin\">" ++ (H2 ++
          (lc "</p></td></tr>" ++ (lc "<tr><td><p class=\"no-margin\">" ++
            (A ++ lc "</p></td></tr>"))))))) ++ lc "</tbody></table></div>")))
    from rfl]
  simp only []
  rw [show tagTail ('>' :: (lc "<table role=\"presentation\"><tbody>" ++
      ((lc "<tr><td><p class=\"no-margin\">" ++ (H1 ++
        (lc "</p></td><td><p class=\"no-margin\">" ++ (H2 ++
          (lc "</p></td></tr>" ++ (lc "<tr><td><p class=\"no-margin\">" ++
            (A ++ lc "</p></td></tr>"))))))) ++ lc "</tbody></table></div>"))) =
    some (lc "<table role=\"presentation\"><tbody>" ++
      ((lc "<tr><td><p class=\"no-margin\">" ++ (H1 ++
        (lc "</p></td><td><p class=\"no-margin\">" ++ (H2 ++
          (lc "</p></td></tr>" ++ (lc "<tr><td><p class=\"no-margin\">" ++
            (A ++ lc "</p></td></tr>"))))))) ++ lc "</tbody></table></div>"))
    from rfl]
  simp only []
  rw [show wsLitCI (lc "<table")
      (lc "<table role=\"presentation\"><tbody>" ++
        ((lc "<tr><td><p class=\"no-margin\">" ++ (H1 ++
          (lc "</p></td><td><p class=\"no-margin\">" ++ (H2 ++
            (lc "</p></td></tr>" ++ (lc "<tr><td><p class=\"no-margin\">" ++
              (A ++ lc "</p></td></tr>"))))))) ++ lc "</tbody></table></div>")) =
    some (lc " role=\"presentation\"><tbody>" ++
      ((lc "<tr><td><p class=\"no-margin\">" ++ (H1 ++
        (lc "</p></td><td><p class=\"no-margin\">" ++ (H2 ++
          (lc "</p></td></tr>" ++ (lc "<tr><td><p class=\"no-margin\">" ++
            (A ++ lc "</p></td></tr>"))))))) ++ lc "</tbody></table></div>"))
    from rfl]
  simp only []
  rw [show tagTail (lc " role=\"presentation\"><tbody>" ++
      ((lc "<tr><td><p class=\"no-margin\">" ++ (H1 ++
        (lc "</p></td><td><p class=\"no-margin\">" ++ (H2 ++
          (lc "</p></td></tr>" ++ (lc "<tr><td><p class=\"no-margin\">" ++
            (A ++ lc "</p></td></tr>"))))))) ++ lc "</tbody></table></div>")) =
    some (lc "<tbody>" ++
      ((lc "<tr><td><p class=\"no-margin\">" ++ (H1 ++
        (lc "</p></td><td><p class=\"no-margin\">" ++ (H2 ++
          (lc "</p></td></tr>" ++ (lc "<tr><td><p class=\"no-margin\">" ++
            (A ++ lc "</p></td></tr>"))))))) ++ lc "</tbody></table></div>"))
    from rfl]
  simp only []
  rw [show wsLitCI (lc "<tbody>")
      (lc "<tbody>" ++
        ((lc "<tr><td><p class=\"no-margin\">" ++ (H1 ++
          (lc "</p></td><td><p class=\"no-margin\">" ++ (H2 ++
            (lc "</p></td></tr>" ++ (lc "<tr><td><p class=\"no-margin\">" ++
              (A ++ lc "</p></td></tr>"))))))) ++ lc "</tbody></table></div>")) =
    some ((lc "<tr><td><p class=\"no-margin\">" ++ (H1 ++
      (lc "</p></td><td><p class=\"no-margin\">" ++ (H2 ++
        (lc "</p></td></tr>" ++ (lc "<tr><td><p class=\"no-margin\">" ++
          (A ++ lc "</p></td></tr>"))))))) ++ lc "</tbody></table></div>")
    from rfl]
  simp only []
  simp only [tbody_body_eval h1 h2 hA]
  rw [bodyScan_eval h1 h2 hA]
  rfl

theorem mdTable_norm (H1 H2 A : List Char) :
    mdTable 2 [[H1, H2], [A]] =
      lc "| " ++ (H1 ++ (lc " | " ++ (H2 ++ (lc " |\n| --- | --- |\n| " ++
        (A ++ lc " |  |"))))) := by
  have e1 : mdRowLine (padTo 2 ([[H1, H2], [A]].headD [])) =
      (lc "| " ++ (H1 ++ (lc " | " ++ (H2 ++ [])))) ++ lc " |" := rfl
  have e2 : mdRowLine (List.replicate 2 (lc "---")) = lc "| --- | --- |" := rfl
  have e3 : mdRowLine (padTo 2 [A]) =
      (lc "| " ++ (A ++ (lc " | " ++ ([] ++ [])))) ++ lc " |" := rfl
  show joinC '\n' (mdRowLine (padTo 2 ([[H1, H2], [A]].headD [])) ::
      mdRowLine (List.replicate 2 (lc "---")) ::
      ([[A]].map (fun r => mdRowLine (padTo 2 r)))) = _
  rw [show ([[A]].map (fun r => mdRowLine (padTo 2 r))) = [mdRowLine (padTo 2 [A])]
    from rfl]
  rw [show joinC '\n' [mdRowLine (padTo 2 ([[H1, H2], [A]].headD [])),
      mdRowLine (List.replicate 2 (lc "---")), mdRowLine (padTo 2 [A])] =
    mdRowLine (padTo 2 ([[H1, H2], [A]].headD [])) ++ '\n' ::
      (mdRowLine (List.replicate 2 (lc "---")) ++ '\n' ::
        mdRowLine (padTo 2 [A])) from rfl]
  rw [e1, e2, e3]
  simp only [List.append_assoc, List.cons_append, List.append_nil, List.nil_append]
  rfl

theorem rep_norm (H1 H2 A : List Char) :
    lc "\n\n" ++ joinC '\n'
        (mdRowLine (padTo 2 [H1, H2]) ::
          mdRowLine (List.replicate 2 (lc "---")) ::
          [mdRowLine (padTo 2 [A])]) ++ lc "\n\n" =
      lc "\n\n| " ++ (H1 ++ (lc " | " ++ (H2 ++ (lc " |\n| --- | --- |\n| " ++
        (A ++ lc " |  |\n\n"))))) := by
  have e1 : mdRowLine (padTo 2 [H1, H2]) =
      (lc "| " ++ (H1 ++ (lc " | " ++ (H2 ++ [])))) ++ lc " |" := rfl
  have e2 : mdRowLine (List.replicate 2 (lc "---")) = lc "| --- | --- |" := rfl
  have e3 : mdRowLine (padTo 2 [A]) =
      (lc "| " ++ (A ++ (lc " | " ++ ([] ++ [])))) ++ lc " |" := rfl
  rw [show joinC '\n' [mdRowLine (padTo 2 [H1, H2]),
      mdRowLine (List.replicate 2 (lc "---")), mdRowLine (padTo 2 [A])] =
    mdRowLine (padTo 2 [H1, H2]) ++ '\n' ::
      (mdRowLine (List.replicate 2 (lc "---")) ++ '\n' ::
        mdRowLine (padTo 2 [A])) from rfl]
  rw [e1, e2, e3]
  simp only [List.append_assoc, List.cons_append, List.append_nil, List.nil_append]
  rfl

theorem tableHtml_norm (H1 H2 A : List Char) :
    tableHtml [[H1, H2], [A]] =
      lc "<div class=\"intercom-interblocks-table-container\"><table role=\"presentation\"><tbody>" ++
      ((lc "<tr><td><p class=\"no-margin\">" ++ (H1 ++
        (lc "</p></td><td><p class=\"no-margin\">" ++ (H2 ++
          (lc "</p></td></tr>" ++ (lc "<tr><td><p class=\"no-margin\">" ++
            (A ++ lc "</p></td></tr>"))))))) ++ lc "</tbody></table></div>") := by
  show (lc "<div class=\"intercom-interblocks-table-container\"><table role=\"presentation\"><tbody>" ++
      joinL ([[H1, H2], [A]].map trRow)) ++ lc "</tbody></table></div>" = _
  rw [show joinL ([[H1, H2], [A]].map trRow) = trRow [H1, H2] ++ (trRow [A] ++ [])
    from rfl]
  rw [show trRow [H1, H2] = (lc "<tr>" ++ (tdCell H1 ++ (tdCell H2 ++ []))) ++
    lc "</tr>" from rfl]
  rw [show trRow [A] = (lc "<tr>" ++ (tdCell A ++ [])) ++ lc "</tr>" from rfl]
  rw [show tdCell H1 = (lc "<td><p class=\"no-margin\">" ++ H1) ++ lc "</p></td>"
    from rfl]
  rw [show tdCell H2 = (lc "<td><p class=\"no-margin\">" ++ H2) ++ lc "</p></td>"
    from rfl]
  rw [show tdCell A = (lc "<td><p class=\"no-margin\">" ++ A) ++ lc "</p></td>"
    from rfl]
  simp only [List.append_assoc, List.cons_append, List.append_nil, List.nil_append]
  rfl

theorem tableDecode {H1 H2 A : List Char} (h1 : plainTextB H1 = true)
    (h2 : plainTextB H2 = true) (hA : plainTextB A = true) :
    htmlToMarkdownL (tableHtml [[H1, H2], [A]]) = mdTable 2 [[H1, H2], [A]] := by
  obtain ⟨hne1, hall1, hh1, hl1⟩ := plainTextB_parts h1
  obtain ⟨hne2, hall2, hh2, hl2⟩ := plainTextB_parts h2
  obtain ⟨hneA, hallA, hhA, hlA⟩ := plainTextB_parts hA
  rw [tableHtml_norm]
  -- the strip pass is the identity: no question mark anywhere
  have hnoq : ∀ c ∈ lc "<div class=\"intercom-interblocks-table-container\"><table role=\"presentation\"><tbody>" ++
      ((lc "<tr><td><p class=\"no-margin\">" ++ (H1 ++
        (lc "</p></td><td><p class=\"no-margin\">" ++ (H2 ++
          (lc "</p></td></tr>" ++ (lc "<tr><td><p class=\"no-margin\">" ++
            (A ++ lc "</p></td></tr>"))))))) ++ lc "</tbody></table></div>"),
      c ≠ '?' := by
    intro c hc
    simp only [List.mem_append] at hc
    rcases hc with hc | (hc | hc | hc | hc | hc | hc) | hc
    · exact (show ∀ c ∈ lc "<div class=\"intercom-interblocks-table-container\"><table role=\"presentation\"><tbody>", c ≠ '?' by decide) c hc
    · exact (show ∀ c ∈ lc "<tr><td><p class=\"no-margin\">", c ≠ '?' by decide) c hc
    · exact plainC_ne (hall1 c hc) (by decide)
    · exact (show ∀ c ∈ lc "</p></td><td><p class=\"no-margin\">", c ≠ '?' by decide) c hc
    · exact plainC_ne (hall2 c hc) (by decide)
    · exact (show ∀ c ∈ lc "</p></td></tr>", c ≠ '?' by decide) c hc
    · rcases hc with hc | hc
      · exact (show ∀ c ∈ lc "<tr><td><p class=\"no-margin\">", c ≠ '?' by decide) c hc
      · rcases hc with hc | hc
        · exact plainC_ne (hallA c hc) (by decide)
        · exact (show ∀ c ∈ lc "</p></td></tr>", c ≠ '?' by decide) c hc
    · exact (show ∀ c ∈ lc "</tbody></table></div>", c ≠ '?' by decide) c hc
  have hstrip := stripL_id_of_no_qmark hnoq
  -- the table pass converts the whole input
  have htab : convertTablesL (lc "<div class=\"intercom-interblocks-table-container\"><table role=\"presentation\"><tbody>" ++
      ((lc "<tr><td><p class=\"no-margin\">" ++ (H1 ++
        (lc "</p></td><td><p class=\"no-margin\">" ++ (H2 ++
          (lc "</p></td></tr>" ++ (lc "<tr><td><p class=\"no-margin\">" ++
            (A ++ lc "</p></td></tr>"))))))) ++ lc "</tbody></table></div>")) =
      lc "\n\n| " ++ (H1 ++ (lc " | " ++ (H2 ++ (lc " |\n| --- | --- |\n| " ++
        (A ++ lc " |  |\n\n"))))) := by
    unfold convertTablesL
    rw [replaceScan_all tableMD (by
      intro h
      exact List.noConfusion (show ([] : List Char) = '<' :: _ from h.symm.trans rfl))
      (tableMD_eval h1 h2 hA)]
    exact rep_norm H1 H2 A
  -- no later pass can fire: the produced Markdown has no tag opener
  have hWtrig : ∀ c ∈ lc "\n\n| " ++ (H1 ++ (lc " | " ++ (H2 ++
      (lc " |\n| --- | --- |\n| " ++ (A ++ lc " |  |\n\n"))))),
      (c == '<') = false := by
    intro c hc
    simp only [List.mem_append] at hc
    rcases hc with hc | hc | hc | hc | hc | hc | hc
    · exact (show ∀ c ∈ lc "\n\n| ", (c == '<') = false by decide) c hc
    · simp only [beq_eq_false_iff_ne, ne_eq]
      exact plainC_ne (hall1 c hc) (by decide)
    · exact (show ∀ c ∈ lc " | ", (c == '<') = false by decide) c hc
    · simp only [beq_eq_false_iff_ne, ne_eq]
      exact plainC_ne (hall2 c hc) (by decide)
    · exact (show ∀ c ∈ lc " |\n| --- | --- |\n| ", (c == '<') = false by decide) c hc
    · simp only [beq_eq_false_iff_ne, ne_eq]
      exact plainC_ne (hallA c hc) (by decide)
    · exact (show ∀ c ∈ lc " |  |\n\n", (c == '<') = false by decide) c hc
  have hid : ∀ (m : List Char → Option (List Char × Nat)),
      (∀ c r x, m (c :: r) = some x → c = '<') →
      replaceScan m (lc "\n\n| " ++ (H1 ++ (lc " | " ++ (H2 ++
        (lc " |\n| --- | --- |\n| " ++ (A ++ lc " |  |\n\n")))))) =
        lc "\n\n| " ++ (H1 ++ (lc " | " ++ (H2 ++
          (lc " |\n| --- | --- |\n| " ++ (A ++ lc " |  |\n\n"))))) := by
    intro m hm
    apply replaceScan_id_of_char m (fun c => c == '<')
    · intro c r x h
      simp [hm c r x h]
    · exact hWtrig
  -- the newline-run pass does not fire
  have hnl : replaceScan nlRunM (lc "\n\n| " ++ (H1 ++ (lc " | " ++ (H2 ++
      (lc " |\n| --- | --- |\n| " ++ (A ++ lc " |  |\n\n")))))) =
      lc "\n\n| " ++ (H1 ++ (lc " | " ++ (H2 ++
        (lc " |\n| --- | --- |\n| " ++ (A ++ lc " |  |\n\n"))))) := by
    apply replaceScan_id
    intro s1 s2 heq hne
    rcases suffix_cases3 heq hne with
      ⟨a2, ha2, hane, rfl⟩ | ⟨q2, ⟨q1, hq⟩, hqne, rfl⟩ | ⟨e1, he1⟩
    · fin_cases ha2 <;> first | exact absurd rfl hane | rfl
    · cases q2 with
      | nil => exact absurd rfl hqne
      | cons d w =>
        exact matcher_none_of_head nlRunM_needs
          (plainC_ne (hall1 d (by rw [hq]; simp)) (by decide)) _
    · rcases suffix_cases3 he1 hne with
        ⟨a2, ha2, hane, rfl⟩ | ⟨q2, ⟨q1, hq⟩, hqne, rfl⟩ | ⟨e2, he2⟩
      · fin_cases ha2 <;> first | exact absurd rfl hane | rfl
      · cases q2 with
        | nil => exact absurd rfl hqne
        | cons d w =>
          exact matcher_none_of_head nlRunM_needs
            (plainC_ne (hall2 d (by rw [hq]; simp)) (by decide)) _
      · rcases suffix_cases3 he2 hne with
          ⟨a2, ha2, hane, rfl⟩ | ⟨q2, ⟨q1, hq⟩, hqne, rfl⟩ | ⟨e3, he3⟩
        · fin_cases ha2 <;> first | exact absurd rfl hane | rfl
        · cases q2 with
          | nil => exact absurd rfl hqne
          | cons d w =>
            exact matcher_none_of_head nlRunM_needs
              (plainC_ne (hallA d (by rw [hq]; simp)) (by decide)) _
        · have hx2 := tails_of_split he3
          fin_cases hx2 <;> first | exact absurd rfl hne | rfl
  -- no trailing whitespace on any line
  have hL1f : jsTrimEnd (lc "| " ++ (H1 ++ (lc " | " ++ (H2 ++ lc " |")))) =
      lc "| " ++ (H1 ++ (lc " | " ++ (H2 ++ lc " |"))) := by
    apply jsTrimEnd_append_fixed (by
      intro h
      exact hne1 (List.append_eq_nil.mp h).1)
    apply jsTrimEnd_append_fixed (fun h => List.noConfusion h)
    apply jsTrimEnd_append_fixed (by
      intro h
      exact hne2 (List.append_eq_nil.mp h).1)
    apply jsTrimEnd_append_fixed (by decide) (by decide)
  have hL3f : jsTrimEnd (lc "| " ++ (A ++ lc " |  |")) =
      lc "| " ++ (A ++ lc " |  |") := by
    apply jsTrimEnd_append_fixed (by
      intro h
      exact hneA (List.append_eq_nil.mp h).1)
    apply jsTrimEnd_append_fixed (by decide) (by decide)
  have hW : lc "\n\n| " ++ (H1 ++ (lc " | " ++ (H2 ++
      (lc " |\n| --- | --- |\n| " ++ (A ++ lc " |  |\n\n"))))) =
    '\n' :: ('\n' :: ((lc "| " ++ (H1 ++ (lc " | " ++ (H2 ++ lc " |")))) ++
      '\n' :: (lc "| --- | --- |" ++
        '\n' :: ((lc "| " ++ (A ++ lc " |  |")) ++ ['\n', '\n'])))) := by
    simp only [List.append_assoc, List.cons_append]
    rfl
  have hsplit : splitOnC '\n' (lc "\n\n| " ++ (H1 ++ (lc " | " ++ (H2 ++
      (lc " |\n| --- | --- |\n| " ++ (A ++ lc " |  |\n\n")))))) =
      [[], [], lc "| " ++ (H1 ++ (lc " | " ++ (H2 ++ lc " |"))),
        lc "| --- | --- |", lc "| " ++ (A ++ lc " |  |"), [], []] := by
    rw [hW]
    rw [splitOnC_cons_sep, splitOnC_cons_sep]
    rw [splitOnC_append_sep (by
      intro c hc
      simp only [List.mem_append] at hc
      rcases hc with hc | hc | hc | hc
      · exact (show ∀ c ∈ lc "| ", c ≠ '\n' by decide) c hc
      · exact plainC_ne (hall1 c hc) (by decide)
      · exact (show ∀ c ∈ lc " | ", c ≠ '\n' by decide) c hc
      · rcases hc with hc | hc
        · exact plainC_ne (hall2 c hc) (by decide)
        · exact (show ∀ c ∈ lc " |", c ≠ '\n' by decide) c hc)]
    rw [splitOnC_append_sep (by decide)]
    rw [splitOnC_append_sep (by
      intro c hc
      simp only [List.mem_append] at hc
      rcases hc with hc | hc | hc
      · exact (show ∀ c ∈ lc "| ", c ≠ '\n' by decide) c hc
      · exact plainC_ne (hallA c hc) (by decide)
      · exact (show ∀ c ∈ lc " |  |", c ≠ '\n' by decide) c hc)]
    rw [splitOnC_cons_sep]
    rfl
  have hTrail : noTrailWS (lc "\n\n| " ++ (H1 ++ (lc " | " ++ (H2 ++
      (lc " |\n| --- | --- |\n| " ++ (A ++ lc " |  |\n\n")))))) := by
    intro l hl
    rw [hsplit] at hl
    simp only [List.mem_cons, List.not_mem_nil, or_false] at hl
    rcases hl with rfl | rfl | rfl | rfl | rfl | rfl | rfl
    · rfl
    · rfl
    · exact hL1f
    · decide
    · exact hL3f
    · rfl
    · rfl
  have hclean := cleanup_id hnl hTrail
  -- final trim strips exactly the blank wrapping
  have hjt : jsTrim (lc "\n\n| " ++ (H1 ++ (lc " | " ++ (H2 ++
      (lc " |\n| --- | --- |\n| " ++ (A ++ lc " |  |\n\n")))))) =
      lc "| " ++ (H1 ++ (lc " | " ++ (H2 ++ (lc " |\n| --- | --- |\n| " ++
        (A ++ lc " |  |"))))) := by
    rw [show lc "\n\n| " ++ (H1 ++ (lc " | " ++ (H2 ++
        (lc " |\n| --- | --- |\n| " ++ (A ++ lc " |  |\n\n"))))) =
      lc "\n\n" ++ ((lc "| " ++ (H1 ++ (lc " | " ++ (H2 ++
        (lc " |\n| --- | --- |\n| " ++ (A ++ lc " |  |")))))) ++ lc "\n\n") from by
        simp only [List.append_assoc]
        rfl]
    apply jsTrim_wrap (fun h => List.noConfusion h)
    · intro x hx
      rw [show (lc "| " ++ (H1 ++ (lc " | " ++ (H2 ++
          (lc " |\n| --- | --- |\n| " ++ (A ++ lc " |  |")))))).head? = some '|'
        from rfl, Option.some.injEq] at hx
      subst hx
      rfl
    · apply jsTrimEnd_append_fixed (by
        intro h
        exact hne1 (List.append_eq_nil.mp h).1)
      apply jsTrimEnd_append_fixed (fun h => List.noConfusion h)
      apply jsTrimEnd_append_fixed (by
        intro h
        exact hne2 (List.append_eq_nil.mp h).1)
      apply jsTrimEnd_append_fixed (fun h => List.noConfusion h)
      apply jsTrimEnd_append_fixed (by
        intro h
        exact hneA (List.append_eq_nil.mp h).1)
      apply jsTrimEnd_append_fixed (by decide) (by decide)
  -- assemble
  show jsTrim (cleanupWhitespaceL (replaceScan brMD (convertInlineFormattingL
    (convertParagraphsL (convertLinksL (convertListsL (convertHeadingsL
      (replaceScan hrMD (convertImagesL (convertCodeBlocksL (convertCalloutsL
        (convertTablesL (stripL (lc "<div class=\"intercom-interblocks-table-container\"><table role=\"presentation\"><tbody>" ++
          ((lc "<tr><td><p class=\"no-margin\">" ++ (H1 ++
            (lc "</p></td><td><p class=\"no-margin\">" ++ (H2 ++
              (lc "</p></td></tr>" ++ (lc "<tr><td><p class=\"no-margin\">" ++
                (A ++ lc "</p></td></tr>"))))))) ++
            lc "</tbody></table></div>"))))))))))))))) =
    mdTable 2 [[H1, H2], [A]]
  rw [hstrip, htab]
  rw [show convertCalloutsL (lc "\n\n| " ++ (H1 ++ (lc " | " ++ (H2 ++
      (lc " |\n| --- | --- |\n| " ++ (A ++ lc " |  |\n\n")))))) =
    lc "\n\n| " ++ (H1 ++ (lc " | " ++ (H2 ++
      (lc " |\n| --- | --- |\n| " ++ (A ++ lc " |  |\n\n"))))) from
    hid _ calloutMD_needs]
  rw [show convertCodeBlocksL (lc "\n\n| " ++ (H1 ++ (lc " | " ++ (H2 ++
      (lc " |\n| --- | --- |\n| " ++ (A ++ lc " |  |\n\n")))))) =
    lc "\n\n| " ++ (H1 ++ (lc " | " ++ (H2 ++
      (lc " |\n| --- | --- |\n| " ++ (A ++ lc " |  |\n\n"))))) from
    hid _ codeBlockMD_needs]
  rw [show convertImagesL (lc "\n\n| " ++ (H1 ++ (lc " | " ++ (H2 ++
      (lc " |\n| --- | --- |\n| " ++ (A ++ lc " |  |\n\n")))))) =
    lc "\n\n| " ++ (H1 ++ (lc " | " ++ (H2 ++
      (lc " |\n| --- | --- |\n| " ++ (A ++ lc " |  |\n\n"))))) from by
      unfold convertImagesL
      rw [hid _ alignedImageMD_needs, hid _ plainImageMD_needs,
        hid _ bareImageMD_needs]]
  rw [hid _ hrMD_needs]
  rw [show convertHeadingsL (lc "\n\n| " ++ (H1 ++ (lc " | " ++ (H2 ++
      (lc " |\n| --- | --- |\n| " ++ (A ++ lc " |  |\n\n")))))) =
    lc "\n\n| " ++ (H1 ++ (lc " | " ++ (H2 ++
      (lc " |\n| --- | --- |\n| " ++ (A ++ lc " |  |\n\n"))))) from by
      unfold convertHeadingsL
      simp only []
      rw [hid _ (alignedHeadingMD_needs 1), hid _ (plainHeadingMD_needs 1),
        hid _ (alignedHeadingMD_needs 2), hid _ (plainHeadingMD_needs 2),
        hid _ (alignedHeadingMD_needs 3), hid _ (plainHeadingMD_needs 3),
        hid _ (alignedHeadingMD_needs 4), hid _ (plainHeadingMD_needs 4)]]
  rw [show convertListsL (lc "\n\n| " ++ (H1 ++ (lc " | " ++ (H2 ++
      (lc " |\n| --- | --- |\n| " ++ (A ++ lc " |  |\n\n")))))) =
    lc "\n\n| " ++ (H1 ++ (lc " | " ++ (H2 ++
      (lc " |\n| --- | --- |\n| " ++ (A ++ lc " |  |\n\n"))))) from by
      unfold convertListsL
      rw [hid _ ulMD_needs, hid _ olMD_needs]]
  rw [show convertLinksL (lc "\n\n| " ++ (H1 ++ (lc " | " ++ (H2 ++
      (lc " |\n| --- | --- |\n| " ++ (A ++ lc " |  |\n\n")))))) =
    lc "\n\n| " ++ (H1 ++ (lc " | " ++ (H2 ++
      (lc " |\n| --- | --- |\n| " ++ (A ++ lc " |  |\n\n"))))) from
    hid _ linkMD_needs]
  rw [show convertParagraphsL (lc "\n\n| " ++ (H1 ++ (lc " | " ++ (H2 ++
      (lc " |\n| --- | --- |\n| " ++ (A ++ lc " |  |\n\n")))))) =
    lc "\n\n| " ++ (H1 ++ (lc " | " ++ (H2 ++
      (lc " |\n| --- | --- |\n| " ++ (A ++ lc " |  |\n\n"))))) from by
      unfold convertParagraphsL
      rw [hid _ alignedParaMD_needs, hid _ noMarginParaMD_needs,
        hid _ plainParaMD_needs]]
  rw [show convertInlineFormattingL (lc "\n\n| " ++ (H1 ++ (lc " | " ++ (H2 ++
      (lc " |\n| --- | --- |\n| " ++ (A ++ lc " |  |\n\n")))))) =
    lc "\n\n| " ++ (H1 ++ (lc " | " ++ (H2 ++
      (lc " |\n| --- | --- |\n| " ++ (A ++ lc " |  |\n\n"))))) from by
      unfold convertInlineFormattingL
      rw [hid _ (pairTagM_needs _ _ _), hid _ (pairTagM_needs _ _ _),
        hid _ codeTagM_needs]]
  rw [hid _ brMD_needs]
  rw [hclean, hjt]
  exact (mdTable_norm H1 H2 A).symm

theorem mdCells_hdr {H1 H2 : List Char} (h1 : plainTextB H1 = true)
    (h2 : plainTextB H2 = true) :
    mdCells (lc " " ++ (H1 ++ (lc " | " ++ (H2 ++ lc " ")))) = [H1, H2] := by
  obtain ⟨hne1, hall1, hh1, hl1⟩ := plainTextB_parts h1
  obtain ⟨hne2, hall2, hh2, hl2⟩ := plainTextB_parts h2
  unfold mdCells
  rw [show lc " " ++ (H1 ++ (lc " | " ++ (H2 ++ lc " "))) =
    (lc " " ++ (H1 ++ lc " ")) ++ '|' :: (lc " " ++ (H2 ++ lc " ")) from by
      simp only [List.append_assoc, List.cons_append]
      rfl]
  rw [splitOnC_append_sep (by
    intro c hc
    simp only [List.mem_append] at hc
    rcases hc with hc | hc | hc
    · exact (show ∀ c ∈ lc " ", c ≠ '|' by decide) c hc
    · exact plainC_ne (hall1 c hc) (by decide)
    · exact (show ∀ c ∈ lc " ", c ≠ '|' by decide) c hc)]
  rw [splitOnC_sep_free (by
    intro c hc
    simp only [List.mem_append] at hc
    rcases hc with hc | hc | hc
    · exact (show ∀ c ∈ lc " ", c ≠ '|' by decide) c hc
    · exact plainC_ne (hall2 c hc) (by decide)
    · exact (show ∀ c ∈ lc " ", c ≠ '|' by decide) c hc)]
  rw [List.map_cons, List.map_cons, List.map_nil]
  rw [show jsTrim (lc " " ++ (H1 ++ lc " ")) = H1 from
    jsTrim_wrap_gen hne1 (by decide) (by decide) hh1
      (fun x hx => by
        rw [jsTrimEnd_fixed_iff] at hl1
        exact hl1 x hx)]
  rw [show jsTrim (lc " " ++ (H2 ++ lc " ")) = H2 from
    jsTrim_wrap_gen hne2 (by decide) (by decide) hh2
      (fun x hx => by
        rw [jsTrimEnd_fixed_iff] at hl2
        exact hl2 x hx)]
  rw [List.filter_cons, List.filter_cons, List.filter_nil]
  rw [if_pos (by
    cases hx : H1 with
    | nil => exact absurd hx hne1
    | cons a b => simp [hx])]
  rw [if_pos (by
    cases hx : H2 with
    | nil => exact absurd hx hne2
    | cons a b => simp [hx])]

theorem mdCells_data {A : List Char} (hA : plainTextB A = true) :
    mdCells (lc "| " ++ (A ++ lc " |  |")) = [A] := by
  obtain ⟨hneA, hallA, hhA, hlA⟩ := plainTextB_parts hA
  unfold mdCells
  rw [show lc "| " ++ (A ++ lc " |  |") =
    '|' :: ((lc " " ++ (A ++ lc " ")) ++ '|' :: (lc "  " ++ '|' :: [])) from by
      simp only [List.append_assoc, List.cons_append]
      rfl]
  rw [splitOnC_cons_sep]
  rw [splitOnC_append_sep (by
    intro c hc
    simp only [List.mem_append] at hc
    rcases hc with hc | hc | hc
    · exact (show ∀ c ∈ lc " ", c ≠ '|' by decide) c hc
    · exact plainC_ne (hallA c hc) (by decide)
    · exact (show ∀ c ∈ lc " ", c ≠ '|' by decide) c hc)]
  rw [splitOnC_append_sep (show ∀ c ∈ lc "  ", c ≠ '|' by decide)]
  rw [show splitOnC '|' [] = [[]] from rfl]
  rw [List.map_cons, List.map_cons, List.map_cons, List.map_cons, List.map_nil]
  rw [show jsTrim (lc " " ++ (A ++ lc " ")) = A from
    jsTrim_wrap_gen hneA (by decide) (by decide) hhA
      (fun x hx => by
        rw [jsTrimEnd_fixed_iff] at hlA
        exact hlA x hx)]
  rw [List.filter_cons, List.filter_cons, List.filter_cons, List.filter_cons,
    List.filter_nil]
  rw [if_neg (by decide), if_pos (by
    cases hx : A with
    | nil => exact absurd hx hneA
    | cons a b => simp [hx]), if_neg (by decide), if_neg (by decide)]

theorem tableHtml_norm2 (H1 H2 A : List Char) :
    tableHtml [[H1, H2], [A, []]] =
      lc "<div class=\"intercom-interblocks-table-container\"><table role=\"presentation\"><tbody>" ++
      ((lc "<tr><td><p class=\"no-margin\">" ++ (H1 ++
        (lc "</p></td><td><p class=\"no-margin\">" ++ (H2 ++
          (lc "</p></td></tr>" ++ (lc "<tr><td><p class=\"no-margin\">" ++
            (A ++ lc "</p></td><td><p class=\"no-margin\"></p></td></tr>"))))))) ++
        lc "</tbody></table></div>") := by
  show (lc "<div class=\"intercom-interblocks-table-container\"><table role=\"presentation\"><tbody>" ++
      joinL ([[H1, H2], [A, []]].map trRow)) ++ lc "</tbody></table></div>" = _
  rw [show joinL ([[H1, H2], [A, []]].map trRow) =
    trRow [H1, H2] ++ (trRow [A, []] ++ []) from rfl]
  rw [show trRow [H1, H2] = (lc "<tr>" ++ (tdCell H1 ++ (tdCell H2 ++ []))) ++
    lc "</tr>" from rfl]
  rw [show trRow [A, []] = (lc "<tr>" ++ (tdCell A ++ (tdCell [] ++ []))) ++
    lc "</tr>" from rfl]
  rw [show tdCell H1 = (lc "<td><p class=\"no-margin\">" ++ H1) ++ lc "</p></td>"
    from rfl]
  rw [show tdCell H2 = (lc "<td><p class=\"no-margin\">" ++ H2) ++ lc "</p></td>"
    from rfl]
  rw [show tdCell A = (lc "<td><p class=\"no-margin\">" ++ A) ++ lc "</p></td>"
    from rfl]
  rw [show tdCell [] = (lc "<td><p class=\"no-margin\">" ++ []) ++ lc "</p></td>"
    from rfl]
  simp only [List.append_assoc, List.cons_append, List.append_nil, List.nil_append]
  rfl

theorem buildShortRow {H1 H2 A : List Char} (h1 : plainTextB H1 = true)
    (h2 : plainTextB H2 = true) (hA : plainTextB A = true) :
    buildTableHtml (lc " " ++ (H1 ++ (lc " | " ++ (H2 ++ lc " "))))
      (lc "| " ++ (A ++ lc " |  |")) = tableHtml [[H1, H2], [A, []]] := by
  obtain ⟨hneA, hallA, hhA, hlA⟩ := plainTextB_parts hA
  have hjb : jsTrim (lc "| " ++ (A ++ lc " |  |")) =
      lc "| " ++ (A ++ lc " |  |") := by
    show jsTrimEnd ((lc "| " ++ (A ++ lc " |  |")).dropWhile jsWs) = _
    rw [show (lc "| " ++ (A ++ lc " |  |")).dropWhile jsWs =
      lc "| " ++ (A ++ lc " |  |") from rfl]
    apply jsTrimEnd_append_fixed (by
      intro h
      exact hneA (List.append_eq_nil.mp h).1)
    apply jsTrimEnd_append_fixed (by decide) (by decide)
  unfold buildTableHtml
  rw [hjb]
  rw [show (lc "| " ++ (A ++ lc " |  |")).isEmpty = false from rfl]
  simp only [Bool.false_eq_true, if_false]
  rw [splitOnC_sep_free (by
    intro c hc
    simp only [List.mem_append] at hc
    rcases hc with hc | hc | hc
    · exact (show ∀ c ∈ lc "| ", c ≠ '\n' by decide) c hc
    · exact plainC_ne (hallA c hc) (by decide)
    · exact (show ∀ c ∈ lc " |  |", c ≠ '\n' by decide) c hc)]
  rw [List.map_cons, List.map_nil]
  rw [mdCells_hdr h1 h2, mdCells_data hA]
  rw [List.filter_cons, List.filter_nil]
  rw [if_pos (show (!List.isEmpty [A]) = true from rfl)]
  rw [tableHtml_norm2]
  rw [show joinL ([H1, H2].map tdCell) = tdCell H1 ++ (tdCell H2 ++ []) from rfl]
  rw [show joinL ([[A]].map (fun row =>
      lc "<tr>" ++
      joinL ((List.range ([H1, H2].length)).map
        (fun i => tdCell ((row.get? i).getD []))) ++
      lc "</tr>")) =
    (lc "<tr>" ++ (tdCell A ++ (tdCell [] ++ [])) ++ lc "</tr>") ++ [] from rfl]
  rw [show tdCell H1 = (lc "<td><p class=\"no-margin\">" ++ H1) ++ lc "</p></td>"
    from rfl]
  rw [show tdCell H2 = (lc "<td><p class=\"no-margin\">" ++ H2) ++ lc "</p></td>"
    from rfl]
  rw [show tdCell A = (lc "<td><p class=\"no-margin\">" ++ A) ++ lc "</p></td>"
    from rfl]
  rw [show tdCell [] = (lc "<td><p class=\"no-margin\">" ++ []) ++ lc "</p></td>"
    from rfl]
  simp only [List.append_assoc, List.cons_append, List.append_nil, List.nil_append]
  rfl

/-- C6: decoding a dialect table whose data row has fewer cells than the
header produces a Markdown table whose column count is the maximum row width
(here 2) with the missing cells empty, and re-encoding that Markdown renders
the missing cells as empty table cells (the row is padded with empty cells up
to the header width). -/
theorem claim_C6_table_normalization :
    (∀ H1 H2 A : List Char, plainTextB H1 = true → plainTextB H2 = true →
      plainTextB A = true →
      htmlToMarkdownL (tableHtml [[H1, H2], [A]]) = mdTable 2 [[H1, H2], [A]] ∧
      ([[H1, H2], [A]].map List.length).foldl max 0 = 2 ∧
      padTo 2 [A] = [A, []] ∧
      buildTableHtml (lc " " ++ (H1 ++ (lc " | " ++ (H2 ++ lc " "))))
        (lc "| " ++ (A ++ lc " |  |")) = tableHtml [[H1, H2], [A, []]]) ∧
    markdownToHtml "| x | y |\n| --- | --- |\n| a |  |" none =
      "<div class=\"intercom-interblocks-table-container\"><table role=\"presentation\"><tbody><tr><td><p class=\"no-margin\">x</p></td><td><p class=\"no-margin\">y</p></td></tr><tr><td><p class=\"no-margin\">a</p></td><td></td></tr></tbody></table></div>" ∧
    htmlToMarkdown (sOf (tableHtml [[lc "x", lc "y"], [lc "a"]])) =
      "| x | y |\n| --- | --- |\n| a |  |" := by
  refine ⟨fun H1 H2 A h1 h2 hA =>
    ⟨tableDecode h1 h2 hA, rfl, rfl, buildShortRow h1 h2 hA⟩, by decide, by decide⟩

/-- Witness for the parametric part of C6: cells `x`, `y` and the single
short-row cell `a`. -/
theorem claim_C6_witness :
    htmlToMarkdownL (tableHtml [[lc "x", lc "y"], [lc "a"]]) =
      mdTable 2 [[lc "x", lc "y"], [lc "a"]] ∧
    buildTableHtml (lc " " ++ (lc "x" ++ (lc " | " ++ (lc "y" ++ lc " "))))
      (lc "| " ++ (lc "a" ++ lc " |  |")) =
      tableHtml [[lc "x", lc "y"], [lc "a", []]] :=
  ⟨(claim_C6_table_normalization.1 (lc "x") (lc "y") (lc "a")
      (by decide) (by decide) (by decide)).1,
   (claim_C6_table_normalization.1 (lc "x") (lc "y") (lc "a")
      (by decide) (by decide) (by decide)).2.2.2⟩
